import Mathlib

/-!
# Verification of the Locaweb cloud-deploy reconciler

A shallow embedding of `scripts/provision_infrastructure.py` and the
volume-selection step of `scripts/teardown_infrastructure.py`, together with
proofs about the properties claimed in the specification.

The embedding follows the Python source function by function:

* The **control-plane adapter** (`cmk` / `cmk_quiet`) is modelled over an
  oracle `Nat → Attempt` furnishing the outcome of each `subprocess.run`
  invocation (launch failure, or exit code plus captured stdout/stderr).
  JSON parsing of stdout is abstracted by an oracle-furnished
  `Option Nat` (`some v` when `json.loads` succeeds, `none` when it raises).

* The **reconciler** (`provision`) is modelled as an explicit state-passing
  function over a `St` record holding the cloud account's resources as the
  provider would list them (ordered lists; the Python code scans provider
  list responses front to back, which is `List.find?`).  Every mutating
  (non-`list`) cmk command appends one `Cmd` to `St.log`; `list` commands
  are pure reads and append nothing.  In this model mutating provider calls
  succeed deterministically (transient provider faults live below the
  adapter and are studied separately with the adapter model); the one
  provider-state-dependent failure kept is live VM scaling, governed by
  `Env.scaleNeedsStop`.  Fatal Python exceptions are `Except.error` values
  carrying the message and the account state at the moment of the raise.

* Fresh provider ids are drawn from the counter `St.fresh`; well-formed
  states have every existing id below the counter.

* Cloud-init userdata handling in `deploy_vm` (reading a script file and
  base64-encoding it) only adds an argument to the deploy command and is
  elided: it affects neither the account state nor the reconciler's output.
-/

/-! ## Control-plane adapter (`cmk`, `cmk_quiet`) -/

/-- Outcome of one `subprocess.run(["cmk", *args], capture_output=True)` call.
`launchFail` models an `OSError` (e.g. `FileNotFoundError`) raised by
`subprocess.run` itself, before any process executes.  `ran` models a
completed process: exit code, raw stdout, the result of `json.loads` on that
stdout (`some v` on success, `none` when it would raise `JSONDecodeError`),
and raw stderr. -/
inductive Attempt where
  | launchFail
  | ran (exitCode : Int) (stdoutRaw : String) (stdoutJson : Option Nat) (stderrRaw : String)
deriving DecidableEq, Repr

/-- A Python value returned by `cmk`: the literal `{}` produced on empty
stdout, or the object parsed by `json.loads` (abstracted to an opaque tag). -/
inductive PyObj where
  | emptyDict
  | json (v : Nat)
deriving DecidableEq, Repr

/-- An exception escaping `cmk` other than the `RuntimeError` it raises
itself: `jsonDecode` is `json.JSONDecodeError` from `json.loads`, `launch`
is the `OSError` from `subprocess.run`. -/
inductive CmkExn where
  | jsonDecode
  | launch
deriving DecidableEq, Repr

/-- Result of a `cmk(*args)` call. -/
inductive CmkRes where
  | ok (v : PyObj)
  | runtimeErr (msg : String)
  | exn (e : CmkExn)
deriving DecidableEq, Repr

/-- A complete run of `cmk`: its result, the number of `subprocess.run`
invocations attempted, and the backoff sleeps performed (in seconds, in
order). -/
structure CmkRun where
  res : CmkRes
  runs : Nat
  sleeps : List Nat
deriving DecidableEq, Repr

def CMK_MAX_RETRIES : Nat := 5

/-- Python `str.strip()` (over the ASCII whitespace characters Python
strips; the full Unicode set is immaterial here). -/
def isPySpace (c : Char) : Bool :=
  c == ' ' || c == '\t' || c == '\n' || c == '\r' || c == '\x0b' || c == '\x0c'

def pyStrip (s : String) : String :=
  ⟨((s.data.dropWhile isPySpace).reverse.dropWhile isPySpace).reverse⟩

/-- `error_msg = result.stderr.strip() or result.stdout.strip()` -/
def errorMsgOf (stdoutRaw stderrRaw : String) : String :=
  if pyStrip stderrRaw = "" then pyStrip stdoutRaw else pyStrip stderrRaw

/-- The body of `cmk`'s `for attempt in range(CMK_MAX_RETRIES + 1)` loop,
entered at iteration `attempt`. -/
def cmkLoop (attempts : Nat → Attempt) (attempt : Nat) : CmkRun :=
  match attempts attempt with
  | .launchFail => ⟨.exn .launch, 1, []⟩
  | .ran code out js err =>
    if code = 0 then
      if pyStrip out = "" then ⟨.ok .emptyDict, 1, []⟩
      else
        match js with
        | some v => ⟨.ok (.json v), 1, []⟩
        | none => ⟨.exn .jsonDecode, 1, []⟩
    else
      if _h : attempt < CMK_MAX_RETRIES then
        let rest := cmkLoop attempts (attempt + 1)
        ⟨rest.res, rest.runs + 1, 2 ^ (attempt + 1) :: rest.sleeps⟩
      else
        ⟨.runtimeErr (errorMsgOf out err), 1, []⟩
termination_by CMK_MAX_RETRIES - attempt
decreasing_by omega

/-- `cmk(*args)` with the given oracle of per-attempt outcomes. -/
def cmk (attempts : Nat → Attempt) : CmkRun :=
  cmkLoop attempts 0

/-- Result of `cmk_quiet`: the value, `None` (a swallowed `RuntimeError`),
or a propagating exception. -/
inductive QuietRes where
  | val (v : PyObj)
  | noneRes
  | exn (e : CmkExn)
deriving DecidableEq, Repr

/-- `cmk_quiet(*args)`: `try: return cmk(*args) except RuntimeError: return None`. -/
def cmkQuiet (attempts : Nat → Attempt) : QuietRes :=
  match (cmk attempts).res with
  | .ok v => .val v
  | .runtimeErr _ => .noneRes
  | .exn e => .exn e

/-- The backoff schedule 2, 4, 8, 16, 32 seconds. -/
def backoffSchedule : List Nat := [2, 4, 8, 16, 32]

/-- An attempt that ran and exited nonzero (the only retried outcome). -/
def attemptFailedNonzero (a : Attempt) : Prop :=
  ∃ c out js err, a = .ran c out js err ∧ c ≠ 0

instance (a : Attempt) : Decidable (attemptFailedNonzero a) := by
  unfold attemptFailedNonzero
  cases a with
  | launchFail => exact .isFalse (by rintro ⟨c, o, j, e, h, _⟩; cases h)
  | ran c o j e =>
    by_cases hc : c = 0
    · exact .isFalse (by rintro ⟨c', o', j', e', h, hne⟩; cases h; exact hne hc)
    · exact .isTrue ⟨c, o, j, e, rfl, hc⟩

/-! ## Template discovery (`discover_template`) -/

/-- A template record as returned by
`list templates templatefilter=featured keyword=Ubuntu zoneid=...`.
`created` is CloudStack's creation timestamp: an ISO-8601 string whose
lexicographic order coincides with chronological order; it is modelled as a
totally ordered `Nat`. -/
structure TemplateR where
  id : String
  name : String
  created : Nat
  zoneId : String
  featured : Bool
deriving DecidableEq, Repr

/-- Python `re.match(r"^Ubuntu.*24.*$", name)`.  With Python semantics `.`
excludes `'\n'` and `$` matches at the end of the string or just before a
single trailing `'\n'`; hence the regex matches iff the name starts with
`"Ubuntu"` and, after removing at most one trailing newline, the remainder
is newline-free and contains `"24"`. -/
def matchesTemplateRegex (name : String) : Bool :=
  let cs := name.data
  if "Ubuntu".data.isPrefixOf cs then
    let rest := cs.drop 6
    let core := if rest.getLast? = some '\n' then rest.dropLast else rest
    core.all (fun c => c ≠ '\n') && decide (List.IsInfix ['2', '4'] core)
  else
    false

/-- The filtering-and-deduplication loop of `discover_template`: keep each
regex-matching template whose id has not been seen yet, in response order. -/
def templateScan : List TemplateR → List String → List TemplateR
  | [], _ => []
  | t :: ts, seen =>
    if matchesTemplateRegex t.name && !(seen.contains t.id) then
      t :: templateScan ts (t.id :: seen)
    else
      templateScan ts seen

/-- `sorted(matches, key=lambda t: t["created"], reverse=True)[0]`: Python's
sort is stable, so the head of the descending sort is the first element of
the list attaining the maximal `created`. -/
def pickFirstMax : TemplateR → List TemplateR → TemplateR
  | best, [] => best
  | best, t :: ts =>
    if best.created < t.created then pickFirstMax t ts else pickFirstMax best ts

/-- The provider-side response to the template list query: featured templates
of the zone whose name contains the keyword `"Ubuntu"` (CloudStack keyword
filtering; any name accepted by the regex contains `"Ubuntu"`, so the
keyword filter never removes a regex match). -/
def templatesListedFor (templates : List TemplateR) (zoneId : String) : List TemplateR :=
  templates.filter fun t =>
    t.featured && t.zoneId == zoneId && decide (List.IsInfix "Ubuntu".data t.name.data)

/-- The deduplicated regex matches `discover_template` selects from. -/
def templateMatches (templates : List TemplateR) (zoneId : String) : List TemplateR :=
  templateScan (templatesListedFor templates zoneId) []

/-- `discover_template(zone_id)` over the account's template catalog. -/
def discover_template (templates : List TemplateR) (zoneId : String) : Except String String :=
  match templateMatches templates zoneId with
  | [] => .error "No Ubuntu template matching ^Ubuntu.*24.*$ found"
  | m :: ms => .ok (pickFirstMax m ms).id

/-! ## Decimal rendering of naturals

Python renders worker indices with `f"{network_name}-worker-{i}"`.
`natToDec` is the standard decimal rendering (extensionally the same string
Python produces); its injectivity is what makes distinct worker indices
yield distinct VM names. -/

def natToDecCore (fuel n : Nat) : List Char :=
  match fuel with
  | 0 => []
  | fuel + 1 =>
    if n < 10 then [Nat.digitChar n]
    else natToDecCore fuel (n / 10) ++ [Nat.digitChar (n % 10)]

def natToDec (n : Nat) : String :=
  ⟨natToDecCore (n + 1) n⟩

def decDigitVal (c : Char) : Nat := c.toNat - 48

def parseDecFrom (acc : Nat) (l : List Char) : Nat :=
  l.foldl (fun a c => a * 10 + decDigitVal c) acc

theorem digitChar_val (n : Nat) (h : n < 10) : decDigitVal (Nat.digitChar n) = n := by
  interval_cases n <;> rfl

theorem parseDecFrom_natToDecCore :
    ∀ fuel n acc, n < 10 ^ fuel → 0 < fuel →
      parseDecFrom acc (natToDecCore fuel n)
        = acc * 10 ^ (natToDecCore fuel n).length + n := by
  intro fuel
  induction fuel with
  | zero => omega
  | succ f ih =>
    intro n acc hlt _
    unfold natToDecCore
    by_cases h : n < 10
    · simp [h, parseDecFrom, digitChar_val n h]
    · simp only [if_neg h]
      have hfpos : 0 < f := by
        rcases Nat.eq_zero_or_pos f with hf | hf
        · subst hf
          simp at hlt
          omega
        · exact hf
      have hdiv : n / 10 < 10 ^ f := by
        have h1 : n < 10 ^ f * 10 := by
          rw [pow_succ] at hlt
          omega
        omega
      have hrec := ih (n / 10) acc hdiv hfpos
      have h10 : n % 10 < 10 := Nat.mod_lt _ (by omega)
      simp only [parseDecFrom, List.foldl_append, List.foldl_cons, List.foldl_nil] at hrec ⊢
      rw [hrec, digitChar_val _ h10]
      rw [List.length_append]
      simp only [List.length_cons, List.length_nil]
      have hpow : acc * 10 ^ ((natToDecCore f (n / 10)).length + 1)
          = acc * 10 ^ (natToDecCore f (n / 10)).length * 10 := by ring
      rw [hpow]
      omega

theorem natToDec_injective : Function.Injective natToDec := by
  intro a b h
  have hdata : natToDecCore (a + 1) a = natToDecCore (b + 1) b := congrArg String.data h
  have hpa : a < 10 ^ (a + 1) := by
    calc a < a + 1 := by omega
    _ < 2 ^ (a + 1) := Nat.lt_two_pow (a + 1)
    _ ≤ 10 ^ (a + 1) := Nat.pow_le_pow_left (by omega) _
  have hpb : b < 10 ^ (b + 1) := by
    calc b < b + 1 := by omega
    _ < 2 ^ (b + 1) := Nat.lt_two_pow (b + 1)
    _ ≤ 10 ^ (b + 1) := Nat.pow_le_pow_left (by omega) _
  have ha := parseDecFrom_natToDecCore (a + 1) a 0 hpa (by omega)
  have hb := parseDecFrom_natToDecCore (b + 1) b 0 hpb (by omega)
  rw [hdata] at ha
  simp only [Nat.zero_mul, Nat.zero_add] at ha hb
  omega

/-! ## Derived resource names -/

def networkNameOf (repoName uniqueId : String) : String :=
  repoName ++ "-" ++ uniqueId

def keypairNameOf (networkName : String) : String := networkName ++ "-key"

def webVmNameOf (networkName : String) : String := networkName ++ "-web"

def workerVmNameOf (networkName : String) (i : Nat) : String :=
  networkName ++ "-worker-" ++ natToDec i

def dbVmNameOf (networkName : String) : String := networkName ++ "-db"

def blobDiskNameOf (networkName : String) : String := networkName ++ "-blob"

def dbDiskNameOf (networkName : String) : String := networkName ++ "-dbdata"

theorem string_append_cancel_left {s t u : String} (h : s ++ t = s ++ u) : t = u := by
  have h2 : (s ++ t).data = (s ++ u).data := by rw [h]
  simp only [String.data_append] at h2
  exact String.ext (List.append_cancel_left h2)

theorem workerVmNameOf_inj {net : String} {i j : Nat}
    (h : workerVmNameOf net i = workerVmNameOf net j) : i = j := by
  unfold workerVmNameOf at h
  rw [String.append_assoc, String.append_assoc] at h
  have := string_append_cancel_left (string_append_cancel_left h)
  exact natToDec_injective this

theorem webVmNameOf_ne_workerVmNameOf (net : String) (i : Nat) :
    webVmNameOf net ≠ workerVmNameOf net i := by
  intro h
  unfold webVmNameOf workerVmNameOf at h
  rw [String.append_assoc] at h
  have h2 := string_append_cancel_left h
  have h3 : "-web".data = ("-worker-" ++ natToDec i).data := congrArg String.data h2
  simp only [String.data_append] at h3
  simp [String.data] at h3

theorem dbVmNameOf_ne_workerVmNameOf (net : String) (i : Nat) :
    dbVmNameOf net ≠ workerVmNameOf net i := by
  intro h
  unfold dbVmNameOf workerVmNameOf at h
  rw [String.append_assoc] at h
  have h2 := string_append_cancel_left h
  have h3 : "-db".data = ("-worker-" ++ natToDec i).data := congrArg String.data h2
  simp only [String.data_append] at h3
  simp [String.data] at h3

/-! ## The cloud account state -/

/-- A network as listed by `list networks filter=id,name,zoneid`. -/
structure NetworkR where
  id : Nat
  name : String
  zoneId : String
deriving DecidableEq, Repr

/-- A VM as listed by `list virtualmachines`.  `offering` is
`serviceofferingid` (`""` when the provider omits the field), `nicIp` the
primary NIC's private address. -/
structure VMR where
  id : Nat
  name : String
  state : String
  offering : String
  netId : Nat
  nicIp : String
deriving DecidableEq, Repr

/-- A volume as listed by `list volumes`.  `isData` is `type=DATADISK`,
`vmId` is `virtualmachineid` (set when attached), `size` in bytes. -/
structure VolR where
  id : Nat
  name : String
  isData : Bool
  vmId : Option Nat
  size : Nat
  zoneId : String
  tags : List (String × String)
deriving DecidableEq, Repr

/-- A public IP as listed by `list publicipaddresses`.  `vmId` is
`virtualmachineid`: the VM the address is static-NATed to. -/
structure IpR where
  id : Nat
  address : String
  netId : Nat
  isSourceNat : Bool
  isStaticNat : Bool
  vmId : Option Nat
deriving DecidableEq, Repr

/-- A firewall rule as listed by `list firewallrules`. -/
structure FwR where
  id : Nat
  ipId : Nat
  startport : Nat
  endport : Nat
  protocol : String
  cidr : String
deriving DecidableEq, Repr

/-- A snapshot policy as listed by `list snapshotpolicies volumeid=...`. -/
structure SpR where
  id : Nat
  volumeId : Nat
deriving DecidableEq, Repr

/-- One mutating (non-`list`) cmk command, as issued by the reconciler. -/
inductive Cmd where
  | createNetwork (name : String) (netOfferingId zoneId : String)
  | registerKeypair (name publicKey : String)
  | deployVM (name : String) (offeringId templateId zoneId : String) (netId : Nat)
      (keypair : String)
  | scaleVM (vmId : Nat) (offeringId : String)
  | stopVM (vmId : Nat)
  | startVM (vmId : Nat)
  | destroyVM (vmId : Nat) (expunge : Bool)
  | associateIP (netId : Nat)
  | enableStaticNat (ipId vmId : Nat)
  | disableStaticNat (ipId : Nat)
  | createFirewallRule (ipId : Nat) (startport endport : Nat) (protocol cidr : String)
  | deleteFirewallRule (ruleId : Nat)
  | disassociateIP (ipId : Nat)
  | createVolume (name : String) (diskOfferingId zoneId : String) (sizeGB : Nat)
  | createTags (resourceId : Nat) (key value : String)
  | attachVolume (volId vmId : Nat)
  | resizeVolume (volId : Nat) (sizeGB : Nat)
  | createSnapshotPolicy (volId : Nat) (schedule : String) (maxsnaps : Nat)
      (timezone zoneIds : String) (tagKey tagValue : String)
deriving DecidableEq, Repr

/-- The cloud account: each resource list in provider listing order (new
resources are appended at the end), a fresh-id counter, and the chronological
log of mutating commands issued so far. -/
structure St where
  networks : List NetworkR
  keypairs : List String
  vms : List VMR
  volumes : List VolR
  ips : List IpR
  fwRules : List FwR
  policies : List SpR
  fresh : Nat
  log : List Cmd
deriving DecidableEq, Repr

/-- The read-only environment: the account's catalogs (name/id pairs), the
template catalog, and whether live VM scaling is refused by the provider
(forcing the stop → scale → start fallback). -/
structure Env where
  zones : List (String × String)
  netOfferings : List (String × String)
  svcOfferings : List (String × String)
  diskOfferings : List (String × String)
  templates : List TemplateR
  scaleNeedsStop : Bool
deriving Repr

/-- The desired-state configuration file (validated JSON). -/
structure Config where
  zone : String
  webPlan : String
  blobDiskSizeGB : Nat
  workersEnabled : Bool
  workersReplicas : Nat
  workersPlan : String
  dbEnabled : Bool
  dbPlan : String
  dbDiskSizeGB : Nat
deriving DecidableEq, Repr

/-- `ProvisionOutput`: the `results` dict written by `provision`.  Optional
fields are present iff the role exists. -/
structure Output where
  network_name : String
  network_id : Nat
  keypair_name : String
  web_vm_id : Nat
  worker_vm_ids : Option (List Nat)
  db_vm_id : Option Nat
  web_ip : String
  web_ip_id : Nat
  worker_ips : Option (List String)
  db_ip : Option String
  db_ip_id : Option Nat
  blob_volume_id : Nat
  db_volume_id : Option Nat
  web_internal_ip : String
  worker_internal_ips : Option (List String)
  db_internal_ip : Option String
deriving DecidableEq, Repr

/-! ## Resolution helpers (catalog lookups; pure reads) -/

/-- `resolve_zone`: exact-name scan of `list zones`. -/
def resolve_zone (env : Env) (zoneName : String) : Except String String :=
  match env.zones.find? (fun z => z.1 == zoneName) with
  | some z => .ok z.2
  | none => .error ("Zone '" ++ zoneName ++ "' not found")

/-- `resolve_all_zone_ids`. -/
def resolve_all_zone_ids (env : Env) : List String :=
  env.zones.map (·.2)

/-- `resolve_network_offering`. -/
def resolve_network_offering (env : Env) (name : String) : Except String String :=
  match env.netOfferings.find? (fun z => z.1 == name) with
  | some z => .ok z.2
  | none => .error ("Network offering '" ++ name ++ "' not found")

/-- `resolve_service_offering`. -/
def resolve_service_offering (env : Env) (name : String) : Except String String :=
  match env.svcOfferings.find? (fun z => z.1 == name) with
  | some z => .ok z.2
  | none => .error ("Service offering '" ++ name ++ "' not found")

/-- `resolve_disk_offering`. -/
def resolve_disk_offering (env : Env) (name : String) : Except String String :=
  match env.diskOfferings.find? (fun z => z.1 == name) with
  | some z => .ok z.2
  | none => .error ("Disk offering '" ++ name ++ "' not found")

/-! ## Idempotency helpers (state readers; pure reads) -/

/-- `find_network`: first network with the given name, any zone; its id. -/
def find_network (name : String) (s : St) : Option Nat :=
  (s.networks.find? (fun n => n.name == name)).map (·.id)

/-- `find_keypair`. -/
def find_keypair (name : String) (s : St) : Bool :=
  s.keypairs.contains name

/-- `find_vm`: first VM with the given name. -/
def find_vm (name : String) (s : St) : Option VMR :=
  s.vms.find? (fun v => v.name == name)

/-- `find_volume`: first DATADISK volume with the given name. -/
def find_volume (name : String) (s : St) : Option VolR :=
  s.volumes.find? (fun v => v.isData && v.name == name)

/-- `find_public_ips`: non-source-NAT public IPs of the network, in listing
order. -/
def find_public_ips (netId : Nat) (s : St) : List IpR :=
  (s.ips.filter (fun ip => ip.netId == netId)).filter (fun ip => !ip.isSourceNat)

/-- `find_firewall_rules`. -/
def find_firewall_rules (ipId : Nat) (s : St) : List FwR :=
  s.fwRules.filter (fun r => r.ipId == ipId)

/-- `find_public_ip_for_vm`: first public IP of the network whose
`virtualmachineid` is the given VM. -/
def find_public_ip_for_vm (netId vmId : Nat) (s : St) : Option IpR :=
  (s.ips.filter (fun ip => ip.netId == netId)).find? (fun ip => ip.vmId == some vmId)

/-- `get_vm_internal_ip`: the primary NIC address of the VM with the given
id (`list virtualmachines id=...` then `[0]["nic"][0]["ipaddress"]`;
`none` models the `IndexError` when the VM is gone). -/
def get_vm_internal_ip (vmId : Nat) (s : St) : Option String :=
  (s.vms.find? (fun v => v.id == vmId)).map (·.nicIp)

/-! ## Mutator primitives

Each primitive applies the provider-side effect of one mutating cmk command
and appends the command to the log.  In this model every issued mutation
succeeds (the adapter's retry layer is studied separately); the one
provider-refused mutation kept is live scaling of a running VM when
`Env.scaleNeedsStop` is set, which the source handles with an explicit
fallback path. -/

def NETWORK_OFFERING_NAME : String := "Default Guest Network"
def DISK_OFFERING_NAME : String := "data.disk.general"
def SNAPSHOT_SCHEDULE : String := "00:03"
def SNAPSHOT_MAX : Nat := 3
def SNAPSHOT_TIMEZONE : String := "America/Sao_Paulo"

/-- `create network ...`: fresh id, appended to the listing. -/
def cmkCreateNetwork (name netOffId zoneId : String) (s : St) : Nat × St :=
  (s.fresh,
   { s with
     networks := s.networks ++ [⟨s.fresh, name, zoneId⟩]
     fresh := s.fresh + 1
     log := s.log ++ [.createNetwork name netOffId zoneId] })

/-- `register sshkeypair ...`. -/
def cmkRegisterKeypair (name publicKey : String) (s : St) : St :=
  { s with
    keypairs := s.keypairs ++ [name]
    log := s.log ++ [.registerKeypair name publicKey] }

/-- `deploy virtualmachine ...`: fresh id, `Running`, the desired offering,
a NIC address derived from the fresh id. -/
def cmkDeployVM (name offId tmplId zoneId : String) (netId : Nat) (keypair : String)
    (s : St) : Nat × St :=
  (s.fresh,
   { s with
     vms := s.vms ++ [⟨s.fresh, name, "Running", offId, netId, "nic-" ++ natToDec s.fresh⟩]
     fresh := s.fresh + 1
     log := s.log ++ [.deployVM name offId tmplId zoneId netId keypair] })

/-- Replace the offering of the VM with the given id. -/
def setVmOffering (vmId : Nat) (off : String) (s : St) : St :=
  { s with vms := s.vms.map fun v => if v.id == vmId then { v with offering := off } else v }

/-- Replace the state of the VM with the given id. -/
def setVmState (vmId : Nat) (vmState : String) (s : St) : St :=
  { s with vms := s.vms.map fun v => if v.id == vmId then { v with state := vmState } else v }

/-- Whether the provider accepts `scale virtualmachine` for this VM:
refused exactly when `scaleNeedsStop` and the VM is not `Stopped`. -/
def liveScaleAccepted (env : Env) (vmId : Nat) (s : St) : Bool :=
  !env.scaleNeedsStop || s.vms.any fun v => v.id == vmId && v.state == "Stopped"

/-- `scale virtualmachine` (successful). -/
def cmkScaleVM (vmId : Nat) (off : String) (s : St) : St :=
  { setVmOffering vmId off s with log := s.log ++ [.scaleVM vmId off] }

/-- `stop virtualmachine` (synchronous in this model). -/
def cmkStopVM (vmId : Nat) (s : St) : St :=
  { setVmState vmId "Stopped" s with log := s.log ++ [.stopVM vmId] }

/-- `start virtualmachine` (synchronous in this model). -/
def cmkStartVM (vmId : Nat) (s : St) : St :=
  { setVmState vmId "Running" s with log := s.log ++ [.startVM vmId] }

/-- The `for _ in range(30)` stop-poll loop of `scale_vm`: pure reads. -/
def waitStopLoop (name : String) (s : St) : Nat → Unit
  | 0 => ()
  | fuel + 1 =>
    match find_vm name s with
    | some vm => if vm.state == "Stopped" then () else waitStopLoop name s fuel
    | none => waitStopLoop name s fuel

/-- `scale_vm`: live scale first; when the provider refuses, stop → poll →
scale → start. -/
def scale_vm (env : Env) (vmId : Nat) (name : String) (newOff : String) (s : St) : St :=
  if liveScaleAccepted env vmId s then
    cmkScaleVM vmId newOff s
  else
    let s1 := cmkStopVM vmId s
    let _ := waitStopLoop name s1 30
    let s2 := cmkScaleVM vmId newOff s1
    cmkStartVM vmId s2

/-- `deploy_vm`: return the existing VM's id (scaling in place when its
offering is known and differs), or deploy a new one.  Userdata is elided
(see the module comment). -/
def deploy_vm (env : Env) (name offId tmplId zoneId : String) (netId : Nat)
    (keypair : String) (s : St) : Nat × St :=
  match find_vm name s with
  | some vm =>
    if vm.offering != "" && vm.offering != offId then
      (vm.id, scale_vm env vm.id name offId s)
    else
      (vm.id, s)
  | none => cmkDeployVM name offId tmplId zoneId netId keypair s

/-- `disable staticnat ...`: clears the NAT binding of the IP. -/
def cmkDisableStaticNat (ipId : Nat) (s : St) : St :=
  { s with
    ips := s.ips.map fun ip =>
      if ip.id == ipId then { ip with isStaticNat := false, vmId := none } else ip
    log := s.log ++ [.disableStaticNat ipId] }

/-- `delete firewallrule ...`. -/
def cmkDeleteFirewallRule (ruleId : Nat) (s : St) : St :=
  { s with
    fwRules := s.fwRules.filter fun r => !(r.id == ruleId)
    log := s.log ++ [.deleteFirewallRule ruleId] }

/-- `disassociate ipaddress ...`. -/
def cmkDisassociateIP (ipId : Nat) (s : St) : St :=
  { s with
    ips := s.ips.filter fun ip => !(ip.id == ipId)
    log := s.log ++ [.disassociateIP ipId] }

/-- `destroy virtualmachine ... expunge=true`. -/
def cmkDestroyVM (vmId : Nat) (s : St) : St :=
  { s with
    vms := s.vms.filter fun v => !(v.id == vmId)
    log := s.log ++ [.destroyVM vmId true] }

/-- The `for r in rules` deletion loop of `remove_vm_and_ip`. -/
def deleteFwRulesLoop (rules : List FwR) (s : St) : St :=
  rules.foldl (fun acc r => cmkDeleteFirewallRule r.id acc) s

/-- `remove_vm_and_ip`: disable NAT (when enabled), delete the IP's firewall
rules, disassociate the IP, destroy the VM with expunge. -/
def remove_vm_and_ip (vmId netId : Nat) (s : St) : St :=
  match find_public_ip_for_vm netId vmId s with
  | some ip =>
    if !ip.isSourceNat then
      let s1 := if ip.isStaticNat then cmkDisableStaticNat ip.id s else s
      let s2 := deleteFwRulesLoop (find_firewall_rules ip.id s1) s1
      let s3 := cmkDisassociateIP ip.id s2
      cmkDestroyVM vmId s3
    else
      cmkDestroyVM vmId s
  | none => cmkDestroyVM vmId s

theorem remove_vm_and_ip_vms_sub (vmId netId : Nat) (s : St) :
    (remove_vm_and_ip vmId netId s).vms = s.vms.filter fun v => !(v.id == vmId) := by
  unfold remove_vm_and_ip
  cases h : find_public_ip_for_vm netId vmId s with
  | none => rfl
  | some ip =>
    by_cases hs : ip.isSourceNat
    · simp [hs, cmkDestroyVM]
    · have hvms1 : (if ip.isStaticNat then cmkDisableStaticNat ip.id s else s).vms = s.vms := by
        by_cases hn : ip.isStaticNat <;> simp [hn, cmkDisableStaticNat]
      have hvms2 : ∀ rules t, (deleteFwRulesLoop rules t).vms = (t : St).vms := by
        intro rules
        induction rules with
        | nil => intro t; rfl
        | cons r rest ih =>
          intro t
          simp [deleteFwRulesLoop] at ih ⊢
          rw [ih]
          rfl
      simp only [hs, Bool.not_false, if_true]
      simp [cmkDestroyVM, cmkDisassociateIP, hvms2, hvms1]

theorem find_vm_mem {name : String} {s : St} {vm : VMR} (h : find_vm name s = some vm) :
    vm ∈ s.vms := by
  unfold find_vm at h
  exact List.mem_of_find?_eq_some h

theorem find_vm_name {name : String} {s : St} {vm : VMR} (h : find_vm name s = some vm) :
    vm.name = name := by
  unfold find_vm at h
  have := List.find?_some h
  simpa using this

theorem remove_vm_and_ip_vms_length {vmId netId : Nat} {s : St}
    (h : ∃ v ∈ s.vms, v.id = vmId) :
    (remove_vm_and_ip vmId netId s).vms.length < s.vms.length := by
  rw [remove_vm_and_ip_vms_sub]
  obtain ⟨v, hv, hid⟩ := h
  exact List.length_filter_lt_length_iff_exists.mpr ⟨v, hv, by simp [hid]⟩

/-- The `while True` excess-worker removal loop of `provision`, entered at
worker index `idx`. -/
def removeExcessLoop (networkName : String) (netId : Nat) (idx : Nat) (s : St) : St :=
  match h : find_vm (workerVmNameOf networkName idx) s with
  | none => s
  | some vm => removeExcessLoop networkName netId (idx + 1) (remove_vm_and_ip vm.id netId s)
termination_by s.vms.length
decreasing_by
  exact remove_vm_and_ip_vms_length ⟨_, find_vm_mem h, rfl⟩

/-! ## IP wiring -/

/-- `associate ipaddress networkid=...`: a fresh non-source-NAT IP with no
NAT binding, appended to the network's listing. -/
def cmkAssociateIP (netId : Nat) (s : St) : IpR × St :=
  let ip : IpR := ⟨s.fresh, "ip-" ++ natToDec s.fresh, netId, false, false, none⟩
  (ip,
   { s with
     ips := s.ips ++ [ip]
     fresh := s.fresh + 1
     log := s.log ++ [.associateIP netId] })

/-- `enable staticnat ipaddressid=... virtualmachineid=...`. -/
def cmkEnableStaticNat (ipId vmId : Nat) (s : St) : St :=
  { s with
    ips := s.ips.map fun ip =>
      if ip.id == ipId then { ip with isStaticNat := true, vmId := some vmId } else ip
    log := s.log ++ [.enableStaticNat ipId vmId] }

/-- The `for _ in range(new_needed)` loop: associate new IPs one at a time,
appending each to the local pool (Python's `unassigned.append(...)`). -/
def associateLoop (netId : Nat) (k : Nat) (pool : List IpR) (s : St) : List IpR × St :=
  match k with
  | 0 => (pool, s)
  | k + 1 =>
    let (ip, s1) := cmkAssociateIP netId s
    associateLoop netId k (pool ++ [ip]) s1

/-- Lookup in the `ip_map` dict (keys are VM ids). -/
def lookupIpMap (m : List (Nat × IpR)) (vmId : Nat) : Option IpR :=
  (m.find? (fun e => e.1 == vmId)).map (·.2)

/-- The assignment loop: give each VM still missing an IP the next pool
entry (`unassigned[ui]; ui += 1`) and enable static NAT on it.  The error
models the `IndexError` Python would raise on an exhausted pool. -/
def assignNatLoop (pending : List (String × Nat)) (pool : List IpR) (s : St) :
    Except (String × St) (List (Nat × IpR) × St) :=
  match pending, pool with
  | [], _ => .ok ([], s)
  | _ :: _, [] => .error ("IndexError: list index out of range", s)
  | (_, vmId) :: rest, ip :: pool' =>
    let s1 := cmkEnableStaticNat ip.id vmId s
    match assignNatLoop rest pool' s1 with
    | .error e => .error e
    | .ok (m, s2) => .ok ((vmId, ip) :: m, s2)

/-- The `ip_map` entries built from existing static-NAT bindings
(`for label, vm_id in vm_assignments: existing_ip = find_public_ip_for_vm(...)`). -/
def reuseMapOf (netId : Nat) (assignments : List (String × Nat)) (s : St) :
    List (Nat × IpR) :=
  assignments.filterMap fun a =>
    (find_public_ip_for_vm netId a.2 s).map fun ip => (a.2, ip)

/-- `unassigned`: the non-source-NAT IPs of the network not already serving
a reused binding (`assigned_ip_ids`). -/
def unassignedPoolOf (netId : Nat) (assignments : List (String × Nat)) (s : St) :
    List IpR :=
  (find_public_ips netId s).filter fun ip =>
    !(((reuseMapOf netId assignments s).map fun e => e.2.id).contains ip.id)

/-- `vms_needing_ips`: the role entries whose VM is not an `ip_map` key. -/
def needingOf (netId : Nat) (assignments : List (String × Nat)) (s : St) :
    List (String × Nat) :=
  assignments.filter fun a => (lookupIpMap (reuseMapOf netId assignments s) a.2).isNone

/-- The "Public IPs & Static NAT" step of `provision` over the ordered
role → VM list: reuse existing NAT bindings, fill gaps from the unassigned
non-source-NAT pool, associate new IPs only to cover the shortfall.
Returns the `ip_map` (reused entries first, in role order, then the new
assignments in role order — a faithful model of the insertion-ordered dict,
whose keys are distinct VM ids). -/
def ipPhase (netId : Nat) (assignments : List (String × Nat)) (s : St) :
    Except (String × St) (List (Nat × IpR) × St) :=
  let reuse := reuseMapOf netId assignments s
  let unassigned := unassignedPoolOf netId assignments s
  let needing := needingOf netId assignments s
  let newNeeded := needing.length - unassigned.length
  let (pool, s1) := associateLoop netId newNeeded unassigned s
  match assignNatLoop needing pool s1 with
  | .error e => .error e
  | .ok (m, s2) => .ok (reuse ++ m, s2)

/-! ## Firewall rules -/

/-- The `fw_rules` list: web 22/80/443, then 22 for each worker IP, then 22
for the db IP when present. -/
def fwRequired (webIpId : Nat) (workerIpIds : List Nat) (dbIpId : Option Nat) :
    List (Nat × Nat × Nat) :=
  [(webIpId, 22, 22), (webIpId, 80, 80), (webIpId, 443, 443)]
    ++ workerIpIds.map (fun i => (i, 22, 22))
    ++ (match dbIpId with | some i => [(i, 22, 22)] | none => [])

/-- `create firewallrule ... protocol=TCP cidrlist=0.0.0.0/0`. -/
def cmkCreateFirewallRule (ipId startport endport : Nat) (protocol cidr : String)
    (s : St) : St :=
  { s with
    fwRules := s.fwRules ++ [⟨s.fresh, ipId, startport, endport, protocol, cidr⟩]
    fresh := s.fresh + 1
    log := s.log ++ [.createFirewallRule ipId startport endport protocol cidr] }

/-- The `for ip_id, start, end, desc in fw_rules` loop: re-query the IP's
rules, create the rule only when no existing rule has the same start and
end port. -/
def applyFwRules (rules : List (Nat × Nat × Nat)) (s : St) : St :=
  match rules with
  | [] => s
  | (ipId, sp, ep) :: rest =>
    let existing := find_firewall_rules ipId s
    let already := existing.any fun r => r.startport == sp && r.endport == ep
    let s1 := if already then s else cmkCreateFirewallRule ipId sp ep "TCP" "0.0.0.0/0" s
    applyFwRules rest s1

/-! ## Data disks and snapshot policies -/

/-- `resize volume id=... size=<GB>`: the volume's size becomes the desired
byte count. -/
def cmkResizeVolume (volId : Nat) (sizeGB : Nat) (s : St) : St :=
  { s with
    volumes := s.volumes.map fun v =>
      if v.id == volId then { v with size := sizeGB * 1024 ^ 3 } else v
    log := s.log ++ [.resizeVolume volId sizeGB] }

/-- `create volume ...`: a fresh unattached DATADISK of the requested size. -/
def cmkCreateVolume (name diskOffId zoneId : String) (sizeGB : Nat) (s : St) : Nat × St :=
  (s.fresh,
   { s with
     volumes := s.volumes ++ [⟨s.fresh, name, true, none, sizeGB * 1024 ^ 3, zoneId, []⟩]
     fresh := s.fresh + 1
     log := s.log ++ [.createVolume name diskOffId zoneId sizeGB] })

/-- `create tags resourceids=... resourcetype=Volume ...`. -/
def cmkCreateTags (volId : Nat) (key value : String) (s : St) : St :=
  { s with
    volumes := s.volumes.map fun v =>
      if v.id == volId then { v with tags := v.tags ++ [(key, value)] } else v
    log := s.log ++ [.createTags volId key value] }

/-- `attach volume id=... virtualmachineid=...`. -/
def cmkAttachVolume (volId vmId : Nat) (s : St) : St :=
  { s with
    volumes := s.volumes.map fun v =>
      if v.id == volId then { v with vmId := some vmId } else v
    log := s.log ++ [.attachVolume volId vmId] }

/-- `resize_volume`: resize when the desired byte count exceeds the current
size; fatal error on a shrink request; no-op when equal. -/
def resize_volume (vol : VolR) (desiredGB : Nat) (s : St) : Except (String × St) St :=
  let currentBytes := vol.size
  let desiredBytes := desiredGB * 1024 ^ 3
  if desiredBytes > currentBytes then
    .ok (cmkResizeVolume vol.id desiredGB s)
  else if desiredBytes < currentBytes then
    .error ("Cannot shrink: current > desired", s)
  else
    .ok s

/-- `create_disk`: create + tag + attach a new data disk, or resize/attach
an existing one. -/
def create_disk (diskName diskOffId zoneId : String) (sizeGB : Nat) (vmId : Nat)
    (networkName : String) (s : St) : Except (String × St) (Nat × St) :=
  match find_volume diskName s with
  | some vol =>
    match resize_volume vol sizeGB s with
    | .error e => .error e
    | .ok s1 =>
      let s2 := if vol.vmId.isNone then cmkAttachVolume vol.id vmId s1 else s1
      .ok (vol.id, s2)
  | none =>
    let (volId, s1) := cmkCreateVolume diskName diskOffId zoneId sizeGB s
    let s2 := cmkCreateTags volId "locaweb-ai-deploy-id" networkName s1
    let s3 := cmkAttachVolume volId vmId s2
    .ok (volId, s3)

/-- `create snapshotpolicy ...` (daily, 00:03 America/Sao_Paulo, keep 3,
replicated to all zones, tagged with the project identity). -/
def cmkCreateSnapshotPolicy (volId : Nat) (zoneIds networkName : String) (s : St) : St :=
  { s with
    policies := s.policies ++ [⟨s.fresh, volId⟩]
    fresh := s.fresh + 1
    log := s.log ++ [.createSnapshotPolicy volId SNAPSHOT_SCHEDULE SNAPSHOT_MAX
      SNAPSHOT_TIMEZONE zoneIds "locaweb-ai-deploy-id" networkName] }

/-- `create_snapshot_policy`: create only when the volume has none. -/
def create_snapshot_policy (volId : Nat) (networkName zoneIds : String) (s : St) : St :=
  if (s.policies.filter fun p => p.volumeId == volId).isEmpty then
    cmkCreateSnapshotPolicy volId zoneIds networkName s
  else
    s

/-! ## The reconciler (`provision`) -/

/-- Lift a resolution-time error, attaching the untouched pre-state (no
mutation has been issued yet when resolution fails). -/
def exceptWith (s : St) : Except String α → Except (String × St) α
  | .ok a => .ok a
  | .error e => .error (e, s)

/-- The "Creating isolated network..." step: adopt the first network with
the derived name (any zone), else create one in the configured zone. -/
def networkPhase (name netOffId zoneId : String) (s : St) : Nat × St :=
  match find_network name s with
  | some nid => (nid, s)
  | none => cmkCreateNetwork name netOffId zoneId s

/-- The "Registering SSH key pair..." step. -/
def keypairPhase (name publicKey : String) (s : St) : St :=
  if find_keypair name s then s else cmkRegisterKeypair name publicKey s

/-- The `for i in range(1, num_workers + 1)` deployment loop, entered at
index `i` with `count` workers still to deploy. -/
def deployWorkersLoop (env : Env) (networkName : String) (offId tmplId zoneId : String)
    (netId : Nat) (keypair : String) (i count : Nat) (s : St) : List Nat × St :=
  match count with
  | 0 => ([], s)
  | c + 1 =>
    let (wid, s1) := deploy_vm env (workerVmNameOf networkName i) offId tmplId zoneId
      netId keypair s
    let (rest, s2) := deployWorkersLoop env networkName offId tmplId zoneId netId keypair
      (i + 1) c s1
    (wid :: rest, s2)

/-- `ip_map[wid]` for each worker id (`KeyError` modelled as an error). -/
def collectIps (m : List (Nat × IpR)) (vmIds : List Nat) (s : St) :
    Except (String × St) (List IpR) :=
  match vmIds with
  | [] => .ok []
  | v :: rest =>
    match lookupIpMap m v with
    | none => .error ("KeyError: ip_map", s)
    | some ip =>
      match collectIps m rest s with
      | .error e => .error e
      | .ok l => .ok (ip :: l)

/-- `get_vm_internal_ip(wid)` for each worker id. -/
def collectInternalIps (vmIds : List Nat) (s : St) : Except (String × St) (List String) :=
  match vmIds with
  | [] => .ok []
  | v :: rest =>
    match get_vm_internal_ip v s with
    | none => .error ("IndexError: vm not found", s)
    | some ip =>
      match collectInternalIps rest s with
      | .error e => .error e
      | .ok l => .ok (ip :: l)

/-- The role → VM-id list whose order drives the IP wiring (the insertion
order of `vm_assignments`). -/
def assignmentsOf (webVmId : Nat) (workerVmIds : List Nat) (dbVmId : Option Nat) :
    List (String × Nat) :=
  ("Web", webVmId) :: (workerVmIds.map fun wid => ("Worker", wid))
    ++ (match dbVmId with | some d => [("DB", d)] | none => [])

/-- The tail of `provision` after the excess-worker scale-down: IP wiring,
firewall rules, data disks, snapshot policies, internal IPs and the
`results` output, phase for phase in source order. -/
def provisionTail (cfg : Config) (networkName snapshotZoneIds diskOfferingId zoneId : String)
    (netId webVmId : Nat) (workerVmIds : List Nat) (dbVmId : Option Nat) (s6 : St) :
    Except (String × St) (Output × St) := do
  let keypairName := keypairNameOf networkName
  let blobDiskName := blobDiskNameOf networkName
  -- Public IPs & Static NAT
  let assignments := assignmentsOf webVmId workerVmIds dbVmId
  let (ipMap, s7) ← ipPhase netId assignments s6
  let webIp ← match lookupIpMap ipMap webVmId with
    | some ip => .ok ip
    | none => .error ("KeyError: ip_map", s7)
  let workerIps ← collectIps ipMap workerVmIds s7
  let dbIp ← match dbVmId with
    | some d =>
      (match lookupIpMap ipMap d with
       | some ip => .ok (some ip)
       | none => .error ("KeyError: ip_map", s7))
    | none => .ok none
  -- Firewall Rules
  let s8 := applyFwRules (fwRequired webIp.id (workerIps.map (·.id)) (dbIp.map (·.id))) s7
  -- Data Disks
  let (blobVolId, s9) ← create_disk blobDiskName diskOfferingId zoneId cfg.blobDiskSizeGB
    webVmId networkName s8
  let (dbVolId, s10) ← match dbVmId with
    | some dvm =>
      (match create_disk (dbDiskNameOf networkName) diskOfferingId zoneId cfg.dbDiskSizeGB
          dvm networkName s9 with
       | .error e => .error e
       | .ok (i, s') => .ok ((some i : Option Nat), s'))
    | none => .ok (none, s9)
  -- Snapshot Policies
  let s11 := create_snapshot_policy blobVolId networkName snapshotZoneIds s10
  let s12 := match dbVolId with
    | some dv => create_snapshot_policy dv networkName snapshotZoneIds s11
    | none => s11
  -- Internal IPs
  let webInternalIp ← match get_vm_internal_ip webVmId s12 with
    | some ip => .ok ip
    | none => .error ("IndexError: vm not found", s12)
  let workerInternalIps ← if cfg.workersEnabled then
      collectInternalIps workerVmIds s12
    else .ok []
  let dbInternalIp ← match dbVmId with
    | some d =>
      (match get_vm_internal_ip d s12 with
       | some ip => .ok (some ip)
       | none => .error ("IndexError: vm not found", s12))
    | none => .ok none
  return ({ network_name := networkName
            network_id := netId
            keypair_name := keypairName
            web_vm_id := webVmId
            worker_vm_ids := if cfg.workersEnabled then some workerVmIds else none
            db_vm_id := dbVmId
            web_ip := webIp.address
            web_ip_id := webIp.id
            worker_ips := if cfg.workersEnabled then some (workerIps.map (·.address)) else none
            db_ip := dbIp.map (·.address)
            db_ip_id := dbIp.map (·.id)
            blob_volume_id := blobVolId
            db_volume_id := dbVolId
            web_internal_ip := webInternalIp
            worker_internal_ips := if cfg.workersEnabled then some workerInternalIps else none
            db_internal_ip := dbInternalIp }, s12)

/-- `provision(config, repo_name, unique_id, public_key)`: the full
reconciler, phase for phase in source order.  On success it returns the
`ProvisionOutput` and the final account state; on a fatal error it returns
the message and the account state at the moment of the raise. -/
def provision (env : Env) (cfg : Config) (repoName uniqueId publicKey : String)
    (s : St) : Except (String × St) (Output × St) := do
  let networkName := networkNameOf repoName uniqueId
  let keypairName := keypairNameOf networkName
  let webVmName := webVmNameOf networkName
  -- Resolve all names to IDs
  let zoneId ← exceptWith s (resolve_zone env cfg.zone)
  let snapshotZoneIds := String.intercalate "," (resolve_all_zone_ids env)
  let netOfferingId ← exceptWith s (resolve_network_offering env NETWORK_OFFERING_NAME)
  let diskOfferingId ← exceptWith s (resolve_disk_offering env DISK_OFFERING_NAME)
  let webOfferingId ← exceptWith s (resolve_service_offering env cfg.webPlan)
  let templateId ← exceptWith s (discover_template env.templates zoneId)
  -- worker/db offerings are resolved only when enabled ("" plays None's role)
  let workerOfferingId ← if cfg.workersEnabled then
      exceptWith s (resolve_service_offering env cfg.workersPlan)
    else .ok ""
  let dbOfferingId ← if cfg.dbEnabled then
      exceptWith s (resolve_service_offering env cfg.dbPlan)
    else .ok ""
  -- Network
  let (netId, s1) := networkPhase networkName netOfferingId zoneId s
  -- SSH Key Pair
  let s2 := keypairPhase keypairName publicKey s1
  -- Deploy VMs
  let (webVmId, s3) := deploy_vm env webVmName webOfferingId templateId zoneId netId
    keypairName s2
  let (workerVmIds, s4) :=
    if cfg.workersEnabled then
      deployWorkersLoop env networkName workerOfferingId templateId zoneId netId
        keypairName 1 cfg.workersReplicas s3
    else ([], s3)
  let (dbVmId, s5) :=
    if cfg.dbEnabled then
      let (d, s') := deploy_vm env (dbVmNameOf networkName) dbOfferingId templateId zoneId
        netId keypairName s4
      (some d, s')
    else (none, s4)
  -- Scale down excess workers
  let desiredWorkers := if cfg.workersEnabled then cfg.workersReplicas else 0
  let s6 := removeExcessLoop networkName netId (desiredWorkers + 1) s5
  provisionTail cfg networkName snapshotZoneIds diskOfferingId zoneId netId webVmId
    workerVmIds dbVmId s6

/-! ## Teardown: volume selection (`teardown_infrastructure.py`, steps 1-2)

The teardown script selects the data volumes it owns with
`list volumes type=DATADISK tags[0].key=locaweb-cloud-deploy-id
tags[0].value=<network_name>` — note the key: `locaweb-cloud-deploy-id`,
not the `locaweb-ai-deploy-id` that `create_disk` writes. -/

/-- The volume list query of teardown step [1/8] (shared by step [2/8]). -/
def teardownListVolumes (networkName : String) (zoneFilter : Option String) (s : St) :
    List VolR :=
  s.volumes.filter fun v =>
    v.isData && v.tags.contains ("locaweb-cloud-deploy-id", networkName)
      && (match zoneFilter with
          | some z => v.zoneId == z
          | none => true)

/-- Teardown step [2/8]: detach and delete every selected volume (policies
of the selected volumes are removed by step [1/8]; both steps are driven by
the same `teardownListVolumes` selection). -/
def teardownDeleteVolumes (networkName : String) (zoneFilter : Option String) (s : St) : St :=
  let vols := teardownListVolumes networkName zoneFilter s
  { s with
    policies := s.policies.filter fun p => !(vols.any fun v => v.id == p.volumeId)
    volumes := s.volumes.filter fun v => !(vols.any fun w => w.id == v.id) }

/-! ## Adapter proofs -/

theorem cmkLoop_launchFail {a : Nat → Attempt} {k : Nat} (h : a k = .launchFail) :
    cmkLoop a k = ⟨.exn .launch, 1, []⟩ := by
  unfold cmkLoop
  rw [h]

theorem cmkLoop_ok_empty {a : Nat → Attempt} {k : Nat} {c : Int} {out : String}
    {js : Option Nat} {err : String} (h : a k = .ran c out js err) (hc : c = 0)
    (ho : pyStrip out = "") : cmkLoop a k = ⟨.ok .emptyDict, 1, []⟩ := by
  unfold cmkLoop
  rw [h]
  simp [hc, ho]

theorem cmkLoop_ok_json {a : Nat → Attempt} {k : Nat} {c : Int} {out : String}
    {v : Nat} {err : String} (h : a k = .ran c out (some v) err) (hc : c = 0)
    (ho : ¬ pyStrip out = "") : cmkLoop a k = ⟨.ok (.json v), 1, []⟩ := by
  unfold cmkLoop
  rw [h]
  simp [hc, ho]

theorem cmkLoop_malformed {a : Nat → Attempt} {k : Nat} {c : Int} {out : String}
    {err : String} (h : a k = .ran c out none err) (hc : c = 0)
    (ho : ¬ pyStrip out = "") : cmkLoop a k = ⟨.exn .jsonDecode, 1, []⟩ := by
  unfold cmkLoop
  rw [h]
  simp [hc, ho]

theorem cmkLoop_retry {a : Nat → Attempt} {k : Nat} {c : Int} {out : String}
    {js : Option Nat} {err : String} (h : a k = .ran c out js err) (hc : ¬ c = 0)
    (hk : k < CMK_MAX_RETRIES) :
    cmkLoop a k = ⟨(cmkLoop a (k + 1)).res, (cmkLoop a (k + 1)).runs + 1,
      2 ^ (k + 1) :: (cmkLoop a (k + 1)).sleeps⟩ := by
  rw [cmkLoop]
  rw [h]
  simp [hc, hk]

theorem cmkLoop_final {a : Nat → Attempt} {k : Nat} {c : Int} {out : String}
    {js : Option Nat} {err : String} (h : a k = .ran c out js err) (hc : ¬ c = 0)
    (hk : ¬ k < CMK_MAX_RETRIES) :
    cmkLoop a k = ⟨.runtimeErr (errorMsgOf out err), 1, []⟩ := by
  rw [cmkLoop]
  rw [h]
  simp [hc, hk]

theorem attemptFailedNonzero_resolve {a : Nat → Attempt} {i : Nat}
    (h : attemptFailedNonzero (a i)) :
    ∃ c out js err, a i = .ran c out js err ∧ ¬ c = 0 := h

theorem cmkLoop_master (a : Nat → Attempt) :
    ∀ d k, k + d = CMK_MAX_RETRIES →
      (1 ≤ (cmkLoop a k).runs ∧ (cmkLoop a k).runs ≤ d + 1) ∧
      (cmkLoop a k).sleeps = (backoffSchedule.drop k).take ((cmkLoop a k).runs - 1) ∧
      ((∀ i, k ≤ i → i ≤ CMK_MAX_RETRIES → attemptFailedNonzero (a i)) →
        (cmkLoop a k).runs = d + 1 ∧
        ∃ c out js err, a CMK_MAX_RETRIES = .ran c out js err ∧
          (cmkLoop a k).res = .runtimeErr (errorMsgOf out err)) := by
  intro d
  induction d with
  | zero =>
    intro k hk
    have hk5 : k = 5 := by simpa [CMK_MAX_RETRIES] using hk
    subst hk5
    cases ha : a 5 with
    | launchFail =>
      rw [cmkLoop_launchFail ha]
      refine ⟨⟨le_refl _, by dsimp only; omega⟩, by simp, fun hall => ?_⟩
      obtain ⟨c, o, j, e, heq, hne⟩ := hall 5 (le_refl _) (by simp [CMK_MAX_RETRIES])
      rw [ha] at heq
      cases heq
    | ran c out js err =>
      by_cases hc : c = 0
      · have hcontra : (∀ i, 5 ≤ i → i ≤ CMK_MAX_RETRIES → attemptFailedNonzero (a i)) → False := by
          intro hall
          obtain ⟨c', o', j', e', heq, hne⟩ := hall 5 (le_refl _) (by simp [CMK_MAX_RETRIES])
          rw [ha] at heq
          cases heq
          exact hne hc
        by_cases ho : pyStrip out = ""
        · rw [cmkLoop_ok_empty ha hc ho]
          exact ⟨⟨le_refl _, by dsimp only; omega⟩, by simp, fun h => absurd h hcontra⟩
        · cases js with
          | some v =>
            rw [cmkLoop_ok_json ha hc ho]
            exact ⟨⟨le_refl _, by dsimp only; omega⟩, by simp, fun h => absurd h hcontra⟩
          | none =>
            rw [cmkLoop_malformed ha hc ho]
            exact ⟨⟨le_refl _, by dsimp only; omega⟩, by simp, fun h => absurd h hcontra⟩
      · rw [cmkLoop_final ha hc (by simp [CMK_MAX_RETRIES])]
        exact ⟨⟨le_refl _, by dsimp only; omega⟩, by simp,
          fun _ => ⟨rfl, c, out, js, err, ha, rfl⟩⟩
  | succ d ih =>
    intro k hk
    have hklt : k < CMK_MAX_RETRIES := by omega
    obtain ⟨⟨hge, hle⟩, hsleeps, hall⟩ := ih (k + 1) (by omega)
    cases ha : a k with
    | launchFail =>
      rw [cmkLoop_launchFail ha]
      refine ⟨⟨le_refl _, by dsimp only; omega⟩, by simp, fun h => ?_⟩
      obtain ⟨c, o, j, e, heq, hne⟩ := h k (le_refl _) (by omega)
      rw [ha] at heq
      cases heq
    | ran c out js err =>
      by_cases hc : c = 0
      · have hcontra : (∀ i, k ≤ i → i ≤ CMK_MAX_RETRIES → attemptFailedNonzero (a i)) → False := by
          intro h
          obtain ⟨c', o', j', e', heq, hne⟩ := h k (le_refl _) (by omega)
          rw [ha] at heq
          cases heq
          exact hne hc
        by_cases ho : pyStrip out = ""
        · rw [cmkLoop_ok_empty ha hc ho]
          exact ⟨⟨le_refl _, by dsimp only; omega⟩, by simp, fun h => absurd h hcontra⟩
        · cases js with
          | some v =>
            rw [cmkLoop_ok_json ha hc ho]
            exact ⟨⟨le_refl _, by dsimp only; omega⟩, by simp, fun h => absurd h hcontra⟩
          | none =>
            rw [cmkLoop_malformed ha hc ho]
            exact ⟨⟨le_refl _, by dsimp only; omega⟩, by simp, fun h => absurd h hcontra⟩
      · rw [cmkLoop_retry ha hc hklt]
        have hdrop : backoffSchedule.drop k = 2 ^ (k + 1) :: backoffSchedule.drop (k + 1) := by
          have hk4 : k ≤ 4 := by simp [CMK_MAX_RETRIES] at hklt; omega
          interval_cases k <;> simp [backoffSchedule]
        refine ⟨⟨?_, ?_⟩, ?_, ?_⟩
        · dsimp only
          omega
        · dsimp only
          omega
        · dsimp only
          obtain ⟨m, hm⟩ : ∃ m, (cmkLoop a (k + 1)).runs = m + 1 :=
            ⟨(cmkLoop a (k + 1)).runs - 1, by omega⟩
          rw [hm]
          simp only [Nat.add_sub_cancel]
          rw [hdrop, List.take_succ_cons]
          rw [hsleeps, hm]
          simp only [Nat.add_sub_cancel]
        · intro h
          obtain ⟨hruns, c', o', j', e', heq, hres⟩ :=
            hall (fun i hi hi' => h i (by omega) hi')
          constructor
          · dsimp only
            omega
          · exact ⟨c', o', j', e', heq, by dsimp only; exact hres⟩


theorem cmkQuiet_of_runtimeErr {attempts : Nat → Attempt} {msg : String}
    (h : (cmk attempts).res = .runtimeErr msg) : cmkQuiet attempts = .noneRes := by
  unfold cmkQuiet
  rw [h]

theorem cmkQuiet_of_exn {attempts : Nat → Attempt} {e : CmkExn}
    (h : (cmk attempts).res = .exn e) : cmkQuiet attempts = .exn e := by
  unfold cmkQuiet
  rw [h]

/-- C7: for every argument list (i.e. every oracle of attempt outcomes) the
adapter invokes the cmk process at most 6 times; the sleeps performed are
exactly the prefix of 2, 4, 8, 16, 32 matching the number of retries; and
when all six attempts exit nonzero, `call` raises an error carrying the
final attempt's stderr (or its stdout when the stripped stderr is empty)
while `callQuiet` returns nil. -/
theorem cmk_retry_contract (attempts : Nat → Attempt) :
    (cmk attempts).runs ≤ 6 ∧
    (cmk attempts).sleeps = backoffSchedule.take ((cmk attempts).runs - 1) ∧
    ((∀ i, i < 6 → attemptFailedNonzero (attempts i)) →
      (cmk attempts).runs = 6 ∧
      (∃ c out js err, attempts 5 = .ran c out js err ∧
        (cmk attempts).res = .runtimeErr (errorMsgOf out err)) ∧
      cmkQuiet attempts = .noneRes) := by
  obtain ⟨⟨_, hle⟩, hsleeps, hall⟩ := cmkLoop_master attempts 5 0 (by simp [CMK_MAX_RETRIES])
  refine ⟨by simpa [cmk] using hle, by simpa [cmk] using hsleeps, fun h => ?_⟩
  obtain ⟨hruns, c, o, j, e, heq, hres⟩ :=
    hall (fun i _ hi' => h i (by simp [CMK_MAX_RETRIES] at hi'; omega))
  refine ⟨by simpa [cmk] using hruns, ⟨c, o, j, e, by simpa [CMK_MAX_RETRIES] using heq,
    by simpa [cmk] using hres⟩, ?_⟩
  exact cmkQuiet_of_runtimeErr (show (cmk attempts).res = _ by simpa [cmk] using hres)

/-- A concrete oracle where every attempt exits nonzero. -/
def allFailAttempts : Nat → Attempt := fun _ => .ran 1 "out msg" none "err msg"

theorem cmk_retry_contract_witness :
    (cmk allFailAttempts).runs = 6 ∧
    (cmk allFailAttempts).sleeps = [2, 4, 8, 16, 32] ∧
    (cmk allFailAttempts).res = .runtimeErr "err msg" ∧
    cmkQuiet allFailAttempts = .noneRes := by
  have h := cmk_retry_contract allFailAttempts
  have hfail : ∀ i, i < 6 → attemptFailedNonzero (allFailAttempts i) :=
    fun i _ => ⟨1, "out msg", none, "err msg", rfl, by decide⟩
  have h3 := h.2.2 hfail
  obtain ⟨c, o, j, e, heq, hres⟩ := h3.2.1
  have hco : Attempt.ran (1 : Int) "out msg" none "err msg" = .ran c o j e := heq
  cases hco
  refine ⟨h3.1, ?_, by rw [hres]; rfl, h3.2.2⟩
  rw [h.2.1, h3.1]
  rfl

/-- Skipping `d` consecutive nonzero-exit attempts: the loop entered at `j`
performs those retries (with their backoffs) and then behaves as the loop
entered at `j + d`. -/
theorem cmkLoop_skip (a : Nat → Attempt) :
    ∀ d j, j + d ≤ 5 →
      (∀ i, j ≤ i → i < j + d → attemptFailedNonzero (a i)) →
      cmkLoop a j = ⟨(cmkLoop a (j + d)).res, (cmkLoop a (j + d)).runs + d,
        (backoffSchedule.drop j).take d ++ (cmkLoop a (j + d)).sleeps⟩ := by
  intro d
  induction d with
  | zero =>
    intro j _ _
    simp
  | succ d ih =>
    intro j hj hfail
    obtain ⟨c, o, js, e, heq, hc⟩ := hfail j (le_refl _) (by omega)
    have hjlt : j < CMK_MAX_RETRIES := by simp [CMK_MAX_RETRIES]; omega
    rw [cmkLoop_retry heq hc hjlt]
    have hrec := ih (j + 1) (by omega) (fun i hi hi' => hfail i (by omega) (by omega))
    have hdrop : backoffSchedule.drop j = 2 ^ (j + 1) :: backoffSchedule.drop (j + 1) := by
      have hj4 : j ≤ 4 := by omega
      interval_cases j <;> simp [backoffSchedule]
    have hidx : j + 1 + d = j + (d + 1) := by omega
    rw [hrec]
    dsimp only
    rw [hdrop, List.take_succ_cons, hidx]
    simp only [List.cons_append, CmkRun.mk.injEq]
    exact ⟨trivial, by omega, trivial⟩

/-- C8 (amended): when control reaches attempt `k` (every earlier attempt
exited nonzero) and that attempt exits 0 with non-empty stdout that is not
valid JSON, the adapter raises the JSON-decode error immediately — no
further process run, no further backoff — and `callQuiet` does not convert
it to nil.  A failure to launch the process is NOT retried either: it
propagates immediately as an uncaught exception, also bypassing
`callQuiet`'s `except RuntimeError`. -/
theorem cmk_fatal_semantics (attempts : Nat → Attempt) (k : Nat) (hk : k ≤ 5)
    (hbefore : ∀ i, i < k → attemptFailedNonzero (attempts i)) :
    (∀ out err, attempts k = .ran 0 out none err → ¬ pyStrip out = "" →
      cmk attempts = ⟨.exn .jsonDecode, k + 1, backoffSchedule.take k⟩ ∧
      cmkQuiet attempts = .exn .jsonDecode) ∧
    (attempts k = .launchFail →
      cmk attempts = ⟨.exn .launch, k + 1, backoffSchedule.take k⟩ ∧
      cmkQuiet attempts = .exn .launch) := by
  have hskip := cmkLoop_skip attempts k 0 (by omega)
    (fun i hi hi' => hbefore i (by omega))
  rw [show (0 + k) = k from by omega] at hskip
  constructor
  · intro out err heq ho
    have hstep : cmkLoop attempts k = ⟨.exn .jsonDecode, 1, []⟩ :=
      cmkLoop_malformed heq rfl ho
    have hcmk : cmk attempts = ⟨.exn .jsonDecode, k + 1, backoffSchedule.take k⟩ := by
      rw [cmk, hskip, hstep]
      simp [Nat.add_comm]
    exact ⟨hcmk, cmkQuiet_of_exn (by rw [hcmk])⟩
  · intro heq
    have hstep : cmkLoop attempts k = ⟨.exn .launch, 1, []⟩ := cmkLoop_launchFail heq
    have hcmk : cmk attempts = ⟨.exn .launch, k + 1, backoffSchedule.take k⟩ := by
      rw [cmk, hskip, hstep]
      simp [Nat.add_comm]
    exact ⟨hcmk, cmkQuiet_of_exn (by rw [hcmk])⟩

/-- A concrete oracle: the first attempt fails to launch, while every later
attempt would succeed. -/
def launchFailThenOk : Nat → Attempt := fun i =>
  if i = 0 then .launchFail else .ran 0 "" none ""

/-- C8 counterexample: were a launch failure "treated as one more retriable
attempt subject to the same backoff schedule", `cmk launchFailThenOk` would
run the process again after a 2-second backoff and succeed (attempt 1
returns exit 0, as the last conjunct shows).  Instead the adapter makes
exactly one attempt, performs no backoff, and the launch exception
propagates uncaught. -/
theorem cmk_launch_not_retried_counterexample :
    cmk launchFailThenOk = ⟨.exn .launch, 1, []⟩ ∧
    cmkQuiet launchFailThenOk = .exn .launch ∧
    (cmkLoop launchFailThenOk 1).res = .ok .emptyDict := by
  have h1 : cmk launchFailThenOk = ⟨.exn .launch, 1, []⟩ := by
    rw [cmk]
    exact cmkLoop_launchFail rfl
  have h2 : cmkLoop launchFailThenOk 1 = ⟨.ok .emptyDict, 1, []⟩ :=
    cmkLoop_ok_empty (show launchFailThenOk 1 = .ran 0 "" none "" from rfl) rfl rfl
  exact ⟨h1, cmkQuiet_of_exn (by rw [h1]), by rw [h2]⟩

/-- A concrete oracle: one nonzero exit, then a malformed-JSON success. -/
def failThenMalformed : Nat → Attempt := fun i =>
  if i = 0 then .ran 1 "" none "transient" else .ran 0 "not json" none ""

theorem cmk_fatal_semantics_witness :
    cmk failThenMalformed = ⟨.exn .jsonDecode, 2, [2]⟩ ∧
    cmkQuiet failThenMalformed = .exn .jsonDecode := by
  have h := (cmk_fatal_semantics failThenMalformed 1 (by omega)
    (fun i hi => by
      interval_cases i
      exact ⟨1, "", none, "transient", rfl, by decide⟩)).1 "not json" "" rfl (by decide)
  exact ⟨by rw [h.1]; rfl, h.2⟩

/-! ## Template discovery proofs -/

theorem pickFirstMax_mem (b : TemplateR) (l : List TemplateR) :
    pickFirstMax b l = b ∨ pickFirstMax b l ∈ l := by
  induction l generalizing b with
  | nil => exact .inl rfl
  | cons t ts ih =>
    unfold pickFirstMax
    by_cases h : b.created < t.created
    · simp only [if_pos h]
      rcases ih t with h' | h'
      · exact .inr (by rw [h']; exact List.mem_cons_self t ts)
      · exact .inr (List.mem_cons_of_mem t h')
    · simp only [if_neg h]
      rcases ih b with h' | h'
      · exact .inl h'
      · exact .inr (List.mem_cons_of_mem t h')

theorem pickFirstMax_max (b : TemplateR) (l : List TemplateR) :
    b.created ≤ (pickFirstMax b l).created ∧
      ∀ t ∈ l, t.created ≤ (pickFirstMax b l).created := by
  induction l generalizing b with
  | nil => exact ⟨le_refl _, by simp⟩
  | cons t ts ih =>
    unfold pickFirstMax
    by_cases h : b.created < t.created
    · simp only [if_pos h]
      obtain ⟨h1, h2⟩ := ih t
      refine ⟨by omega, fun u hu => ?_⟩
      rcases List.mem_cons.mp hu with h' | h'
      · rw [h']; exact h1
      · exact h2 u h'
    · simp only [if_neg h]
      obtain ⟨h1, h2⟩ := ih b
      refine ⟨h1, fun u hu => ?_⟩
      rcases List.mem_cons.mp hu with h' | h'
      · rw [h']; omega
      · exact h2 u h'

theorem templateScan_sub :
    ∀ (ts : List TemplateR) (seen : List String) (t : TemplateR),
      t ∈ templateScan ts seen → t ∈ ts ∧ matchesTemplateRegex t.name = true := by
  intro ts
  induction ts with
  | nil => intro seen t h; cases h
  | cons u us ih =>
    intro seen t h
    unfold templateScan at h
    by_cases hc : matchesTemplateRegex u.name && !(seen.contains u.id)
    · rw [if_pos hc] at h
      rcases List.mem_cons.mp h with h' | h'
      · subst h'
        exact ⟨List.mem_cons_self _ _, by simpa using (Bool.and_elim_left hc)⟩
      · obtain ⟨hm, hr⟩ := ih _ t h'
        exact ⟨List.mem_cons_of_mem _ hm, hr⟩
    · rw [if_neg hc] at h
      obtain ⟨hm, hr⟩ := ih _ t h
      exact ⟨List.mem_cons_of_mem _ hm, hr⟩

theorem templateMatches_props {templates : List TemplateR} {zoneId : String}
    {t : TemplateR} (h : t ∈ templateMatches templates zoneId) :
    matchesTemplateRegex t.name = true ∧ t.featured = true ∧ t.zoneId = zoneId := by
  obtain ⟨hm, hr⟩ := templateScan_sub _ [] t h
  unfold templatesListedFor at hm
  have := (List.mem_filter.mp hm).2
  simp only [Bool.and_eq_true, beq_iff_eq, decide_eq_true_eq] at this
  exact ⟨hr, this.1.1, this.1.2⟩

/-- C9: template discovery fails with the fatal error exactly when no
(deduplicated) featured template of the zone matches `^Ubuntu.*24.*$`, and
otherwise returns the id of a deduplicated match with the greatest
`created` value. -/
theorem discover_template_newest (templates : List TemplateR) (zoneId : String) :
    (templateMatches templates zoneId = [] ↔
      discover_template templates zoneId
        = .error "No Ubuntu template matching ^Ubuntu.*24.*$ found") ∧
    (∀ r, discover_template templates zoneId = .ok r →
      ∃ t ∈ templateMatches templates zoneId, r = t.id ∧
        matchesTemplateRegex t.name = true ∧ t.featured = true ∧ t.zoneId = zoneId ∧
        ∀ u ∈ templateMatches templates zoneId, u.created ≤ t.created) := by
  unfold discover_template
  cases hm : templateMatches templates zoneId with
  | nil => exact ⟨by simp, fun r h => by cases h⟩
  | cons m ms =>
    refine ⟨by simp, fun r h => ?_⟩
    have hr : r = (pickFirstMax m ms).id := by
      cases h
      rfl
    have hmem : pickFirstMax m ms ∈ m :: ms := by
      rcases pickFirstMax_mem m ms with h' | h'
      · rw [h']; exact List.mem_cons_self _ _
      · exact List.mem_cons_of_mem _ h'
    have hmem' : pickFirstMax m ms ∈ templateMatches templates zoneId := by rw [hm]; exact hmem
    obtain ⟨hregex, hfeat, hzone⟩ := templateMatches_props hmem'
    obtain ⟨h1, h2⟩ := pickFirstMax_max m ms
    refine ⟨pickFirstMax m ms, hmem, hr, hregex, hfeat, hzone, fun u hu => ?_⟩
    rcases List.mem_cons.mp hu with h' | h'
    · rw [h']; exact h1
    · exact h2 u h'

/-- A concrete template catalog: a non-matching 22.04, two copies of the
same 24.10 template id (deduplicated), a 24.04, and a featured 24.x
template of another zone. -/
def demoTemplates : List TemplateR :=
  [⟨"a", "Ubuntu 22.04 LTS", 3, "z1", true⟩,
   ⟨"b", "Ubuntu 24.04 LTS", 5, "z1", true⟩,
   ⟨"c", "Ubuntu 24.10", 9, "z1", true⟩,
   ⟨"c", "Ubuntu 24.10", 9, "z1", true⟩,
   ⟨"d", "Ubuntu 24.10", 11, "z2", true⟩,
   ⟨"e", "Ubuntu 24.01", 12, "z1", false⟩]

theorem discover_template_newest_witness :
    ∃ t ∈ templateMatches demoTemplates "z1", "c" = t.id ∧
      matchesTemplateRegex t.name = true ∧ t.featured = true ∧ t.zoneId = "z1" ∧
      ∀ u ∈ templateMatches demoTemplates "z1", u.created ≤ t.created :=
  (discover_template_newest demoTemplates "z1").2 "c" (by rfl)

/-! ## Tagging: provision's tag key vs teardown's volume filter (C2) -/

/-- An empty account. -/
def c2Start : St := ⟨[], [], [], [], [], [], [], 1, []⟩

/-- The account after `create_disk` creates, tags and attaches the blob
volume of project `app-1` (VM id 77). -/
def c2After : St :=
  ⟨[], [], [],
   [⟨1, "app-1-blob", true, some 77, 10 * 1024 ^ 3, "zone", [("locaweb-ai-deploy-id", "app-1")]⟩],
   [], [], [], 2,
   [.createVolume "app-1-blob" "diskoff" "zone" 10,
    .createTags 1 "locaweb-ai-deploy-id" "app-1",
    .attachVolume 1 77]⟩

/-- C2: `create_disk` tags the volume it creates with key
`locaweb-ai-deploy-id` and value equal to the network name, but the
teardown's volume selection filters on key `locaweb-cloud-deploy-id` — so
the volume provision just created is not in teardown's owner set and
survives teardown's volume-deletion step.  This contradicts the tagging
claim (and the repo's own `test_infrastructure.py`, which checks the
`locaweb-ai-deploy-id` key that teardown should be using). -/
theorem teardown_misses_provision_tagged_volume :
    create_disk (blobDiskNameOf "app-1") "diskoff" "zone" 10 77 "app-1" c2Start
      = .ok (1, c2After) ∧
    c2After.volumes.map (fun v => v.tags) = [[("locaweb-ai-deploy-id", "app-1")]] ∧
    teardownListVolumes "app-1" none c2After = [] ∧
    (teardownDeleteVolumes "app-1" none c2After).volumes = c2After.volumes := by
  refine ⟨by rfl, by rfl, by rfl, by rfl⟩

/-! ## Network adoption (C10) -/

/-- C10: `find_network` matches on the exact name only — any network of any
zone with the name is found (a), and when one is found the network step
returns its id with the account untouched (no `create network` issued),
for every configured zone id (b); only when no network bears the name is
`create network` issued, in the configured zone (c). -/
theorem networkPhase_adopts_by_name (name netOffId : String) (s : St) :
    (∀ n ∈ s.networks, n.name = name → ∃ nid, find_network name s = some nid) ∧
    (∀ nid, find_network name s = some nid →
      ∀ zoneId, networkPhase name netOffId zoneId s = (nid, s)) ∧
    (find_network name s = none →
      ∀ zoneId, networkPhase name netOffId zoneId s =
        (s.fresh,
         { s with
           networks := s.networks ++ [⟨s.fresh, name, zoneId⟩]
           fresh := s.fresh + 1
           log := s.log ++ [.createNetwork name netOffId zoneId] })) := by
  refine ⟨fun n hn hname => ?_, fun nid hfind zoneId => ?_, fun hnone zoneId => ?_⟩
  · have : (s.networks.find? (fun m => m.name == name)).isSome := by
      rw [List.find?_isSome]
      exact ⟨n, hn, by simp [hname]⟩
    obtain ⟨m, hm⟩ := Option.isSome_iff_exists.mp this
    exact ⟨m.id, by unfold find_network; rw [hm]; rfl⟩
  · unfold networkPhase
    rw [hfind]
  · unfold networkPhase
    rw [hnone]
    rfl

/-- A network named `app-1` exists in zone `zoneA`; the network step run
with configured zone `zoneB` adopts it unchanged. -/
def c10St : St := ⟨[⟨5, "app-1", "zoneA"⟩], [], [], [], [], [], [], 6, []⟩

theorem networkPhase_adopts_by_name_witness :
    networkPhase "app-1" "no1" "zoneB" c10St = (5, c10St) :=
  (networkPhase_adopts_by_name "app-1" "no1" c10St).2.1 5 (by rfl) "zoneB"

/-! ## Disk resize semantics (C4) -/

/-- C4: for an existing data volume, the disk step issues a resize command
iff the desired byte count (`size_gb * 2^30`) exceeds the volume's current
size (in particular none when equal), and a strictly smaller request is a
fatal error raised before any mutation, returning the account exactly as it
was. -/
theorem create_disk_resize_iff (diskName diskOffId zoneId : String) (sizeGB : Nat)
    (vmId : Nat) (networkName : String) (s : St) (vol : VolR)
    (hfind : find_volume diskName s = some vol) :
    (∀ volId s',
      create_disk diskName diskOffId zoneId sizeGB vmId networkName s = .ok (volId, s') →
      volId = vol.id ∧
      (Cmd.resizeVolume vol.id sizeGB ∈ s'.log.drop s.log.length ↔
        vol.size < sizeGB * 1024 ^ 3)) ∧
    (sizeGB * 1024 ^ 3 < vol.size →
      create_disk diskName diskOffId zoneId sizeGB vmId networkName s
        = .error ("Cannot shrink: current > desired", s)) := by
  constructor
  · intro volId s' hok
    unfold create_disk at hok
    rw [hfind] at hok
    unfold resize_volume at hok
    dsimp only at hok
    by_cases hgt : sizeGB * 1024 ^ 3 > vol.size
    · rw [if_pos hgt] at hok
      dsimp only at hok
      by_cases hatt : vol.vmId.isNone
      · rw [if_pos hatt] at hok
        cases hok
        refine ⟨rfl, ?_⟩
        simp only [cmkAttachVolume, cmkResizeVolume]
        rw [List.append_assoc, List.drop_left]
        exact iff_of_true (by simp) (by omega)
      · rw [if_neg hatt] at hok
        cases hok
        refine ⟨rfl, ?_⟩
        simp only [cmkResizeVolume]
        rw [List.drop_left]
        exact iff_of_true (by simp) (by omega)
    · have hnotlt : ¬ vol.size < sizeGB * 1024 ^ 3 := hgt
      rw [if_neg hgt] at hok
      by_cases hlt : sizeGB * 1024 ^ 3 < vol.size
      · rw [if_pos hlt] at hok
        cases hok
      · rw [if_neg hlt] at hok
        dsimp only at hok
        by_cases hatt : vol.vmId.isNone
        · rw [if_pos hatt] at hok
          cases hok
          refine ⟨rfl, ?_⟩
          simp only [cmkAttachVolume]
          rw [List.drop_left]
          exact iff_of_false (by simp) (by omega)
        · rw [if_neg hatt] at hok
          cases hok
          refine ⟨rfl, ?_⟩
          rw [List.drop_length]
          exact iff_of_false (by simp) (by omega)
  · intro hshrink
    unfold create_disk
    rw [hfind]
    unfold resize_volume
    dsimp only
    rw [if_neg (by omega), if_pos hshrink]

/-- A 5 GiB blob volume; a 3 GiB request is rejected untouched. -/
def c4St : St :=
  ⟨[], [], [], [⟨1, "net-blob", true, some 77, 5 * 1024 ^ 3, "z", []⟩], [], [], [], 2, []⟩

theorem create_disk_resize_iff_witness :
    create_disk "net-blob" "do" "z" 3 77 "net" c4St
      = .error ("Cannot shrink: current > desired", c4St) :=
  (create_disk_resize_iff "net-blob" "do" "z" 3 77 "net" c4St
    ⟨1, "net-blob", true, some 77, 5 * 1024 ^ 3, "z", []⟩ (by rfl)).2 (by norm_num)

/-! ## IP wiring proofs (C3) -/

/-- The IPs the associate loop acquires: ids drawn consecutively from the
fresh counter. -/
def freshIps (start k netId : Nat) : List IpR :=
  (List.range k).map fun i =>
    ⟨start + i, "ip-" ++ natToDec (start + i), netId, false, false, none⟩

theorem freshIps_succ (start k netId : Nat) :
    freshIps start (k + 1) netId =
      ⟨start, "ip-" ++ natToDec start, netId, false, false, none⟩
        :: freshIps (start + 1) k netId := by
  unfold freshIps
  rw [List.range_succ_eq_map]
  simp only [List.map_cons, Nat.add_zero, List.map_map]
  congr 1
  apply List.map_congr_left
  intro i _
  simp only [Function.comp_apply]
  rw [show start + (i + 1) = start + 1 + i from by omega]

theorem freshIps_length (start k netId : Nat) : (freshIps start k netId).length = k := by
  simp [freshIps]

theorem associateLoop_eq (netId : Nat) :
    ∀ (k : Nat) (pool : List IpR) (s : St),
      associateLoop netId k pool s =
        (pool ++ freshIps s.fresh k netId,
         { s with
           ips := s.ips ++ freshIps s.fresh k netId
           fresh := s.fresh + k
           log := s.log ++ List.replicate k (.associateIP netId) }) := by
  intro k
  induction k with
  | zero => intro pool s; simp [associateLoop, freshIps]
  | succ k ih =>
    intro pool s
    unfold associateLoop cmkAssociateIP
    dsimp only
    rw [ih]
    rw [freshIps_succ]
    dsimp only
    simp only [Prod.mk.injEq, St.mk.injEq, List.append_assoc, List.singleton_append,
      List.replicate_succ, true_and, and_true]
    omega

/-- The sequential `enable staticnat` calls of the assignment loop. -/
def enableAllNat (pairs : List (Nat × IpR)) (s : St) : St :=
  pairs.foldl (fun st e => cmkEnableStaticNat e.2.id e.1 st) s

theorem assignNatLoop_eq :
    ∀ (pending : List (String × Nat)) (pool : List IpR) (s : St),
      pending.length ≤ pool.length →
      assignNatLoop pending pool s =
        .ok (List.zipWith (fun a ip => (a.2, ip)) pending pool,
          enableAllNat (List.zipWith (fun a ip => (a.2, ip)) pending pool) s) := by
  intro pending
  induction pending with
  | nil => intro pool s _; rfl
  | cons a rest ih =>
    intro pool s hlen
    cases pool with
    | nil => simp at hlen
    | cons ip pool' =>
      unfold assignNatLoop
      dsimp only
      rw [ih pool' (cmkEnableStaticNat ip.id a.2 s) (by simpa using hlen)]
      rfl

theorem enableAllNat_log (pairs : List (Nat × IpR)) (s : St) :
    (enableAllNat pairs s).log
      = s.log ++ pairs.map fun e => Cmd.enableStaticNat e.2.id e.1 := by
  induction pairs generalizing s with
  | nil => simp [enableAllNat]
  | cons e rest ih =>
    unfold enableAllNat at ih ⊢
    simp only [List.foldl_cons, List.map_cons]
    rw [ih]
    simp [cmkEnableStaticNat]

theorem enableAllNat_frame (pairs : List (Nat × IpR)) (s : St) :
    (enableAllNat pairs s).networks = s.networks ∧
    (enableAllNat pairs s).keypairs = s.keypairs ∧
    (enableAllNat pairs s).vms = s.vms ∧
    (enableAllNat pairs s).volumes = s.volumes ∧
    (enableAllNat pairs s).fwRules = s.fwRules ∧
    (enableAllNat pairs s).policies = s.policies ∧
    (enableAllNat pairs s).fresh = s.fresh := by
  induction pairs generalizing s with
  | nil => exact ⟨rfl, rfl, rfl, rfl, rfl, rfl, rfl⟩
  | cons e rest ih =>
    unfold enableAllNat at ih ⊢
    simp only [List.foldl_cons]
    exact ih (cmkEnableStaticNat e.2.id e.1 s)

/-- The pool after the associate loop: the unassigned IPs followed by the
freshly associated ones. -/
def ipPoolOf (netId : Nat) (assignments : List (String × Nat)) (s : St) : List IpR :=
  unassignedPoolOf netId assignments s
    ++ freshIps s.fresh
        ((needingOf netId assignments s).length - (unassignedPoolOf netId assignments s).length)
        netId

/-- The (vm, ip) pairs the assignment loop produces. -/
def ipPairsOf (netId : Nat) (assignments : List (String × Nat)) (s : St) :
    List (Nat × IpR) :=
  List.zipWith (fun a ip => (a.2, ip)) (needingOf netId assignments s)
    (ipPoolOf netId assignments s)

/-- The account state after the associate loop. -/
def ipAssocStateOf (netId : Nat) (assignments : List (String × Nat)) (s : St) : St :=
  { s with
    ips := s.ips ++ freshIps s.fresh
      ((needingOf netId assignments s).length - (unassignedPoolOf netId assignments s).length)
      netId
    fresh := s.fresh
      + ((needingOf netId assignments s).length - (unassignedPoolOf netId assignments s).length)
    log := s.log ++ List.replicate
      ((needingOf netId assignments s).length - (unassignedPoolOf netId assignments s).length)
      (.associateIP netId) }

theorem ipPool_long_enough (netId : Nat) (assignments : List (String × Nat)) (s : St) :
    (needingOf netId assignments s).length ≤ (ipPoolOf netId assignments s).length := by
  unfold ipPoolOf
  rw [List.length_append, freshIps_length]
  omega

/-- The IP wiring step always succeeds, and its result is the reuse map
extended with the zip of the needing list against the pool, over the
sequentially NAT-enabled post-associate state. -/
theorem ipPhase_run (netId : Nat) (assignments : List (String × Nat)) (s : St) :
    ipPhase netId assignments s =
      .ok (reuseMapOf netId assignments s ++ ipPairsOf netId assignments s,
        enableAllNat (ipPairsOf netId assignments s) (ipAssocStateOf netId assignments s)) := by
  unfold ipPhase
  dsimp only
  rw [associateLoop_eq]
  rw [assignNatLoop_eq _ _ _ (by simpa [ipPoolOf] using ipPool_long_enough netId assignments s)]
  rfl

theorem reuseMapOf_lookup {netId : Nat} {assignments : List (String × Nat)} {s : St}
    {v : Nat} {ip : IpR} (hmem : v ∈ assignments.map (·.2))
    (hfind : find_public_ip_for_vm netId v s = some ip) :
    lookupIpMap (reuseMapOf netId assignments s) v = some ip := by
  induction assignments with
  | nil => simp at hmem
  | cons a rest ih =>
    unfold reuseMapOf at ih ⊢
    by_cases hv : a.2 = v
    · rw [List.filterMap_cons_some (show _ = some (a.2, ip) by rw [hv, hfind]; rfl)]
      unfold lookupIpMap
      rw [List.find?_cons_of_pos _ (by simpa using hv)]
      rfl
    · have hmem' : v ∈ rest.map (·.2) := by
        rcases List.mem_map.mp hmem with ⟨b, hb, hbv⟩
        rcases List.mem_cons.mp hb with hb2 | hb2
        · exact absurd (hb2 ▸ hbv) hv
        · exact List.mem_map.mpr ⟨b, hb2, hbv⟩
      cases hf : find_public_ip_for_vm netId a.2 s with
      | none =>
        rw [List.filterMap_cons_none (by rw [hf]; rfl)]
        exact ih hmem'
      | some ip' =>
        rw [List.filterMap_cons_some (show _ = some (a.2, ip') by rw [hf]; rfl)]
        unfold lookupIpMap at ih ⊢
        rw [List.find?_cons_of_neg _ (by simpa using hv)]
        exact ih hmem'

theorem reuseMapOf_lookup_none {netId : Nat} {assignments : List (String × Nat)} {s : St}
    {v : Nat} (hfind : find_public_ip_for_vm netId v s = none) :
    lookupIpMap (reuseMapOf netId assignments s) v = none := by
  induction assignments with
  | nil => rfl
  | cons a rest ih =>
    unfold reuseMapOf at ih ⊢
    cases hf : find_public_ip_for_vm netId a.2 s with
    | none =>
      rw [List.filterMap_cons_none (by rw [hf]; rfl)]
      exact ih
    | some ip' =>
      have hv : ¬ a.2 = v := by
        intro h
        rw [h, hfind] at hf
        cases hf
      rw [List.filterMap_cons_some (show _ = some (a.2, ip') by rw [hf]; rfl)]
      unfold lookupIpMap at ih ⊢
      rw [List.find?_cons_of_neg _ (by simpa using hv)]
      exact ih

theorem needingOf_mem {netId : Nat} {assignments : List (String × Nat)} {s : St}
    {a : String × Nat} :
    a ∈ needingOf netId assignments s ↔
      a ∈ assignments ∧ find_public_ip_for_vm netId a.2 s = none := by
  unfold needingOf
  rw [List.mem_filter]
  constructor
  · rintro ⟨hmem, hnone⟩
    refine ⟨hmem, ?_⟩
    cases hf : find_public_ip_for_vm netId a.2 s with
    | none => rfl
    | some ip =>
      rw [reuseMapOf_lookup (List.mem_map.mpr ⟨a, hmem, rfl⟩) hf] at hnone
      cases hnone
  · rintro ⟨hmem, hnone⟩
    exact ⟨hmem, by rw [reuseMapOf_lookup_none hnone]; rfl⟩

theorem reuseMapOf_mem_val {netId : Nat} {assignments : List (String × Nat)} {s : St}
    {e : Nat × IpR} (h : e ∈ reuseMapOf netId assignments s) :
    e.1 ∈ assignments.map (·.2) ∧ find_public_ip_for_vm netId e.1 s = some e.2 := by
  unfold reuseMapOf at h
  rcases List.mem_filterMap.mp h with ⟨a, ha, hmap⟩
  cases hf : find_public_ip_for_vm netId a.2 s with
  | none => rw [hf] at hmap; cases hmap
  | some ip =>
    rw [hf] at hmap
    simp only [Option.map_some'] at hmap
    cases hmap
    exact ⟨List.mem_map.mpr ⟨a, ha, rfl⟩, hf⟩

theorem unassignedPoolOf_mem {netId : Nat} {assignments : List (String × Nat)} {s : St}
    {ip : IpR} (h : ip ∈ unassignedPoolOf netId assignments s) :
    ip ∈ s.ips ∧ ip.netId = netId ∧ ip.isSourceNat = false ∧
      ∀ e ∈ reuseMapOf netId assignments s, e.2.id ≠ ip.id := by
  unfold unassignedPoolOf at h
  obtain ⟨h1, h2⟩ := List.mem_filter.mp h
  unfold find_public_ips at h1
  obtain ⟨h3, h4⟩ := List.mem_filter.mp h1
  obtain ⟨h5, h6⟩ := List.mem_filter.mp h3
  simp only [Bool.not_eq_eq_eq_not, Bool.not_true, List.contains_eq_any_beq] at h2
  refine ⟨h5, by simpa using h6, by simpa using h4, fun e he => ?_⟩
  intro hid
  have : ((reuseMapOf netId assignments s).map fun e => e.2.id).any (ip.id == ·) = true := by
    rw [List.any_eq_true]
    exact ⟨ip.id, List.mem_map.mpr ⟨e, he, hid⟩, by simp⟩
  rw [h2] at this
  cases this

theorem unassignedPoolOf_sublist (netId : Nat) (assignments : List (String × Nat))
    (s : St) : (unassignedPoolOf netId assignments s).Sublist s.ips := by
  unfold unassignedPoolOf find_public_ips
  exact ((List.filter_sublist _).trans (List.filter_sublist _)).trans (List.filter_sublist _)

theorem zipPairs_map_fst :
    ∀ (xs : List (String × Nat)) (ys : List IpR), xs.length ≤ ys.length →
      (List.zipWith (fun a ip => (a.2, ip)) xs ys).map Prod.fst = xs.map (·.2) := by
  intro xs
  induction xs with
  | nil => intro ys _; rfl
  | cons x xt ih =>
    intro ys hlen
    cases ys with
    | nil => simp at hlen
    | cons y yt =>
      simp only [List.zipWith_cons_cons, List.map_cons]
      rw [ih yt (by simpa using hlen)]

theorem zipPairs_map_snd :
    ∀ (xs : List (String × Nat)) (ys : List IpR),
      (List.zipWith (fun a ip => (a.2, ip)) xs ys).map Prod.snd = ys.take xs.length := by
  intro xs
  induction xs with
  | nil => intro ys; simp
  | cons x xt ih =>
    intro ys
    cases ys with
    | nil => simp
    | cons y yt =>
      simp only [List.zipWith_cons_cons, List.map_cons, List.length_cons, List.take_succ_cons]
      rw [ih yt]

theorem freshIps_ids (start k netId : Nat) :
    (freshIps start k netId).map (·.id) = (List.range k).map (start + ·) := by
  simp [freshIps]

theorem freshIps_ids_nodup (start k netId : Nat) :
    ((freshIps start k netId).map (·.id)).Nodup := by
  rw [freshIps_ids]
  exact (List.nodup_range k).map (fun a b h => by omega)

theorem freshIps_ids_ge {start k netId : Nat} {ip : IpR}
    (h : ip ∈ freshIps start k netId) : start ≤ ip.id := by
  unfold freshIps at h
  rcases List.mem_map.mp h with ⟨i, _, hi⟩
  rw [show ip.id = start + i from by rw [hi.symm]]
  omega

theorem ipPoolOf_ids_nodup (netId : Nat) (assignments : List (String × Nat)) (s : St)
    (hids : (s.ips.map (·.id)).Nodup)
    (hfresh : ∀ ip ∈ s.ips, ip.id < s.fresh) :
    ((ipPoolOf netId assignments s).map (·.id)).Nodup := by
  unfold ipPoolOf
  rw [List.map_append]
  refine List.Nodup.append ?_ (freshIps_ids_nodup _ _ _) ?_
  · exact hids.sublist ((unassignedPoolOf_sublist netId assignments s).map (·.id))
  · intro x hx hy
    rcases List.mem_map.mp hx with ⟨ip, hip, hipx⟩
    rcases List.mem_map.mp hy with ⟨ip', hip', hipy⟩
    have h1 : ip.id < s.fresh :=
      hfresh ip ((unassignedPoolOf_sublist netId assignments s).mem hip)
    have h2 : s.fresh ≤ ip'.id := freshIps_ids_ge hip'
    omega

theorem ipPoolOf_mem {netId : Nat} {assignments : List (String × Nat)} {s : St}
    {ip : IpR} (h : ip ∈ ipPoolOf netId assignments s) :
    ip ∈ unassignedPoolOf netId assignments s ∨ s.fresh ≤ ip.id := by
  unfold ipPoolOf at h
  rcases List.mem_append.mp h with h' | h'
  · exact .inl h'
  · exact .inr (freshIps_ids_ge h')

/-- The commands the IP wiring step appends: the associates, then the
enables in role order. -/
theorem ipPhase_log (netId : Nat) (assignments : List (String × Nat)) (s : St) :
    (enableAllNat (ipPairsOf netId assignments s) (ipAssocStateOf netId assignments s)).log
      = s.log
        ++ List.replicate
            ((needingOf netId assignments s).length
              - (unassignedPoolOf netId assignments s).length)
            (Cmd.associateIP netId)
        ++ (ipPairsOf netId assignments s).map fun e => Cmd.enableStaticNat e.2.id e.1 := by
  rw [enableAllNat_log]
  rfl

theorem mem_zipWith_pairs :
    ∀ {xs : List (String × Nat)} {ys : List IpR} {e : Nat × IpR},
      e ∈ List.zipWith (fun a ip => (a.2, ip)) xs ys →
      ∃ a ∈ xs, ∃ ip ∈ ys, e = (a.2, ip) := by
  intro xs
  induction xs with
  | nil => intro ys e h; simp at h
  | cons x xt ih =>
    intro ys e h
    cases ys with
    | nil => simp at h
    | cons y yt =>
      rw [List.zipWith_cons_cons] at h
      rcases List.mem_cons.mp h with h' | h'
      · exact ⟨x, List.mem_cons_self _ _, y, List.mem_cons_self _ _, h'⟩
      · obtain ⟨a, ha, ip, hip, he⟩ := ih h'
        exact ⟨a, List.mem_cons_of_mem _ ha, ip, List.mem_cons_of_mem _ hip, he⟩

theorem find_public_ip_for_vm_mem {netId vmId : Nat} {s : St} {ip : IpR}
    (h : find_public_ip_for_vm netId vmId s = some ip) :
    ip ∈ s.ips ∧ ip.netId = netId ∧ ip.vmId = some vmId := by
  unfold find_public_ip_for_vm at h
  have hmem := List.mem_of_find?_eq_some h
  have hprop := List.find?_some h
  obtain ⟨h1, h2⟩ := List.mem_filter.mp hmem
  exact ⟨h1, by simpa using h2, by simpa using hprop⟩

theorem reuseMapOf_mem_intro {netId : Nat} {assignments : List (String × Nat)} {s : St}
    {v : Nat} {ip : IpR} (hmem : v ∈ assignments.map (·.2))
    (hfind : find_public_ip_for_vm netId v s = some ip) :
    (v, ip) ∈ reuseMapOf netId assignments s := by
  rcases List.mem_map.mp hmem with ⟨a, ha, hav⟩
  unfold reuseMapOf
  refine List.mem_filterMap.mpr ⟨a, ha, ?_⟩
  rw [hav, hfind]
  rfl

theorem lookupIpMap_append_left {m1 m2 : List (Nat × IpR)} {v : Nat} {ip : IpR}
    (h : lookupIpMap m1 v = some ip) : lookupIpMap (m1 ++ m2) v = some ip := by
  unfold lookupIpMap at h ⊢
  rw [List.find?_append]
  cases hf : m1.find? (fun e => e.1 == v) with
  | none => rw [hf] at h; cases h
  | some e => rw [hf] at h; rw [Option.or]; exact h

theorem filterMap_replicate_none {α β : Type} {f : α → Option β} {a : α}
    (hf : f a = none) : ∀ k, List.filterMap f (List.replicate k a) = []
  | 0 => rfl
  | k + 1 => by
    rw [List.replicate_succ, List.filterMap_cons_none hf, filterMap_replicate_none hf k]

theorem filterMap_some_map {α β : Type} (g : α → β) :
    ∀ l : List α, List.filterMap (fun x => some (g x)) l = l.map g
  | [] => rfl
  | x :: xs => by
    rw [List.filterMap_cons]
    dsimp only
    rw [filterMap_some_map g xs, List.map_cons]

/-- C3: the IP wiring step.  Whenever it succeeds (over an account whose
public-IP ids are distinct and below the fresh counter):
(1) every role VM that already has a public IP NATed to it gets exactly
that IP recorded in the `ip_map` used for the output;
(2) the step issues only associate and enable commands (never a disable);
(3) no enable is issued for such a VM or for its IP;
(4) enables are issued exactly for the role VMs with no existing NAT;
(5) the enabled IPs are pairwise distinct;
(6) each enabled IP is taken from the previously unassigned non-source-NAT
pool, or was freshly associated;
(7) the number of associate commands is exactly the shortfall
`|needing| - |pool|` (zero when the pool suffices), one IP per command. -/
theorem ipPhase_reuse_and_fill (netId : Nat) (assignments : List (String × Nat)) (s : St)
    (hids : (s.ips.map (·.id)).Nodup)
    (hfresh : ∀ ip ∈ s.ips, ip.id < s.fresh) :
    ∀ m s', ipPhase netId assignments s = .ok (m, s') →
      (∀ v ip, v ∈ assignments.map (·.2) → find_public_ip_for_vm netId v s = some ip →
        lookupIpMap m v = some ip) ∧
      (∀ c ∈ s'.log.drop s.log.length,
        c = Cmd.associateIP netId ∨ ∃ ipId w, c = Cmd.enableStaticNat ipId w) ∧
      (∀ v ip, v ∈ assignments.map (·.2) → find_public_ip_for_vm netId v s = some ip →
        ∀ ipId w, Cmd.enableStaticNat ipId w ∈ s'.log.drop s.log.length →
          w ≠ v ∧ ipId ≠ ip.id) ∧
      ((∀ v, v ∈ assignments.map (·.2) → find_public_ip_for_vm netId v s = none →
          ∃ ipId, Cmd.enableStaticNat ipId v ∈ s'.log.drop s.log.length) ∧
        (∀ ipId w, Cmd.enableStaticNat ipId w ∈ s'.log.drop s.log.length →
          w ∈ assignments.map (·.2) ∧ find_public_ip_for_vm netId w s = none)) ∧
      ((s'.log.drop s.log.length).filterMap fun c =>
        match c with
        | Cmd.enableStaticNat ipId _ => some ipId
        | _ => none).Nodup ∧
      (∀ ipId w, Cmd.enableStaticNat ipId w ∈ s'.log.drop s.log.length →
        ipId ∈ (unassignedPoolOf netId assignments s).map (·.id) ∨ s.fresh ≤ ipId) ∧
      ((s'.log.drop s.log.length).count (Cmd.associateIP netId)
        = (needingOf netId assignments s).length
          - (unassignedPoolOf netId assignments s).length) := by
  intro m s' hrun
  rw [ipPhase_run] at hrun
  simp only [Except.ok.injEq, Prod.mk.injEq] at hrun
  obtain ⟨hm, hs⟩ := hrun
  subst hm
  subst hs
  have hD : (enableAllNat (ipPairsOf netId assignments s)
        (ipAssocStateOf netId assignments s)).log.drop s.log.length
      = List.replicate
          ((needingOf netId assignments s).length
            - (unassignedPoolOf netId assignments s).length)
          (Cmd.associateIP netId)
        ++ (ipPairsOf netId assignments s).map fun e => Cmd.enableStaticNat e.2.id e.1 := by
    rw [ipPhase_log, List.append_assoc, List.drop_left]
  have hfst : (ipPairsOf netId assignments s).map Prod.fst
      = (needingOf netId assignments s).map (·.2) := by
    unfold ipPairsOf
    exact zipPairs_map_fst _ _ (ipPool_long_enough netId assignments s)
  have hEnable : ∀ ipId w,
      (Cmd.enableStaticNat ipId w ∈ (enableAllNat (ipPairsOf netId assignments s)
        (ipAssocStateOf netId assignments s)).log.drop s.log.length)
      ↔ ∃ e ∈ ipPairsOf netId assignments s, e.1 = w ∧ e.2.id = ipId := by
    intro ipId w
    rw [hD, List.mem_append]
    constructor
    · rintro (h | h)
      · exact absurd (List.eq_of_mem_replicate h) (by simp)
      · obtain ⟨e, he, heq⟩ := List.mem_map.mp h
        cases heq
        exact ⟨e, he, rfl, rfl⟩
    · rintro ⟨e, he, h1, h2⟩
      refine .inr (List.mem_map.mpr ⟨e, he, ?_⟩)
      rw [h1, h2]
  have hPairsDecomp : ∀ e, e ∈ ipPairsOf netId assignments s →
      ∃ a ∈ needingOf netId assignments s, ∃ ip ∈ ipPoolOf netId assignments s,
        e = (a.2, ip) := by
    intro e he
    unfold ipPairsOf at he
    exact mem_zipWith_pairs he
  have hc4b : ∀ ipId w, Cmd.enableStaticNat ipId w ∈ (enableAllNat
        (ipPairsOf netId assignments s) (ipAssocStateOf netId assignments s)).log.drop
        s.log.length →
      w ∈ assignments.map (·.2) ∧ find_public_ip_for_vm netId w s = none := by
    intro ipId w hcmd
    obtain ⟨e, he, he1, _⟩ := (hEnable ipId w).mp hcmd
    obtain ⟨a, haneed, ip', _, hepair⟩ := hPairsDecomp e he
    obtain ⟨ha, hafind⟩ := needingOf_mem.mp haneed
    subst hepair
    simp only at he1
    subst he1
    exact ⟨List.mem_map.mpr ⟨a, ha, rfl⟩, hafind⟩
  refine ⟨?_, ?_, ?_, ⟨?_, hc4b⟩, ?_, ?_, ?_⟩
  · intro v ip hvmem hfind
    exact lookupIpMap_append_left (reuseMapOf_lookup hvmem hfind)
  · intro c hc
    rw [hD] at hc
    rcases List.mem_append.mp hc with h | h
    · exact .inl (List.eq_of_mem_replicate h)
    · obtain ⟨e, _, heq⟩ := List.mem_map.mp h
      exact .inr ⟨e.2.id, e.1, heq.symm⟩
  · intro v ip hvmem hfind ipId w hcmd
    constructor
    · intro hwv
      subst hwv
      have := (hc4b ipId w hcmd).2
      rw [hfind] at this
      cases this
    · obtain ⟨e, he, _, he2⟩ := (hEnable ipId w).mp hcmd
      obtain ⟨a, _, ip', hippool, hepair⟩ := hPairsDecomp e he
      subst hepair
      simp only at he2
      subst he2
      rcases ipPoolOf_mem hippool with hun | hfr
      · have hne := (unassignedPoolOf_mem hun).2.2.2 (v, ip)
          (reuseMapOf_mem_intro hvmem hfind)
        simpa using fun h => hne h.symm
      · have hlt := hfresh ip (find_public_ip_for_vm_mem hfind).1
        omega
  · intro v hvmem hnone
    obtain ⟨a, ha, hav⟩ := List.mem_map.mp hvmem
    have hneed : a ∈ needingOf netId assignments s :=
      needingOf_mem.mpr ⟨ha, by rw [hav]; exact hnone⟩
    have : v ∈ (ipPairsOf netId assignments s).map Prod.fst := by
      rw [hfst]
      exact List.mem_map.mpr ⟨a, hneed, hav⟩
    obtain ⟨e, he, hev⟩ := List.mem_map.mp this
    exact ⟨e.2.id, (hEnable e.2.id v).mpr ⟨e, he, hev, rfl⟩⟩
  · rw [hD, List.filterMap_append]
    rw [filterMap_replicate_none (by rfl)]
    rw [List.filterMap_map]
    rw [show ((fun c => match c with
        | Cmd.enableStaticNat ipId _ => some ipId
        | _ => none) ∘ fun e => Cmd.enableStaticNat (e : Nat × IpR).2.id e.1)
      = fun e => some ((e : Nat × IpR).2.id) from rfl]
    rw [filterMap_some_map]
    simp only [List.nil_append]
    have hsnd : (ipPairsOf netId assignments s).map (fun e => e.2.id)
        = ((ipPoolOf netId assignments s).map (·.id)).take
            (needingOf netId assignments s).length := by
      have h1 : (ipPairsOf netId assignments s).map (fun e => e.2.id)
          = ((ipPairsOf netId assignments s).map Prod.snd).map (·.id) := by
        rw [List.map_map]
        rfl
      rw [h1]
      unfold ipPairsOf
      rw [zipPairs_map_snd, List.map_take]
    rw [hsnd]
    exact (ipPoolOf_ids_nodup netId assignments s hids hfresh).sublist
      (List.take_sublist _ _)
  · intro ipId w hcmd
    obtain ⟨e, he, _, he2⟩ := (hEnable ipId w).mp hcmd
    obtain ⟨a, _, ip', hippool, hepair⟩ := hPairsDecomp e he
    subst hepair
    simp only at he2
    subst he2
    rcases ipPoolOf_mem hippool with hun | hfr
    · exact .inl (List.mem_map.mpr ⟨ip', hun, rfl⟩)
    · exact .inr hfr
  · rw [hD, List.count_append, List.count_replicate_self]
    have : ((ipPairsOf netId assignments s).map fun e =>
        Cmd.enableStaticNat e.2.id e.1).count (Cmd.associateIP netId) = 0 := by
      rw [List.count_eq_zero]
      intro hmem
      obtain ⟨e, _, heq⟩ := List.mem_map.mp hmem
      cases heq
    rw [this]
    omega

/-- A concrete account for the IP wiring witness: the network 9 holds an IP
already NATed to the web VM (100), one unassigned IP, and the source-NAT
IP; two more role VMs (200, 300) need IPs. -/
def c3St : St :=
  ⟨[], [], [], [],
   [⟨1, "ip-a", 9, false, true, some 100⟩,
    ⟨2, "ip-b", 9, false, false, none⟩,
    ⟨3, "ip-src", 9, true, false, none⟩],
   [], [], 10, []⟩

def c3Assignments : List (String × Nat) := [("Web", 100), ("Worker", 200), ("DB", 300)]

def c3Map : List (Nat × IpR) :=
  [(100, ⟨1, "ip-a", 9, false, true, some 100⟩),
   (200, ⟨2, "ip-b", 9, false, false, none⟩),
   (300, ⟨10, "ip-10", 9, false, false, none⟩)]

def c3Post : St :=
  ⟨[], [], [], [],
   [⟨1, "ip-a", 9, false, true, some 100⟩,
    ⟨2, "ip-b", 9, false, true, some 200⟩,
    ⟨3, "ip-src", 9, true, false, none⟩,
    ⟨10, "ip-10", 9, false, true, some 300⟩],
   [], [], 11,
   [.associateIP 9, .enableStaticNat 2 200, .enableStaticNat 10 300]⟩

theorem ipPhase_reuse_and_fill_witness :
    lookupIpMap c3Map 100 = some ⟨1, "ip-a", 9, false, true, some 100⟩ ∧
    (∀ ipId w, Cmd.enableStaticNat ipId w ∈ c3Post.log.drop c3St.log.length →
      w ≠ 100 ∧ ipId ≠ 1) ∧
    (c3Post.log.drop c3St.log.length).count (Cmd.associateIP 9) = 1 := by
  have h := ipPhase_reuse_and_fill 9 c3Assignments c3St (by decide)
    (by intro ip hip; fin_cases hip <;> decide) c3Map c3Post (by rfl)
  refine ⟨h.1 100 ⟨1, "ip-a", 9, false, true, some 100⟩ (by decide) (by rfl), ?_, ?_⟩
  · exact h.2.2.1 100 ⟨1, "ip-a", 9, false, true, some 100⟩ (by decide) (by rfl)
  · have := h.2.2.2.2.2.2
    rw [show (needingOf 9 c3Assignments c3St).length = 2 from by rfl,
      show (unassignedPoolOf 9 c3Assignments c3St).length = 1 from by rfl] at this
    exact this

/-! ## Excess-worker removal proofs -/

theorem filter_map_eq_filter {α : Type} (l : List α) (q : α → Bool) (g : α → α)
    (hq : ∀ x, q (g x) = q x) (hg : ∀ x, q x = true → g x = x) :
    (l.map g).filter q = l.filter q := by
  induction l with
  | nil => rfl
  | cons x xs ih =>
    simp only [List.map_cons, List.filter_cons]
    rw [hq x]
    by_cases hx : q x = true
    · simp only [hx, if_pos rfl]
      rw [hg x hx, ih]
    · simp only [hx]
      simpa using ih

theorem filter_filter_eq {α : Type} (p q : α → Bool) (l : List α) :
    (l.filter q).filter p = l.filter fun a => q a && p a := by
  induction l with
  | nil => rfl
  | cons x xs ih =>
    cases hq : q x <;> cases hp : p x <;>
      simp [List.filter_cons, hq, hp, ih]

theorem filter_swap {α : Type} (p q : α → Bool) (l : List α) :
    (l.filter q).filter p = (l.filter p).filter q := by
  rw [filter_filter_eq, filter_filter_eq]
  apply List.filter_congr
  intro x _
  cases hq : q x <;> cases hp : p x <;> rfl

/-- The per-worker removal command sequence of `remove_vm_and_ip`: an
optional static-NAT disable, the IP's firewall-rule deletions, the IP
disassociation, then the destroy with expunge — in that order (a plain
destroy when the VM holds no removable IP). -/
def removalSeg (vmId : Nat) (seg : List Cmd) : Prop :=
  seg = [.destroyVM vmId true] ∨
  ∃ (ipId : Nat) (dis : List Cmd) (ruleIds : List Nat),
    (dis = [] ∨ dis = [.disableStaticNat ipId]) ∧
    seg = dis ++ ruleIds.map .deleteFirewallRule
      ++ [.disassociateIP ipId, .destroyVM vmId true]

/-- The exact removal command sequence `remove_vm_and_ip vmId netId t`
appends to the log, pinned to the VM's public-IP binding in the state `t`
the removal runs from: with `find_public_ip_for_vm` yielding no IP, or only
the source-NAT one, a bare destroy with expunge; with a non-source-NAT
public IP, the static-NAT disable (present exactly when NAT is enabled on
that IP), the deletions of exactly that IP's firewall rules in listing
order, the IP's disassociation, then the destroy with expunge. -/
def removalSegFor (netId : Nat) (t : St) (vmId : Nat) (seg : List Cmd) : Prop :=
  (find_public_ip_for_vm netId vmId t = none → seg = [.destroyVM vmId true]) ∧
  ∀ ip, find_public_ip_for_vm netId vmId t = some ip →
    (ip.isSourceNat = true → seg = [.destroyVM vmId true]) ∧
    (ip.isSourceNat = false →
      seg = (if ip.isStaticNat then [Cmd.disableStaticNat ip.id] else [])
        ++ ((find_firewall_rules ip.id t).map fun r => Cmd.deleteFirewallRule r.id)
        ++ [.disassociateIP ip.id, .destroyVM vmId true])

theorem removalSegFor_removalSeg {netId : Nat} {t : St} {vmId : Nat} {seg : List Cmd}
    (h : removalSegFor netId t vmId seg) : removalSeg vmId seg := by
  cases hip : find_public_ip_for_vm netId vmId t with
  | none => exact Or.inl (h.1 hip)
  | some ip =>
    have hcase := h.2 ip hip
    by_cases hs : ip.isSourceNat
    · exact Or.inl (hcase.1 hs)
    · refine Or.inr ⟨ip.id, if ip.isStaticNat then [Cmd.disableStaticNat ip.id] else [],
        (find_firewall_rules ip.id t).map (·.id), ?_, ?_⟩
      · by_cases hn : ip.isStaticNat
        · rw [if_pos hn]
          exact Or.inr rfl
        · rw [if_neg hn]
          exact Or.inl rfl
      · rw [hcase.2 (by simpa using hs), List.map_map]
        rfl

theorem removalSegFor_congr {netId vmId : Nat} {t1 t : St} {seg : List Cmd}
    (hipeq : find_public_ip_for_vm netId vmId t1 = find_public_ip_for_vm netId vmId t)
    (hfweq : ∀ ip, find_public_ip_for_vm netId vmId t = some ip →
      find_firewall_rules ip.id t1 = find_firewall_rules ip.id t)
    (h : removalSegFor netId t1 vmId seg) : removalSegFor netId t vmId seg := by
  constructor
  · intro hnone
    exact h.1 (hipeq.trans hnone)
  · intro ip hip
    have hcase := h.2 ip (hipeq.trans hip)
    refine ⟨hcase.1, ?_⟩
    intro hs
    rw [hcase.2 hs, hfweq ip hip]

theorem deleteFwRulesLoop_log (rules : List FwR) (t : St) :
    (deleteFwRulesLoop rules t).log
      = t.log ++ rules.map fun r => Cmd.deleteFirewallRule r.id := by
  induction rules generalizing t with
  | nil => simp [deleteFwRulesLoop]
  | cons r rest ih =>
    unfold deleteFwRulesLoop at ih ⊢
    simp only [List.foldl_cons, List.map_cons]
    rw [ih]
    simp [cmkDeleteFirewallRule]

theorem deleteFwRulesLoop_frame (rules : List FwR) (t : St) :
    (deleteFwRulesLoop rules t).networks = t.networks ∧
    (deleteFwRulesLoop rules t).keypairs = t.keypairs ∧
    (deleteFwRulesLoop rules t).vms = t.vms ∧
    (deleteFwRulesLoop rules t).volumes = t.volumes ∧
    (deleteFwRulesLoop rules t).ips = t.ips ∧
    (deleteFwRulesLoop rules t).policies = t.policies ∧
    (deleteFwRulesLoop rules t).fresh = t.fresh ∧
    (deleteFwRulesLoop rules t).fwRules.Sublist t.fwRules := by
  induction rules generalizing t with
  | nil => exact ⟨rfl, rfl, rfl, rfl, rfl, rfl, rfl, List.Sublist.refl _⟩
  | cons r rest ih =>
    unfold deleteFwRulesLoop at ih ⊢
    simp only [List.foldl_cons]
    obtain ⟨h1, h2, h3, h4, h5, h6, h7, h8⟩ := ih (cmkDeleteFirewallRule r.id t)
    exact ⟨h1, h2, h3, h4, h5, h6, h7, h8.trans (List.filter_sublist _)⟩

theorem remove_vm_and_ip_spec (vmId netId : Nat) (t : St) :
    (remove_vm_and_ip vmId netId t).networks = t.networks ∧
    (remove_vm_and_ip vmId netId t).keypairs = t.keypairs ∧
    (remove_vm_and_ip vmId netId t).volumes = t.volumes ∧
    (remove_vm_and_ip vmId netId t).policies = t.policies ∧
    (remove_vm_and_ip vmId netId t).fresh = t.fresh ∧
    (remove_vm_and_ip vmId netId t).vms = t.vms.filter (fun v => !(v.id == vmId)) ∧
    (remove_vm_and_ip vmId netId t).ips.Sublist t.ips ∧
    (remove_vm_and_ip vmId netId t).fwRules.Sublist t.fwRules ∧
    ∃ seg, (remove_vm_and_ip vmId netId t).log = t.log ++ seg ∧ removalSeg vmId seg ∧
      removalSegFor netId t vmId seg := by
  unfold remove_vm_and_ip
  cases hip : find_public_ip_for_vm netId vmId t with
  | none =>
    exact ⟨rfl, rfl, rfl, rfl, rfl, rfl, List.Sublist.refl _, List.Sublist.refl _,
      [.destroyVM vmId true], rfl, Or.inl rfl, fun _ => rfl,
      fun ip hip2 => Option.noConfusion (hip.symm.trans hip2)⟩
  | some ip =>
    dsimp only
    by_cases hs : ip.isSourceNat
    · rw [hs]
      rw [if_neg (show ¬ ((!true) = true) by decide)]
      refine ⟨rfl, rfl, rfl, rfl, rfl, rfl, List.Sublist.refl _, List.Sublist.refl _,
        [.destroyVM vmId true], rfl, Or.inl rfl,
        fun hnone => Option.noConfusion (hip.symm.trans hnone), fun ip2 hip2 => ?_⟩
      have he : ip = ip2 := Option.some.inj (hip.symm.trans hip2)
      subst he
      exact ⟨fun _ => rfl, fun hs0 => Bool.noConfusion (hs0.symm.trans hs)⟩
    · have hs2 : ip.isSourceNat = false := by simpa using hs
      rw [hs2]
      rw [if_pos (show (!false) = true by decide)]
      set t1 := if ip.isStaticNat then cmkDisableStaticNat ip.id t else t with ht1
      have h1 : t1.networks = t.networks ∧ t1.keypairs = t.keypairs ∧
          t1.vms = t.vms ∧ t1.volumes = t.volumes ∧ t1.policies = t.policies ∧
          t1.fresh = t.fresh ∧ t1.fwRules = t.fwRules ∧
          (t1.ips = t.ips ∨ t1.ips = t.ips.map fun x =>
            if x.id == ip.id then { x with isStaticNat := false, vmId := none } else x) ∧
          (∃ dis, t1.log = t.log ++ dis ∧
            dis = (if ip.isStaticNat then [Cmd.disableStaticNat ip.id] else [])) := by
        rw [ht1]
        by_cases hn : ip.isStaticNat
        · rw [if_pos hn]
          exact ⟨rfl, rfl, rfl, rfl, rfl, rfl, rfl, Or.inr rfl,
            [.disableStaticNat ip.id], rfl, (if_pos hn).symm⟩
        · rw [if_neg hn]
          exact ⟨rfl, rfl, rfl, rfl, rfl, rfl, rfl, Or.inl rfl, [], by simp,
            (if_neg hn).symm⟩
      obtain ⟨hf1, hf2, hf3, hf4, hf5, hf6, hf7, hips, dis, hdis, hdiseq⟩ := h1
      have hdisshape : dis = [] ∨ dis = [.disableStaticNat ip.id] := by
        rw [hdiseq]
        by_cases hn : ip.isStaticNat
        · rw [if_pos hn]
          exact Or.inr rfl
        · rw [if_neg hn]
          exact Or.inl rfl
      obtain ⟨g1, g2, g3, g4, g5, g6, g7, g8⟩ :=
        deleteFwRulesLoop_frame (find_firewall_rules ip.id t1) t1
      refine ⟨?_, ?_, ?_, ?_, ?_, ?_, ?_, ?_, ?_⟩
      · simp [cmkDestroyVM, cmkDisassociateIP, g1, hf1]
      · simp [cmkDestroyVM, cmkDisassociateIP, g2, hf2]
      · simp [cmkDestroyVM, cmkDisassociateIP, g4, hf4]
      · simp [cmkDestroyVM, cmkDisassociateIP, g6, hf5]
      · simp [cmkDestroyVM, cmkDisassociateIP, g7, hf6]
      · simp [cmkDestroyVM, cmkDisassociateIP, g3, hf3]
      · have heq : (cmkDestroyVM vmId (cmkDisassociateIP ip.id
            (deleteFwRulesLoop (find_firewall_rules ip.id t1) t1))).ips
            = t1.ips.filter fun x => !(x.id == ip.id) := by
          simp [cmkDestroyVM, cmkDisassociateIP, g5]
        rw [heq]
        rcases hips with h | h
        · rw [h]
          exact List.filter_sublist _
        · rw [h, filter_map_eq_filter _ _ _ ?_ ?_]
          · exact List.filter_sublist _
          · intro x
            by_cases hx : x.id == ip.id <;> simp [hx]
          · intro x hx
            rw [if_neg (by simpa using hx)]
      · have heq : (cmkDestroyVM vmId (cmkDisassociateIP ip.id
            (deleteFwRulesLoop (find_firewall_rules ip.id t1) t1))).fwRules
            = (deleteFwRulesLoop (find_firewall_rules ip.id t1) t1).fwRules := by
          simp [cmkDestroyVM, cmkDisassociateIP]
        rw [heq, ← hf7]
        exact g8
      · refine ⟨dis ++ (find_firewall_rules ip.id t1).map (fun r => .deleteFirewallRule r.id)
          ++ [.disassociateIP ip.id, .destroyVM vmId true], ?_, ?_, ?_⟩
        · have : (cmkDestroyVM vmId (cmkDisassociateIP ip.id
              (deleteFwRulesLoop (find_firewall_rules ip.id t1) t1))).log
              = (deleteFwRulesLoop (find_firewall_rules ip.id t1) t1).log
                ++ [.disassociateIP ip.id, .destroyVM vmId true] := by
            simp [cmkDestroyVM, cmkDisassociateIP]
          rw [this, deleteFwRulesLoop_log, hdis]
          simp [List.append_assoc]
        · refine Or.inr ⟨ip.id, dis, (find_firewall_rules ip.id t1).map (·.id),
            hdisshape, ?_⟩
          rw [List.map_map]
          rfl
        · refine ⟨fun hnone => Option.noConfusion (hip.symm.trans hnone),
            fun ip2 hip2 => ?_⟩
          have he : ip = ip2 := Option.some.inj (hip.symm.trans hip2)
          subst he
          refine ⟨fun hs0 => Bool.noConfusion (hs2.symm.trans hs0), fun _ => ?_⟩
          rw [hdiseq]
          rw [show find_firewall_rules ip.id t1 = find_firewall_rules ip.id t from by
            unfold find_firewall_rules
            rw [hf7]]

theorem removeExcessLoop_none {net : String} {netId idx : Nat} {t : St}
    (h : find_vm (workerVmNameOf net idx) t = none) :
    removeExcessLoop net netId idx t = t := by
  unfold removeExcessLoop
  split
  · rfl
  · next vm heq =>
    rw [h] at heq
    cases heq

theorem removeExcessLoop_some {net : String} {netId idx : Nat} {t : St} {vm : VMR}
    (h : find_vm (workerVmNameOf net idx) t = some vm) :
    removeExcessLoop net netId idx t
      = removeExcessLoop net netId (idx + 1) (remove_vm_and_ip vm.id netId t) := by
  conv_lhs => unfold removeExcessLoop
  split
  · next heq =>
    rw [h] at heq
    cases heq
  · next vm' heq =>
    rw [h] at heq
    cases heq
    rfl

/-- Number of VMs in the account bearing a name. -/
def countName (n : String) (t : St) : Nat :=
  (t.vms.filter fun v => v.name == n).length

theorem find?_filter_eq {α : Type} (l : List α) (p q : α → Bool)
    (h : ∀ x ∈ l, q x = false → p x = false) :
    (l.filter q).find? p = l.find? p := by
  induction l with
  | nil => rfl
  | cons x xs ih =>
    rw [List.filter_cons]
    by_cases hq : q x = true
    · rw [if_pos hq]
      rw [List.find?_cons, List.find?_cons]
      cases hp : p x
      · exact ih fun y hy => h y (List.mem_cons_of_mem _ hy)
      · rfl
    · have hq' : q x = false := by simpa using hq
      rw [if_neg (by simp [hq'])]
      rw [List.find?_cons]
      rw [h x (List.mem_cons_self _ _) hq']
      exact ih fun y hy => h y (List.mem_cons_of_mem _ hy)

theorem mem_eq_of_length_le_one {α : Type} {l : List α} (h : l.length ≤ 1)
    {x y : α} (hx : x ∈ l) (hy : y ∈ l) : x = y := by
  cases l with
  | nil => cases hx
  | cons a rest =>
    cases rest with
    | nil =>
      rcases List.mem_singleton.mp hx with hx'
      rcases List.mem_singleton.mp hy with hy'
      rw [hx', hy']
    | cons b rest2 => simp at h

theorem id_unique_of_nodup {t : St} (hnodup : (t.vms.map (·.id)).Nodup)
    {v w : VMR} (hv : v ∈ t.vms) (hw : w ∈ t.vms) (hid : v.id = w.id) : v = w :=
  List.inj_on_of_nodup_map hnodup hv hw hid

theorem countName_filter_le (n : String) (t : St) (q : VMR → Bool) :
    ((t.vms.filter q).filter fun v => v.name == n).length ≤ countName n t := by
  unfold countName
  exact ((List.filter_sublist _).filter _).length_le

theorem chain_to_base {α : Type} (f : Nat → Option α) (idx : Nat)
    (hchain : ∀ k, idx ≤ k → (f (k + 1)).isSome = true → (f k).isSome = true) :
    ∀ k, idx ≤ k → (f k).isSome = true → (f idx).isSome = true := by
  intro k hk
  induction k, hk using Nat.le_induction with
  | base => exact fun h => h
  | succ k hk ihk => exact fun h => ihk (hchain k hk h)

theorem deleteFwRulesLoop_fwRules (rules : List FwR) (t : St) :
    (deleteFwRulesLoop rules t).fwRules
      = t.fwRules.filter fun r => !(rules.any fun d => r.id == d.id) := by
  induction rules generalizing t with
  | nil =>
    unfold deleteFwRulesLoop
    simp
  | cons d rest ih =>
    unfold deleteFwRulesLoop at ih ⊢
    simp only [List.foldl_cons]
    rw [ih (cmkDeleteFirewallRule d.id t)]
    have hproj : (cmkDeleteFirewallRule d.id t).fwRules
        = t.fwRules.filter fun r => !(r.id == d.id) := rfl
    rw [hproj, filter_filter_eq]
    apply List.filter_congr
    intro x _
    simp only [List.any_cons]
    cases hxd : x.id == d.id <;>
      cases hxr : rest.any fun dd => x.id == dd.id <;>
      simp [hxd, hxr]

/-- Removing one VM (and its IP) preserves the public-IP binding and the
firewall-rule listing of every other VM: the step only disassociates the
removed VM's own IP and deletes that IP's rules, identified by their
pairwise-distinct ids. -/
theorem remove_vm_and_ip_lookup_pres {vm0Id netId : Nat} {t : St}
    (hips : (t.ips.map (·.id)).Nodup) (hfwids : (t.fwRules.map (·.id)).Nodup)
    {vmId : Nat} (hne : vmId ≠ vm0Id) :
    find_public_ip_for_vm netId vmId (remove_vm_and_ip vm0Id netId t)
        = find_public_ip_for_vm netId vmId t ∧
    ∀ ip, find_public_ip_for_vm netId vmId t = some ip →
      find_firewall_rules ip.id (remove_vm_and_ip vm0Id netId t)
        = find_firewall_rules ip.id t := by
  unfold remove_vm_and_ip
  cases hip0 : find_public_ip_for_vm netId vm0Id t with
  | none => exact ⟨rfl, fun ip _ => rfl⟩
  | some ip0 =>
    have hip0f : (t.ips.filter fun q0 => q0.netId == netId).find?
        (fun q0 => q0.vmId == some vm0Id) = some ip0 := hip0
    have hip0mem : ip0 ∈ t.ips :=
      (List.mem_filter.mp (List.mem_of_find?_eq_some hip0f)).1
    have hip0vm : ip0.vmId = some vm0Id := by
      simpa using List.find?_some hip0f
    dsimp only
    by_cases hs : ip0.isSourceNat
    · rw [hs, if_neg (show ¬ ((!true) = true) by decide)]
      exact ⟨rfl, fun ip _ => rfl⟩
    · have hs2 : ip0.isSourceNat = false := by simpa using hs
      rw [hs2, if_pos (show (!false) = true by decide)]
      set t1 := if ip0.isStaticNat then cmkDisableStaticNat ip0.id t else t with ht1
      have hfw1 : t1.fwRules = t.fwRules := by
        rw [ht1]
        by_cases hn : ip0.isStaticNat
        · rw [if_pos hn]
          rfl
        · rw [if_neg hn]
      have hips1 : t1.ips = t.ips ∨ t1.ips = t.ips.map fun x =>
          if x.id == ip0.id then { x with isStaticNat := false, vmId := none } else x := by
        rw [ht1]
        by_cases hn : ip0.isStaticNat
        · rw [if_pos hn]
          exact Or.inr rfl
        · rw [if_neg hn]
          exact Or.inl rfl
      have hr01 : find_firewall_rules ip0.id t1 = find_firewall_rules ip0.id t := by
        unfold find_firewall_rules
        rw [hfw1]
      have hAips : (cmkDestroyVM vm0Id (cmkDisassociateIP ip0.id
          (deleteFwRulesLoop (find_firewall_rules ip0.id t1) t1))).ips
          = t.ips.filter fun x => !(x.id == ip0.id) := by
        have h1 : (cmkDestroyVM vm0Id (cmkDisassociateIP ip0.id
            (deleteFwRulesLoop (find_firewall_rules ip0.id t1) t1))).ips
            = t1.ips.filter fun x => !(x.id == ip0.id) := by
          obtain ⟨g1, g2, g3, g4, g5, g6, g7, g8⟩ :=
            deleteFwRulesLoop_frame (find_firewall_rules ip0.id t1) t1
          simp [cmkDestroyVM, cmkDisassociateIP, g5]
        rw [h1]
        rcases hips1 with h | h
        · rw [h]
        · rw [h, filter_map_eq_filter _ _ _ ?_ ?_]
          · intro x
            by_cases hx : x.id == ip0.id <;> simp [hx]
          · intro x hx
            rw [if_neg (by simpa using hx)]
      have hAfw : (cmkDestroyVM vm0Id (cmkDisassociateIP ip0.id
          (deleteFwRulesLoop (find_firewall_rules ip0.id t1) t1))).fwRules
          = t.fwRules.filter fun r =>
            !((find_firewall_rules ip0.id t).any fun d => r.id == d.id) := by
        have h1 : (cmkDestroyVM vm0Id (cmkDisassociateIP ip0.id
            (deleteFwRulesLoop (find_firewall_rules ip0.id t1) t1))).fwRules
            = (deleteFwRulesLoop (find_firewall_rules ip0.id t1) t1).fwRules := rfl
        rw [h1, deleteFwRulesLoop_fwRules, hfw1, hr01]
      constructor
      · unfold find_public_ip_for_vm
        rw [hAips, filter_swap]
        apply find?_filter_eq
        intro x hx hqx
        have hxid : x.id = ip0.id := by
          by_contra hcon
          rw [show (x.id == ip0.id) = false from by simpa using hcon] at hqx
          simp at hqx
        have hxmem : x ∈ t.ips := (List.mem_filter.mp hx).1
        have hxeq : x = ip0 := List.inj_on_of_nodup_map hips hxmem hip0mem hxid
        rw [hxeq, hip0vm]
        have hvne : ¬ vm0Id = vmId := fun h => hne h.symm
        simp [hvne]
      · intro ip hipx
        have hipxf : (t.ips.filter fun q0 => q0.netId == netId).find?
            (fun q0 => q0.vmId == some vmId) = some ip := hipx
        have hipmem : ip ∈ t.ips :=
          (List.mem_filter.mp (List.mem_of_find?_eq_some hipxf)).1
        have hipvm : ip.vmId = some vmId := by
          simpa using List.find?_some hipxf
        have hipne : ip.id ≠ ip0.id := by
          intro hcon
          have heq : ip = ip0 := List.inj_on_of_nodup_map hips hipmem hip0mem hcon
          rw [heq, hip0vm] at hipvm
          exact hne (Option.some.inj hipvm).symm
        show ((cmkDestroyVM vm0Id (cmkDisassociateIP ip0.id
            (deleteFwRulesLoop (find_firewall_rules ip0.id t1) t1))).fwRules).filter
            (fun r => r.ipId == ip.id)
          = t.fwRules.filter fun r => r.ipId == ip.id
        rw [hAfw, filter_swap]
        apply List.filter_eq_self.mpr
        intro r hr
        have hrmem : r ∈ t.fwRules := (List.mem_filter.mp hr).1
        have hrip : r.ipId = ip.id := by
          simpa using (List.mem_filter.mp hr).2
        have hany : ((find_firewall_rules ip0.id t).any fun d => r.id == d.id)
            = false := by
          rw [List.any_eq_false]
          intro d hd
          have hdmem : d ∈ t.fwRules.filter fun r0 => r0.ipId == ip0.id := hd
          have hdmem2 : d ∈ t.fwRules := (List.mem_filter.mp hdmem).1
          have hdip : d.ipId = ip0.id := by
            simpa using (List.mem_filter.mp hdmem).2
          intro hcon
          have hdid : r.id = d.id := by simpa using hcon
          have hrd : r = d := List.inj_on_of_nodup_map hfwids hrmem hdmem2 hdid
          rw [hrd, hdip] at hrip
          exact hipne hrip.symm
        rw [hany]
        rfl

/-- The facts the excess-worker removal loop establishes from worker index
`idx`: untouched resource kinds, sublist-shaped shrinking of VMs / IPs /
firewall rules, preservation of every VM lookup outside the excess-name
range, absence of the entry-index worker, absence of every `worker-k`
(`k ≥ idx`) when the present worker indices are downward closed, and a log
extension made of per-worker removal sequences. -/
def RemovalLoopFacts (net : String) (netId : Nat) (t : St) (idx : Nat) : Prop :=
  (removeExcessLoop net netId idx t).networks = t.networks ∧
  (removeExcessLoop net netId idx t).keypairs = t.keypairs ∧
  (removeExcessLoop net netId idx t).volumes = t.volumes ∧
  (removeExcessLoop net netId idx t).policies = t.policies ∧
  (removeExcessLoop net netId idx t).fresh = t.fresh ∧
  (removeExcessLoop net netId idx t).vms.Sublist t.vms ∧
  (removeExcessLoop net netId idx t).ips.Sublist t.ips ∧
  (removeExcessLoop net netId idx t).fwRules.Sublist t.fwRules ∧
  (∀ n, (∀ k, idx ≤ k → n ≠ workerVmNameOf net k) →
    find_vm n (removeExcessLoop net netId idx t) = find_vm n t) ∧
  find_vm (workerVmNameOf net idx) (removeExcessLoop net netId idx t) = none ∧
  ((∀ k, idx ≤ k →
      (find_vm (workerVmNameOf net (k + 1)) t).isSome = true →
      (find_vm (workerVmNameOf net k) t).isSome = true) →
    ∀ k, idx ≤ k →
      find_vm (workerVmNameOf net k) (removeExcessLoop net netId idx t) = none) ∧
  (∃ segs : List (List Cmd),
    (removeExcessLoop net netId idx t).log = t.log ++ segs.flatten ∧
    (∀ seg ∈ segs, ∃ vmId, removalSeg vmId seg) ∧
    ((∀ k, idx ≤ k →
        (find_vm (workerVmNameOf net (k + 1)) t).isSome = true →
        (find_vm (workerVmNameOf net k) t).isSome = true) →
      ∀ vm ∈ t.vms, ∀ k, idx ≤ k → vm.name = workerVmNameOf net k →
        ∃ seg ∈ segs, removalSeg vm.id seg) ∧
    ((t.ips.map (·.id)).Nodup → (t.fwRules.map (·.id)).Nodup →
      (∀ k, idx ≤ k →
        (find_vm (workerVmNameOf net (k + 1)) t).isSome = true →
        (find_vm (workerVmNameOf net k) t).isSome = true) →
      ∀ vm ∈ t.vms, ∀ k, idx ≤ k → vm.name = workerVmNameOf net k →
        ∃ seg ∈ segs, removalSegFor netId t vm.id seg))

theorem removeExcessLoop_spec (net : String) (netId : Nat) :
    ∀ (t : St) (idx : Nat),
      (t.vms.map (·.id)).Nodup →
      (∀ k, idx ≤ k → countName (workerVmNameOf net k) t ≤ 1) →
      RemovalLoopFacts net netId t idx := by
  suffices H : ∀ (len : Nat) (t : St) (idx : Nat), t.vms.length ≤ len →
      (t.vms.map (·.id)).Nodup →
      (∀ k, idx ≤ k → countName (workerVmNameOf net k) t ≤ 1) →
      RemovalLoopFacts net netId t idx by
    exact fun t idx h1 h2 => H t.vms.length t idx (le_refl _) h1 h2
  intro len
  induction len with
  | zero =>
    intro t idx hlen hnodup hone
    have hempty : t.vms = [] := List.length_eq_zero.mp (by omega)
    have hvm : find_vm (workerVmNameOf net idx) t = none := by
      unfold find_vm
      rw [hempty]
      rfl
    unfold RemovalLoopFacts
    rw [removeExcessLoop_none hvm]
    refine ⟨rfl, rfl, rfl, rfl, rfl, List.Sublist.refl _, List.Sublist.refl _,
      List.Sublist.refl _, fun n _ => rfl, hvm, fun hch k hk => ?_, [], by simp, by simp,
      ?_, ?_⟩
    · unfold find_vm
      rw [hempty]
      rfl
    · intro _ vm hvm2 k hk hname
      rw [hempty] at hvm2
      cases hvm2
    · intro _ _ _ vm hvm2 k hk hname
      rw [hempty] at hvm2
      cases hvm2
  | succ len ih =>
    intro t idx hlen hnodup hone
    cases hvm : find_vm (workerVmNameOf net idx) t with
    | none =>
      unfold RemovalLoopFacts
      rw [removeExcessLoop_none hvm]
      refine ⟨rfl, rfl, rfl, rfl, rfl, List.Sublist.refl _, List.Sublist.refl _,
        List.Sublist.refl _, fun n _ => rfl, hvm, fun hch k hk => ?_, [], by simp, by simp,
        ?_, ?_⟩
      · cases hk2 : find_vm (workerVmNameOf net k) t with
        | none => rfl
        | some w =>
          have := chain_to_base (fun j => find_vm (workerVmNameOf net j) t) idx hch k hk
            (show (find_vm (workerVmNameOf net k) t).isSome = true by rw [hk2]; rfl)
          dsimp only at this
          rw [hvm] at this
          simp at this
      · intro hch vm' hvm' k hk hname
        have hsome : (find_vm (workerVmNameOf net k) t).isSome = true := by
          unfold find_vm
          cases hk2 : t.vms.find? (fun v => v.name == workerVmNameOf net k) with
          | some w => rfl
          | none =>
            rw [List.find?_eq_none] at hk2
            exact absurd (show (vm'.name == workerVmNameOf net k) = true by simp [hname])
              (hk2 vm' hvm')
        have := chain_to_base (fun j => find_vm (workerVmNameOf net j) t) idx hch k hk hsome
        dsimp only at this
        rw [hvm] at this
        simp at this
      · intro _ _ hch vm' hvm' k hk hname
        have hsome : (find_vm (workerVmNameOf net k) t).isSome = true := by
          unfold find_vm
          cases hk2 : t.vms.find? (fun v => v.name == workerVmNameOf net k) with
          | some w => rfl
          | none =>
            rw [List.find?_eq_none] at hk2
            exact absurd (show (vm'.name == workerVmNameOf net k) = true by simp [hname])
              (hk2 vm' hvm')
        have := chain_to_base (fun j => find_vm (workerVmNameOf net j) t) idx hch k hk hsome
        dsimp only at this
        rw [hvm] at this
        simp at this
    | some vm =>
      have hvmmem := find_vm_mem hvm
      have hvmname := find_vm_name hvm
      unfold RemovalLoopFacts
      rw [removeExcessLoop_some hvm]
      obtain ⟨r1, r2, r3, r4, r5, r6, r7, r8, seg1, rlog, rseg, rsegFor⟩ :=
        remove_vm_and_ip_spec vm.id netId t
      set t1 := remove_vm_and_ip vm.id netId t with ht1
      have hlen1 : t1.vms.length ≤ len := by
        have := @remove_vm_and_ip_vms_length vm.id netId t ⟨vm, hvmmem, rfl⟩
        rw [← ht1] at this
        omega
      have hnodup1 : (t1.vms.map (·.id)).Nodup := hnodup.sublist ((r6 ▸ List.filter_sublist _).map _)
      have hone1 : ∀ k, idx + 1 ≤ k → countName (workerVmNameOf net k) t1 ≤ 1 := by
        intro k hk
        unfold countName
        rw [r6]
        exact (countName_filter_le _ t _).trans (hone k (by omega))
      have hpres : ∀ n, n ≠ workerVmNameOf net idx → find_vm n t1 = find_vm n t := by
        intro n hn
        unfold find_vm
        rw [r6]
        apply find?_filter_eq
        intro x hx hqx
        have hxid : x.id = vm.id := by simpa using hqx
        have hxeq : x = vm := id_unique_of_nodup hnodup hx hvmmem hxid
        have : x.name = workerVmNameOf net idx := hxeq ▸ hvmname
        simp [this, hn.symm]
      have hT1none : find_vm (workerVmNameOf net idx) t1 = none := by
        unfold find_vm
        rw [r6]
        rw [List.find?_eq_none]
        intro x hx
        obtain ⟨hxmem, hxne⟩ := List.mem_filter.mp hx
        intro hxname
        have hxid : ¬ x.id = vm.id := by simpa using hxne
        have hx2 : x ∈ t.vms.filter fun v => v.name == workerVmNameOf net idx :=
          List.mem_filter.mpr ⟨hxmem, hxname⟩
        have hv2 : vm ∈ t.vms.filter fun v => v.name == workerVmNameOf net idx :=
          List.mem_filter.mpr ⟨hvmmem, by simp [hvmname]⟩
        have := mem_eq_of_length_le_one (hone idx (le_refl _)) hx2 hv2
        exact hxid (by rw [this])
      have hch1of : (∀ k, idx ≤ k →
          (find_vm (workerVmNameOf net (k + 1)) t).isSome = true →
          (find_vm (workerVmNameOf net k) t).isSome = true) →
          ∀ k, idx + 1 ≤ k →
          (find_vm (workerVmNameOf net (k + 1)) t1).isSome = true →
          (find_vm (workerVmNameOf net k) t1).isSome = true := by
        intro hch k' hk' hsome
        rw [hpres _ (fun h => by have := workerVmNameOf_inj h; omega)] at hsome ⊢
        exact hch k' (by omega) hsome
      have ihfacts := ih t1 (idx + 1) hlen1 hnodup1 hone1
      unfold RemovalLoopFacts at ihfacts
      obtain ⟨i1, i2, i3, i4, i5, i6, i7, i8, i9, i10, i11, segs, ilog, iseg, isegrm,
        isegfor⟩ := ihfacts
      refine ⟨i1.trans r1, i2.trans r2, i3.trans r3, i4.trans r4, i5.trans r5,
        i6.trans (r6 ▸ List.filter_sublist _), i7.trans r7, i8.trans r8, ?_, ?_, ?_, ?_⟩
      · intro n hn
        rw [i9 n (fun k hk => hn k (by omega))]
        exact hpres n (hn idx (le_refl _))
      · rw [i9 _ (fun k hk h => by
          have := workerVmNameOf_inj h
          omega)]
        exact hT1none
      · intro hch k hk
        by_cases hcase : idx + 1 ≤ k
        · exact i11 (hch1of hch) k hcase
        · have hkidx : k = idx := by omega
          rw [hkidx]
          rw [i9 _ (fun k hk h => by
            have := workerVmNameOf_inj h
            omega)]
          exact hT1none
      · refine ⟨seg1 :: segs, by rw [ilog, rlog]; simp, ?_, ?_, ?_⟩
        · intro seg hmem
          rcases List.mem_cons.mp hmem with h | h
          · subst h
            exact ⟨vm.id, rseg⟩
          · exact iseg seg h
        · intro hch vm' hvm' k hk hname
          by_cases hvv : vm'.id = vm.id
          · exact ⟨seg1, List.mem_cons_self _ _, by rw [hvv]; exact rseg⟩
          · have hmem1 : vm' ∈ t1.vms := by
              rw [r6]
              exact List.mem_filter.mpr ⟨hvm', by simp [hvv]⟩
            have hk1 : idx + 1 ≤ k := by
              rcases Nat.lt_or_ge idx k with h | h
              · omega
              · have hkidx : k = idx := by omega
                subst hkidx
                have hx2 : vm' ∈ t.vms.filter (fun v => v.name == workerVmNameOf net k) :=
                  List.mem_filter.mpr ⟨hvm', by simp [hname]⟩
                have hv2 : vm ∈ t.vms.filter (fun v => v.name == workerVmNameOf net k) :=
                  List.mem_filter.mpr ⟨hvmmem, by simp [hvmname]⟩
                have heq2 := mem_eq_of_length_le_one (hone k (le_refl _)) hx2 hv2
                exact absurd (congrArg VMR.id heq2) hvv
            obtain ⟨seg, hsegmem, hsegrm⟩ := isegrm (hch1of hch) vm' hmem1 k hk1 hname
            exact ⟨seg, List.mem_cons_of_mem _ hsegmem, hsegrm⟩
        · intro hipsN hfwN hch vm' hvm' k hk hname
          by_cases hvv : vm'.id = vm.id
          · refine ⟨seg1, List.mem_cons_self _ _, ?_⟩
            rw [hvv]
            exact rsegFor
          · have hmem1 : vm' ∈ t1.vms := by
              rw [r6]
              exact List.mem_filter.mpr ⟨hvm', by simp [hvv]⟩
            have hk1 : idx + 1 ≤ k := by
              rcases Nat.lt_or_ge idx k with h | h
              · omega
              · have hkidx : k = idx := by omega
                subst hkidx
                have hx2 : vm' ∈ t.vms.filter (fun v => v.name == workerVmNameOf net k) :=
                  List.mem_filter.mpr ⟨hvm', by simp [hname]⟩
                have hv2 : vm ∈ t.vms.filter (fun v => v.name == workerVmNameOf net k) :=
                  List.mem_filter.mpr ⟨hvmmem, by simp [hvmname]⟩
                have heq2 := mem_eq_of_length_le_one (hone k (le_refl _)) hx2 hv2
                exact absurd (congrArg VMR.id heq2) hvv
            have hipsN1 : (t1.ips.map (·.id)).Nodup :=
              List.Nodup.sublist (List.Sublist.map _ r7) hipsN
            have hfwN1 : (t1.fwRules.map (·.id)).Nodup :=
              List.Nodup.sublist (List.Sublist.map _ r8) hfwN
            obtain ⟨seg, hsegmem, hsegfor⟩ :=
              isegfor hipsN1 hfwN1 (hch1of hch) vm' hmem1 k hk1 hname
            have hpres2 := @remove_vm_and_ip_lookup_pres vm.id netId t hipsN hfwN
              vm'.id hvv
            rw [← ht1] at hpres2
            exact ⟨seg, List.mem_cons_of_mem _ hsegmem,
              removalSegFor_congr hpres2.1 hpres2.2 hsegfor⟩

/-! ## Generic list helpers for the whole-reconciler analysis -/

theorem find?_map_congr {α : Type} (l : List α) (g : α → α) (p : α → Bool)
    (hp : ∀ x, p (g x) = p x) : (l.map g).find? p = (l.find? p).map g := by
  rw [List.find?_map]
  have hfun : (p ∘ g) = p := funext hp
  rw [hfun]

theorem find?_append_some {α : Type} {l1 l2 : List α} {p : α → Bool} {a : α}
    (h : l1.find? p = some a) : (l1 ++ l2).find? p = some a := by
  rw [List.find?_append, h]
  rfl

theorem find?_append_none {α : Type} {l1 l2 : List α} {p : α → Bool}
    (h : l1.find? p = none) : (l1 ++ l2).find? p = l2.find? p := by
  rw [List.find?_append, h]
  rfl

theorem find?_map_first {α : Type} {l : List α} {F : α → α} {p : α → Bool} {a : α}
    (hfind : l.find? p = some a) (hFa : F a = a)
    (hmono : ∀ x ∈ l, p (F x) = true → p x = true) :
    (l.map F).find? p = some a := by
  induction l with
  | nil => cases hfind
  | cons x xs ih =>
    rw [List.map_cons]
    cases hx : p x with
    | true =>
      rw [List.find?_cons_of_pos _ hx] at hfind
      cases hfind
      rw [List.find?_cons_of_pos _ (by rw [hFa]; exact hx)]
      rw [hFa]
    | false =>
      rw [List.find?_cons_of_neg _ (by simp [hx])] at hfind
      have hfx : p (F x) = false := by
        cases hfx : p (F x) with
        | false => rfl
        | true =>
          rw [hmono x (List.mem_cons_self _ _) hfx] at hx
          cases hx
      rw [List.find?_cons_of_neg _ (by simp [hfx])]
      exact ih hfind (fun y hy => hmono y (List.mem_cons_of_mem _ hy))

theorem find?_unique {α : Type} {l : List α} {p : α → Bool} {a : α}
    (ha : a ∈ l) (hpa : p a = true) (huniq : ∀ x ∈ l, p x = true → x = a) :
    l.find? p = some a := by
  induction l with
  | nil => cases ha
  | cons x xs ih =>
    cases hx : p x with
    | true =>
      rw [List.find?_cons_of_pos _ hx]
      rw [huniq x (List.mem_cons_self _ _) hx]
    | false =>
      rw [List.find?_cons_of_neg _ (by simp [hx])]
      rcases List.mem_cons.mp ha with h | h
      · rw [h] at hpa
        rw [hpa] at hx
        cases hx
      · exact ih h (fun y hy hpy => huniq y (List.mem_cons_of_mem _ hy) hpy)

theorem filter_length_le_one {α β : Type} {l : List α} {f : α → β} {p : α → Bool}
    (hnodup : (l.map f).Nodup) {c : β} (hc : ∀ x, p x = true → f x = c) :
    (l.filter p).length ≤ 1 := by
  induction l with
  | nil => simp
  | cons x xs ih =>
    rw [List.map_cons, List.nodup_cons] at hnodup
    rw [List.filter_cons]
    by_cases hx : p x = true
    · rw [if_pos hx]
      have hnil : xs.filter p = [] := by
        rw [List.filter_eq_nil_iff]
        intro y hy hpy
        exact hnodup.1 (List.mem_map.mpr ⟨y, hy, by rw [hc y hpy, hc x hx]⟩)
      rw [hnil]
      simp
    · rw [if_neg (by simpa using hx)]
      exact ih hnodup.2

theorem lookupIpMap_append_right {m1 m2 : List (Nat × IpR)} {v : Nat}
    (h : lookupIpMap m1 v = none) :
    lookupIpMap (m1 ++ m2) v = lookupIpMap m2 v := by
  unfold lookupIpMap at *
  rw [List.find?_append]
  cases hf : m1.find? (fun e => e.1 == v) with
  | none => rfl
  | some e =>
    rw [hf] at h
    exact absurd h (by simp)

/-! ## Account well-formedness -/

/-- Account well-formedness: the resource ids the reconciler branches on are
pairwise distinct, VM names are unique (the reconciler, as sole writer,
never deploys two VMs of one name), and every listed id is below the
fresh-id counter. -/
def WF (s : St) : Prop :=
  (s.vms.map (·.id)).Nodup ∧
  (s.vms.map (·.name)).Nodup ∧
  (s.ips.map (·.id)).Nodup ∧
  (s.volumes.map (·.id)).Nodup ∧
  (∀ vm ∈ s.vms, vm.id < s.fresh) ∧
  (∀ ip ∈ s.ips, ip.id < s.fresh) ∧
  (∀ v ∈ s.volumes, v.id < s.fresh)

theorem WF_mono {s s1 : St} (hvms : s1.vms = s.vms) (hips : s1.ips = s.ips)
    (hvols : s1.volumes = s.volumes) (hfr : s.fresh ≤ s1.fresh) (h : WF s) : WF s1 := by
  obtain ⟨h1, h2, h3, h4, h5, h6, h7⟩ := h
  refine ⟨?_, ?_, ?_, ?_, ?_, ?_, ?_⟩
  · rw [hvms]; exact h1
  · rw [hvms]; exact h2
  · rw [hips]; exact h3
  · rw [hvols]; exact h4
  · rw [hvms]; exact fun vm hm => lt_of_lt_of_le (h5 vm hm) hfr
  · rw [hips]; exact fun ip hm => lt_of_lt_of_le (h6 ip hm) hfr
  · rw [hvols]; exact fun v hm => lt_of_lt_of_le (h7 v hm) hfr

theorem webVmNameOf_ne_dbVmNameOf (net : String) :
    ¬ webVmNameOf net = dbVmNameOf net := by
  intro h
  unfold webVmNameOf dbVmNameOf at h
  have h2 := string_append_cancel_left h
  have : ("-web" : String) ≠ "-db" := by decide
  exact this h2

/-! ## VM-lookup preservation under the VM-list evolutions of the phases -/

theorem find_vm_map_pres {s s1 : St} {g : VMR → VMR}
    (hg : ∀ v, (g v).name = v.name) (hvms : s1.vms = s.vms.map g) (n : String) :
    find_vm n s1 = (find_vm n s).map g := by
  unfold find_vm
  rw [hvms]
  exact find?_map_congr _ _ _ (fun x => by simp [hg x])

theorem find_vm_append_pres {s s1 : St} {rest : List VMR}
    (hvms : s1.vms = s.vms ++ rest) {n : String} {vm : VMR}
    (h : find_vm n s = some vm) : find_vm n s1 = some vm := by
  unfold find_vm at *
  rw [hvms]
  exact find?_append_some h

theorem find_vm_append_none {s s1 : St} {rest : List VMR}
    (hvms : s1.vms = s.vms ++ rest) {n : String}
    (h : find_vm n s = none) (hrest : ∀ v ∈ rest, ¬ v.name = n) :
    find_vm n s1 = none := by
  unfold find_vm at *
  rw [hvms, find?_append_none h, List.find?_eq_none]
  intro v hv
  simp [hrest v hv]

/-! ## Forward specifications of the pre-removal phases -/

theorem networkPhase_fwd {name netOffId zoneId : String} {s : St} {nid : Nat} {s1 : St}
    (h : networkPhase name netOffId zoneId s = (nid, s1)) :
    find_network name s1 = some nid ∧
    s1.keypairs = s.keypairs ∧
    s1.vms = s.vms ∧
    s1.volumes = s.volumes ∧
    s1.ips = s.ips ∧
    s1.fwRules = s.fwRules ∧
    s1.policies = s.policies ∧
    s.fresh ≤ s1.fresh ∧
    (∃ ext, s1.log = s.log ++ ext) := by
  unfold networkPhase at h
  cases hf : find_network name s with
  | some nid0 =>
    rw [hf] at h
    simp only [Prod.mk.injEq] at h
    obtain ⟨h1, h2⟩ := h
    subst h1
    subst h2
    exact ⟨hf, rfl, rfl, rfl, rfl, rfl, rfl, le_refl _, [], by simp⟩
  | none =>
    rw [hf] at h
    unfold cmkCreateNetwork at h
    simp only [Prod.mk.injEq] at h
    obtain ⟨h1, h2⟩ := h
    subst h1
    subst h2
    refine ⟨?_, rfl, rfl, rfl, rfl, rfl, rfl, by simp, [.createNetwork name netOffId zoneId],
      rfl⟩
    unfold find_network at hf ⊢
    simp only
    cases hn : s.networks.find? (fun n => n.name == name) with
    | some x =>
      rw [hn] at hf
      exact absurd hf (by simp)
    | none =>
      rw [find?_append_none hn]
      rw [List.find?_cons_of_pos _ (by simp)]
      rfl

theorem keypairPhase_fwd (name publicKey : String) (s : St) :
    find_keypair name (keypairPhase name publicKey s) = true ∧
    (keypairPhase name publicKey s).networks = s.networks ∧
    (keypairPhase name publicKey s).vms = s.vms ∧
    (keypairPhase name publicKey s).volumes = s.volumes ∧
    (keypairPhase name publicKey s).ips = s.ips ∧
    (keypairPhase name publicKey s).fwRules = s.fwRules ∧
    (keypairPhase name publicKey s).policies = s.policies ∧
    (keypairPhase name publicKey s).fresh = s.fresh ∧
    (∃ ext, (keypairPhase name publicKey s).log = s.log ++ ext) := by
  unfold keypairPhase
  by_cases hf : find_keypair name s
  · rw [if_pos hf]
    exact ⟨hf, rfl, rfl, rfl, rfl, rfl, rfl, rfl, [], by simp⟩
  · rw [if_neg hf]
    unfold cmkRegisterKeypair
    refine ⟨?_, rfl, rfl, rfl, rfl, rfl, rfl, rfl, [.registerKeypair name publicKey], rfl⟩
    unfold find_keypair
    simp

theorem scale_vm_spec (env : Env) (vmId : Nat) (name newOff : String) (s : St) :
    ∃ g : VMR → VMR,
      (∀ v, (g v).id = v.id ∧ (g v).name = v.name) ∧
      (∀ v, ¬ v.id = vmId → g v = v) ∧
      (∀ v, v.id = vmId → (g v).offering = newOff) ∧
      (scale_vm env vmId name newOff s).vms = s.vms.map g ∧
      (scale_vm env vmId name newOff s).networks = s.networks ∧
      (scale_vm env vmId name newOff s).keypairs = s.keypairs ∧
      (scale_vm env vmId name newOff s).volumes = s.volumes ∧
      (scale_vm env vmId name newOff s).ips = s.ips ∧
      (scale_vm env vmId name newOff s).fwRules = s.fwRules ∧
      (scale_vm env vmId name newOff s).policies = s.policies ∧
      (scale_vm env vmId name newOff s).fresh = s.fresh ∧
      (∃ ext, (scale_vm env vmId name newOff s).log = s.log ++ ext) := by
  unfold scale_vm
  by_cases hl : liveScaleAccepted env vmId s = true
  · rw [if_pos hl]
    refine ⟨fun v => if v.id == vmId then { v with offering := newOff } else v,
      ?_, ?_, ?_, ?_, rfl, rfl, rfl, rfl, rfl, rfl, rfl, [.scaleVM vmId newOff], rfl⟩
    · intro v
      by_cases hv : v.id == vmId <;> simp [hv]
    · intro v hv
      simp [hv]
    · intro v hv
      simp [hv]
    · rfl
  · rw [if_neg hl]
    refine ⟨fun v => if v.id == vmId then { v with offering := newOff, state := "Running" }
      else v, ?_, ?_, ?_, ?_, rfl, rfl, rfl, rfl, rfl, rfl, rfl,
      [.stopVM vmId, .scaleVM vmId newOff, .startVM vmId], by
        simp [cmkStartVM, cmkScaleVM, cmkStopVM, setVmState, setVmOffering]⟩
    · intro v
      by_cases hv : v.id == vmId <;> simp [hv]
    · intro v hv
      simp [hv]
    · intro v hv
      simp [hv]
    · show (cmkStartVM vmId (cmkScaleVM vmId newOff (cmkStopVM vmId s))).vms = _
      simp only [cmkStartVM, cmkScaleVM, cmkStopVM, setVmState, setVmOffering]
      rw [List.map_map, List.map_map]
      apply List.map_congr_left
      intro v _
      simp only [Function.comp_apply]
      by_cases hv : v.id == vmId <;> simp [hv]

theorem deploy_vm_fwd {env : Env} {name offId tmplId zoneId : String} {netId : Nat}
    {keypair : String} {s : St} {vid : Nat} {s1 : St}
    (h : deploy_vm env name offId tmplId zoneId netId keypair s = (vid, s1)) :
    s1.networks = s.networks ∧
    s1.keypairs = s.keypairs ∧
    s1.volumes = s.volumes ∧
    s1.ips = s.ips ∧
    s1.fwRules = s.fwRules ∧
    s1.policies = s.policies ∧
    s.fresh ≤ s1.fresh ∧
    (∃ ext, s1.log = s.log ++ ext) ∧
    (∃ vm1, find_vm name s1 = some vm1 ∧ vm1.id = vid ∧
      (vm1.offering = offId ∨ vm1.offering = "")) ∧
    ((∃ g : VMR → VMR, (∀ v, (g v).id = v.id ∧ (g v).name = v.name) ∧
        (∀ v, ¬ v.id = vid → g v = v) ∧
        s1.vms = s.vms.map g ∧ s1.fresh = s.fresh ∧
        ∃ vm0, find_vm name s = some vm0 ∧ vid = vm0.id)
      ∨ (find_vm name s = none ∧ vid = s.fresh ∧ s1.fresh = s.fresh + 1 ∧
        s1.vms = s.vms ++ [⟨s.fresh, name, "Running", offId, netId,
          "nic-" ++ natToDec s.fresh⟩])) := by
  unfold deploy_vm at h
  cases hf : find_vm name s with
  | none =>
    rw [hf] at h
    unfold cmkDeployVM at h
    simp only [Prod.mk.injEq] at h
    obtain ⟨h1, h2⟩ := h
    subst h1
    subst h2
    refine ⟨rfl, rfl, rfl, rfl, rfl, rfl, by simp, ⟨[.deployVM name offId tmplId zoneId
      netId keypair], rfl⟩, ?_, Or.inr ⟨rfl, rfl, rfl, rfl⟩⟩
    refine ⟨⟨s.fresh, name, "Running", offId, netId, "nic-" ++ natToDec s.fresh⟩, ?_,
      rfl, Or.inl rfl⟩
    show (s.vms ++ [(⟨s.fresh, name, "Running", offId, netId, "nic-" ++ natToDec
      s.fresh⟩ : VMR)]).find? (fun v => v.name == name)
      = some (⟨s.fresh, name, "Running", offId, netId, "nic-" ++ natToDec s.fresh⟩ : VMR)
    unfold find_vm at hf
    rw [find?_append_none hf]
    rw [List.find?_cons_of_pos _ (by simp)]
  | some vm =>
    rw [hf] at h
    dsimp only at h
    by_cases hcond : (vm.offering != "" && vm.offering != offId) = true
    · rw [if_pos hcond] at h
      simp only [Prod.mk.injEq] at h
      obtain ⟨h1, h2⟩ := h
      subst h1
      obtain ⟨g, hg1, hg2, hg3, hvms, hnet, hkp, hvol, hips, hfw, hpol, hfrsh, ext, hlog⟩ :=
        scale_vm_spec env vm.id name offId s
      subst h2
      refine ⟨hnet, hkp, hvol, hips, hfw, hpol, by rw [hfrsh], ⟨ext, hlog⟩, ?_,
        Or.inl ⟨g, hg1, hg2, hvms, hfrsh, vm, rfl, rfl⟩⟩
      refine ⟨g vm, ?_, (hg1 vm).1, Or.inl (hg3 vm rfl)⟩
      rw [find_vm_map_pres (fun v => (hg1 v).2) hvms, hf]
      rfl
    · rw [if_neg hcond] at h
      simp only [Prod.mk.injEq] at h
      obtain ⟨h1, h2⟩ := h
      subst h1
      subst h2
      refine ⟨rfl, rfl, rfl, rfl, rfl, rfl, le_refl _, ⟨[], by simp⟩, ?_,
        Or.inl ⟨fun v => v, fun v => ⟨rfl, rfl⟩, fun v _ => rfl, by simp, rfl, vm, rfl, rfl⟩⟩
      refine ⟨vm, hf, rfl, ?_⟩
      by_cases ho : vm.offering = ""
      · exact Or.inr ho
      · refine Or.inl ?_
        by_contra hne
        exact hcond (by simp [bne_iff_ne]; exact ⟨ho, hne⟩)

theorem deploy_vm_pres {env : Env} {name offId tmplId zoneId : String} {netId : Nat}
    {keypair : String} {s : St} {vid : Nat} {s1 : St}
    (h : deploy_vm env name offId tmplId zoneId netId keypair s = (vid, s1))
    (hids : (s.vms.map (·.id)).Nodup) :
    (∀ n v, find_vm n s = some v → ¬ n = name →
      ∃ v1, find_vm n s1 = some v1 ∧ v1.id = v.id ∧ v1.name = v.name ∧
        v1.offering = v.offering) ∧
    (∀ n, find_vm n s = none → ¬ n = name → find_vm n s1 = none) ∧
    (∀ v ∈ s.vms, ∃ v1 ∈ s1.vms, v1.id = v.id ∧ v1.name = v.name) ∧
    (WF s → WF s1) := by
  obtain ⟨hnet, hkp, hvol, hips, hfw, hpol, hfr, hlog, hfind, hevo⟩ := deploy_vm_fwd h
  rcases hevo with ⟨g, hg1, hg2, hvms, hfrsh, vm0, hvm0, hvid⟩ | ⟨hnone, hvid, hfrsh, hvms⟩
  · have hgfix : ∀ n v, find_vm n s = some v → ¬ n = name → g v = v := by
      intro n v hv hn
      apply hg2
      intro hid
      have hvmem : v ∈ s.vms := find_vm_mem hv
      have hv0mem : vm0 ∈ s.vms := find_vm_mem hvm0
      have : v = vm0 := List.inj_on_of_nodup_map hids hvmem hv0mem (by rw [hid, hvid])
      apply hn
      rw [← find_vm_name hv, this, find_vm_name hvm0]
    refine ⟨?_, ?_, ?_, ?_⟩
    · intro n v hv hn
      refine ⟨v, ?_, rfl, rfl, rfl⟩
      rw [find_vm_map_pres (fun v => (hg1 v).2) hvms, hv]
      simp [hgfix n v hv hn]
    · intro n hnone2 _
      rw [find_vm_map_pres (fun v => (hg1 v).2) hvms, hnone2]
      rfl
    · intro v hv
      exact ⟨g v, by rw [hvms]; exact List.mem_map.mpr ⟨v, hv, rfl⟩, (hg1 v).1, (hg1 v).2⟩
    · intro hwf
      obtain ⟨w1, w2, w3, w4, w5, w6, w7⟩ := hwf
      have hidmap : s1.vms.map (·.id) = s.vms.map (·.id) := by
        rw [hvms, List.map_map]
        exact List.map_congr_left (fun v _ => (hg1 v).1)
      have hnamemap : s1.vms.map (·.name) = s.vms.map (·.name) := by
        rw [hvms, List.map_map]
        exact List.map_congr_left (fun v _ => (hg1 v).2)
      refine ⟨by rw [hidmap]; exact w1, by rw [hnamemap]; exact w2,
        by rw [hips]; exact w3, by rw [hvol]; exact w4, ?_, ?_, ?_⟩
      · intro vm hm
        rw [hvms] at hm
        rcases List.mem_map.mp hm with ⟨v, hv, hgv⟩
        rw [hfrsh, ← hgv, (hg1 v).1]
        exact w5 v hv
      · rw [hips, hfrsh]
        exact w6
      · rw [hvol, hfrsh]
        exact w7
  · refine ⟨?_, ?_, ?_, ?_⟩
    · intro n v hv _
      exact ⟨v, find_vm_append_pres hvms hv, rfl, rfl, rfl⟩
    · intro n hnone2 hn
      exact find_vm_append_none hvms hnone2 (by
        intro v hv
        rcases List.mem_singleton.mp hv with rfl
        simpa using fun h => hn h.symm)
    · intro v hv
      exact ⟨v, by rw [hvms]; exact List.mem_append_left _ hv, rfl, rfl⟩
    · intro hwf
      obtain ⟨w1, w2, w3, w4, w5, w6, w7⟩ := hwf
      refine ⟨?_, ?_, by rw [hips]; exact w3, by rw [hvol]; exact w4, ?_, ?_, ?_⟩
      · rw [hvms, List.map_append]
        refine List.Nodup.append w1 (by simp) ?_
        intro x hx hx2
        rcases List.mem_map.mp hx with ⟨v, hv, hxv⟩
        have hlt := w5 v hv
        simp only [List.map_cons, List.map_nil, List.mem_singleton] at hx2
        omega
      · rw [hvms, List.map_append]
        refine List.Nodup.append w2 (by simp) ?_
        intro x hx hx2
        simp only [List.map_cons, List.map_nil, List.mem_singleton] at hx2
        subst hx2
        rcases List.mem_map.mp hx with ⟨v, hv, hxv⟩
        unfold find_vm at hnone
        rw [List.find?_eq_none] at hnone
        exact hnone v hv (by simp [hxv])
      · intro vm hm
        rw [hvms] at hm
        rw [hfrsh]
        rcases List.mem_append.mp hm with hm | hm
        · have := w5 vm hm
          omega
        · rcases List.mem_singleton.mp hm with rfl
          simp
      · rw [hips, hfrsh]
        exact fun ip hm => lt_of_lt_of_le (w6 ip hm) (by omega)
      · rw [hvol, hfrsh]
        exact fun v hm => lt_of_lt_of_le (w7 v hm) (by omega)

theorem deploy_vm_noop {env : Env} {name offId tmplId zoneId : String} {netId : Nat}
    {keypair : String} {s : St} {vm1 : VMR}
    (hfind : find_vm name s = some vm1)
    (hoff : vm1.offering = offId ∨ vm1.offering = "") :
    deploy_vm env name offId tmplId zoneId netId keypair s = (vm1.id, s) := by
  unfold deploy_vm
  rw [hfind]
  dsimp only
  rcases hoff with h | h <;> simp [h]

/-- The per-index convergence facts of the worker deployment loop: worker
`i + j` exists, bears the recorded id, and needs no scaling. -/
def WorkersFact (net : String) : Nat → List Nat → String → St → Prop
  | _, [], _, _ => True
  | i, vid :: rest, off, s =>
    (∃ vm1, find_vm (workerVmNameOf net i) s = some vm1 ∧ vm1.id = vid ∧
      (vm1.offering = off ∨ vm1.offering = "")) ∧
    WorkersFact net (i + 1) rest off s

theorem deployWorkersLoop_fwd (env : Env) (net : String) (offId tmplId zoneId : String)
    (netId : Nat) (kp : String) :
    ∀ (count i : Nat) (s : St) (ids : List Nat) (s1 : St),
      deployWorkersLoop env net offId tmplId zoneId netId kp i count s = (ids, s1) →
      WF s →
      WF s1 ∧
      ids.length = count ∧
      s1.networks = s.networks ∧ s1.keypairs = s.keypairs ∧ s1.volumes = s.volumes ∧
      s1.ips = s.ips ∧ s1.fwRules = s.fwRules ∧ s1.policies = s.policies ∧
      s.fresh ≤ s1.fresh ∧ (∃ ext, s1.log = s.log ++ ext) ∧
      WorkersFact net i ids offId s1 ∧
      (∀ n v, find_vm n s = some v → (∀ j, i ≤ j → ¬ n = workerVmNameOf net j) →
        ∃ v1, find_vm n s1 = some v1 ∧ v1.id = v.id ∧ v1.name = v.name ∧
          v1.offering = v.offering) ∧
      (∀ n, find_vm n s = none →
        (∀ j, i ≤ j → j < i + count → ¬ n = workerVmNameOf net j) →
        find_vm n s1 = none) ∧
      (∀ v ∈ s.vms, ∃ v1 ∈ s1.vms, v1.id = v.id ∧ v1.name = v.name) := by
  intro count
  induction count with
  | zero =>
    intro i s ids s1 h hwf
    unfold deployWorkersLoop at h
    simp only [Prod.mk.injEq] at h
    obtain ⟨h1, h2⟩ := h
    subst h1
    subst h2
    exact ⟨hwf, rfl, rfl, rfl, rfl, rfl, rfl, rfl, le_refl _, ⟨[], by simp⟩, trivial,
      fun n v hv _ => ⟨v, hv, rfl, rfl, rfl⟩, fun n hn _ => hn,
      fun v hv => ⟨v, hv, rfl, rfl⟩⟩
  | succ c ihc =>
    intro i s ids s1 h hwf
    unfold deployWorkersLoop at h
    cases hd : deploy_vm env (workerVmNameOf net i) offId tmplId zoneId netId kp s with
    | mk wid sA =>
    rw [hd] at h
    dsimp only at h
    cases hr : deployWorkersLoop env net offId tmplId zoneId netId kp (i + 1) c sA with
    | mk rest sB =>
    rw [hr] at h
    dsimp only at h
    simp only [Prod.mk.injEq] at h
    obtain ⟨h1, h2⟩ := h
    subst h1
    subst h2
    obtain ⟨dnet, dkp, dvol, dips, dfw, dpol, dfr, ⟨dext, dlog⟩, ⟨vm1, dfind, dvid, doff⟩,
      devo⟩ := deploy_vm_fwd hd
    obtain ⟨dpres, dnone, dmem, dwf⟩ := deploy_vm_pres hd hwf.1
    have hwfA : WF sA := dwf hwf
    obtain ⟨wwf, wlen, wnet, wkp, wvol, wips, wfw, wpol, wfr, ⟨wext, wlog⟩, wfact, wpres,
      wnone, wmem⟩ := ihc (i + 1) sA rest sB hr hwfA
    refine ⟨wwf, by rw [List.length_cons, wlen], wnet.trans dnet, wkp.trans dkp,
      wvol.trans dvol, wips.trans dips, wfw.trans dfw, wpol.trans dpol, dfr.trans wfr,
      ⟨dext ++ wext, by rw [wlog, dlog, List.append_assoc]⟩, ?_, ?_, ?_, ?_⟩
    · refine ⟨?_, wfact⟩
      obtain ⟨v1, hv1, hid1, hname1, hoff1⟩ := wpres (workerVmNameOf net i) vm1 dfind
        (fun j hj hne => by
          have := workerVmNameOf_inj hne
          omega)
      refine ⟨v1, hv1, by rw [hid1, dvid], ?_⟩
      rw [hoff1]
      exact doff
    · intro n v hv hn
      obtain ⟨vA, hvA, hidA, hnameA, hoffA⟩ := dpres n v hv (hn i (le_refl _))
      obtain ⟨vB, hvB, hidB, hnameB, hoffB⟩ := wpres n vA hvA
        (fun j hj => hn j (by omega))
      exact ⟨vB, hvB, by rw [hidB, hidA], by rw [hnameB, hnameA], by rw [hoffB, hoffA]⟩
    · intro n hn hr2
      have hA := dnone n hn (hr2 i (le_refl _) (by omega))
      exact wnone n hA (fun j hj hj2 => hr2 j (by omega) (by omega))
    · intro v hv
      obtain ⟨vA, hvA, hidA, hnameA⟩ := dmem v hv
      obtain ⟨vB, hvB, hidB, hnameB⟩ := wmem vA hvA
      exact ⟨vB, hvB, by rw [hidB, hidA], by rw [hnameB, hnameA]⟩

theorem deployWorkersLoop_noop (env : Env) (net : String) (offId tmplId zoneId : String)
    (netId : Nat) (kp : String) :
    ∀ (ids : List Nat) (i : Nat) (s : St), WorkersFact net i ids offId s →
      deployWorkersLoop env net offId tmplId zoneId netId kp i ids.length s = (ids, s) := by
  intro ids
  induction ids with
  | nil => intro i s _; rfl
  | cons vid rest ih =>
    intro i s hfact
    obtain ⟨⟨vm1, hfind, hid, hoff⟩, htail⟩ := hfact
    show deployWorkersLoop env net offId tmplId zoneId netId kp i (rest.length + 1) s = _
    unfold deployWorkersLoop
    rw [deploy_vm_noop hfind hoff]
    dsimp only
    rw [ih (i + 1) s htail]
    rw [hid]

/-! ## Pointwise effect of the NAT-assignment loop on the public-IP listing -/

/-- The cumulative per-IP update the sequential `enable staticnat` calls of
the assignment loop perform. -/
def natUpdOf (pairs : List (Nat × IpR)) (x : IpR) : IpR :=
  match pairs.find? (fun e => e.2.id == x.id) with
  | some e => { x with isStaticNat := true, vmId := some e.1 }
  | none => x

theorem natUpdOf_fields (pairs : List (Nat × IpR)) (x : IpR) :
    (natUpdOf pairs x).id = x.id ∧ (natUpdOf pairs x).address = x.address ∧
    (natUpdOf pairs x).netId = x.netId ∧ (natUpdOf pairs x).isSourceNat = x.isSourceNat := by
  unfold natUpdOf
  cases pairs.find? (fun e => e.2.id == x.id) with
  | some e => exact ⟨rfl, rfl, rfl, rfl⟩
  | none => exact ⟨rfl, rfl, rfl, rfl⟩

theorem natUpdOf_of_none {pairs : List (Nat × IpR)} {x : IpR}
    (h : pairs.find? (fun e => e.2.id == x.id) = none) : natUpdOf pairs x = x := by
  unfold natUpdOf
  rw [h]

theorem natUpdOf_of_some {pairs : List (Nat × IpR)} {x : IpR} {e : Nat × IpR}
    (h : pairs.find? (fun e => e.2.id == x.id) = some e) :
    natUpdOf pairs x = { x with isStaticNat := true, vmId := some e.1 } := by
  unfold natUpdOf
  rw [h]

theorem enableAllNat_ips (pairs : List (Nat × IpR)) :
    ∀ (sA : St), (pairs.map (fun e => e.2.id)).Nodup →
      (enableAllNat pairs sA).ips = sA.ips.map (natUpdOf pairs) := by
  induction pairs with
  | nil =>
    intro sA _
    show sA.ips = _
    rw [show natUpdOf [] = fun x => x from funext fun x => natUpdOf_of_none rfl]
    simp
  | cons e rest ih =>
    intro sA hnodup
    rw [List.map_cons, List.nodup_cons] at hnodup
    show (enableAllNat rest (cmkEnableStaticNat e.2.id e.1 sA)).ips = _
    rw [ih _ hnodup.2]
    show ((sA.ips.map fun ip => if ip.id == e.2.id then
      { ip with isStaticNat := true, vmId := some e.1 } else ip).map (natUpdOf rest)) = _
    rw [List.map_map]
    apply List.map_congr_left
    intro x _
    simp only [Function.comp_apply]
    by_cases hx : x.id = e.2.id
    · rw [if_pos (by simpa using hx)]
      have h1 : rest.find? (fun f => f.2.id == x.id) = none := by
        rw [List.find?_eq_none]
        intro f hf
        simp only [beq_iff_eq]
        intro hfx
        exact hnodup.1 (List.mem_map.mpr ⟨f, hf, by rw [hfx, hx]⟩)
      have h2 : natUpdOf rest { x with isStaticNat := true, vmId := some e.1 }
          = { x with isStaticNat := true, vmId := some e.1 } :=
        natUpdOf_of_none (by
          rw [List.find?_eq_none] at h1 ⊢
          intro f hf
          exact h1 f hf)
      rw [h2, natUpdOf_of_some (show (e :: rest).find? (fun f => f.2.id == x.id) = some e
        from List.find?_cons_of_pos _ (by simpa using hx.symm))]
    · rw [if_neg (by simpa using hx)]
      unfold natUpdOf
      rw [List.find?_cons_of_neg _ (by simpa using fun h => hx h.symm)]

theorem freshIps_mem {start k netId : Nat} {ip : IpR} (h : ip ∈ freshIps start k netId) :
    ip.netId = netId ∧ ip.isSourceNat = false ∧ ip.isStaticNat = false ∧ ip.vmId = none := by
  unfold freshIps at h
  rcases List.mem_map.mp h with ⟨i, _, hi⟩
  rw [← hi]
  exact ⟨rfl, rfl, rfl, rfl⟩

/-- The ids of the post-associate public-IP listing are distinct. -/
theorem assocIps_ids_nodup (s : St) (k netId : Nat)
    (hids : (s.ips.map (·.id)).Nodup) (hfresh : ∀ ip ∈ s.ips, ip.id < s.fresh) :
    ((s.ips ++ freshIps s.fresh k netId).map (·.id)).Nodup := by
  rw [List.map_append]
  refine List.Nodup.append hids (freshIps_ids_nodup _ _ _) ?_
  intro x hx hy
  rcases List.mem_map.mp hx with ⟨ip, hip, hipx⟩
  rcases List.mem_map.mp hy with ⟨ip', hip', hipy⟩
  have h1 : ip.id < s.fresh := hfresh ip hip
  have h2 : s.fresh ≤ ip'.id := freshIps_ids_ge hip'
  omega

theorem ipPairsOf_keys (netId : Nat) (assignments : List (String × Nat)) (s : St) :
    (ipPairsOf netId assignments s).map Prod.fst
      = (needingOf netId assignments s).map (·.2) := by
  unfold ipPairsOf
  exact zipPairs_map_fst _ _ (ipPool_long_enough netId assignments s)

theorem ipPairsOf_ids_nodup (netId : Nat) (assignments : List (String × Nat)) (s : St)
    (hids : (s.ips.map (·.id)).Nodup) (hfresh : ∀ ip ∈ s.ips, ip.id < s.fresh) :
    ((ipPairsOf netId assignments s).map (fun e => e.2.id)).Nodup := by
  have h1 : (ipPairsOf netId assignments s).map (fun e => e.2.id)
      = ((ipPoolOf netId assignments s).map (·.id)).take
          (needingOf netId assignments s).length := by
    have h0 : (ipPairsOf netId assignments s).map (fun e => e.2.id)
        = ((ipPairsOf netId assignments s).map Prod.snd).map (·.id) := by
      rw [List.map_map]
      rfl
    rw [h0]
    unfold ipPairsOf
    rw [zipPairs_map_snd, List.map_take]
  rw [h1]
  exact (ipPoolOf_ids_nodup netId assignments s hids hfresh).sublist (List.take_sublist _ _)

theorem ipPairsOf_mem {netId : Nat} {assignments : List (String × Nat)} {s : St}
    {e : Nat × IpR} (h : e ∈ ipPairsOf netId assignments s) :
    (∃ a ∈ needingOf netId assignments s, e.1 = a.2) ∧
    e.2 ∈ ipPoolOf netId assignments s := by
  unfold ipPairsOf at h
  obtain ⟨a, ha, ip, hip, hpair⟩ := mem_zipWith_pairs h
  subst hpair
  exact ⟨⟨a, ha, rfl⟩, hip⟩

theorem ipPoolOf_sub {netId : Nat} {assignments : List (String × Nat)} {s : St}
    {ip : IpR} (h : ip ∈ ipPoolOf netId assignments s) :
    ip ∈ s.ips ++ freshIps s.fresh
      ((needingOf netId assignments s).length - (unassignedPoolOf netId assignments s).length)
      netId := by
  unfold ipPoolOf at h
  rcases List.mem_append.mp h with h' | h'
  · exact List.mem_append_left _ ((unassignedPoolOf_sublist netId assignments s).mem h')
  · exact List.mem_append_right _ h'

theorem ipPoolOf_netId {netId : Nat} {assignments : List (String × Nat)} {s : St}
    {ip : IpR} (h : ip ∈ ipPoolOf netId assignments s) : ip.netId = netId := by
  unfold ipPoolOf at h
  rcases List.mem_append.mp h with h' | h'
  · exact (unassignedPoolOf_mem h').2.1
  · exact (freshIps_mem h').1

theorem lookupIpMap_mem {m : List (Nat × IpR)} {v : Nat} {p : IpR}
    (h : lookupIpMap m v = some p) : (v, p) ∈ m := by
  unfold lookupIpMap at h
  cases hf : m.find? (fun e => e.1 == v) with
  | none => rw [hf] at h; cases h
  | some e =>
    rw [hf] at h
    simp only [Option.map_some'] at h
    have hmem := List.mem_of_find?_eq_some hf
    have hkey := List.find?_some hf
    simp only [beq_iff_eq] at hkey
    have he : e = (v, p) := by
      cases h
      rw [← hkey]
    rw [← he]
    exact hmem

theorem reuseMapOf_keys_sublist (netId : Nat) (s : St) :
    ∀ (assignments : List (String × Nat)),
      ((reuseMapOf netId assignments s).map Prod.fst).Sublist (assignments.map (·.2)) := by
  intro assignments
  induction assignments with
  | nil => exact List.Sublist.refl _
  | cons a rest ih =>
    unfold reuseMapOf at ih ⊢
    rw [List.filterMap_cons]
    cases hf : find_public_ip_for_vm netId a.2 s with
    | none =>
      simp only [Option.map_none']
      rw [List.map_cons]
      exact ih.trans (List.sublist_cons_self _ _)
    | some ip =>
      simp only [Option.map_some']
      rw [List.map_cons, List.map_cons]
      exact ih.cons₂ _

theorem ipPhase_post_ips (netId : Nat) (assignments : List (String × Nat)) (s : St)
    (hids : (s.ips.map (·.id)).Nodup) (hfresh : ∀ ip ∈ s.ips, ip.id < s.fresh) :
    (enableAllNat (ipPairsOf netId assignments s) (ipAssocStateOf netId assignments s)).ips
      = (s.ips ++ freshIps s.fresh
          ((needingOf netId assignments s).length
            - (unassignedPoolOf netId assignments s).length) netId).map
          (natUpdOf (ipPairsOf netId assignments s)) := by
  rw [enableAllNat_ips _ _ (ipPairsOf_ids_nodup netId assignments s hids hfresh)]
  rfl

theorem ipPhase_find_reused (netId : Nat) (assignments : List (String × Nat)) (s : St)
    (hids : (s.ips.map (·.id)).Nodup) (hfresh : ∀ ip ∈ s.ips, ip.id < s.fresh)
    {v : Nat} {ip : IpR} (hv : v ∈ assignments.map (·.2))
    (hfind : find_public_ip_for_vm netId v s = some ip) :
    find_public_ip_for_vm netId v
      (enableAllNat (ipPairsOf netId assignments s) (ipAssocStateOf netId assignments s))
      = some ip := by
  unfold find_public_ip_for_vm
  rw [ipPhase_post_ips netId assignments s hids hfresh]
  rw [List.filter_map]
  have hq : ((fun x => x.netId == netId) ∘ natUpdOf (ipPairsOf netId assignments s))
      = fun x : IpR => x.netId == netId :=
    funext fun x => by
      simp only [Function.comp_apply]
      rw [(natUpdOf_fields (ipPairsOf netId assignments s) x).2.2.1]
  rw [hq, List.filter_append, List.map_append]
  apply find?_append_some
  apply find?_map_first
  · exact hfind
  · apply natUpdOf_of_none
    rw [List.find?_eq_none]
    intro e he
    simp only [beq_iff_eq]
    intro heq
    have hmemip : ip ∈ s.ips := (find_public_ip_for_vm_mem hfind).1
    rcases ipPoolOf_mem (ipPairsOf_mem he).2 with hun | hfr
    · exact (unassignedPoolOf_mem hun).2.2.2 (v, ip) (reuseMapOf_mem_intro hv hfind)
        heq.symm
    · have := hfresh ip hmemip
      omega
  · intro x _ hpx
    cases hfx : (ipPairsOf netId assignments s).find? (fun e => e.2.id == x.id) with
    | none =>
      rw [natUpdOf_of_none hfx] at hpx
      exact hpx
    | some e =>
      rw [natUpdOf_of_some hfx] at hpx
      simp only [beq_iff_eq, Option.some.injEq] at hpx
      exfalso
      obtain ⟨⟨a, haneed, hkey⟩, _⟩ := ipPairsOf_mem (List.mem_of_find?_eq_some hfx)
      have hanone := (needingOf_mem.mp haneed).2
      rw [← hkey, hpx, hfind] at hanone
      cases hanone

theorem ipPhase_find_assigned (netId : Nat) (assignments : List (String × Nat)) (s : St)
    (hids : (s.ips.map (·.id)).Nodup) (hfresh : ∀ ip ∈ s.ips, ip.id < s.fresh)
    (hkeys : (assignments.map (·.2)).Nodup)
    {v : Nat} {p : IpR} (hpair : (v, p) ∈ ipPairsOf netId assignments s) :
    find_public_ip_for_vm netId v
      (enableAllNat (ipPairsOf netId assignments s) (ipAssocStateOf netId assignments s))
      = some { p with isStaticNat := true, vmId := some v } := by
  have hpairkeys : ((ipPairsOf netId assignments s).map Prod.fst).Nodup := by
    rw [ipPairsOf_keys]
    refine List.Nodup.sublist ?_ hkeys
    exact List.Sublist.map _ (List.filter_sublist _)
  have hfind2 : (ipPairsOf netId assignments s).find? (fun e => e.2.id == p.id)
      = some (v, p) := by
    apply find?_unique hpair (by simp)
    intro e he hpe
    simp only [beq_iff_eq] at hpe
    exact List.inj_on_of_nodup_map (ipPairsOf_ids_nodup netId assignments s hids hfresh)
      he hpair hpe
  have hFp : natUpdOf (ipPairsOf netId assignments s) p
      = { p with isStaticNat := true, vmId := some v } := natUpdOf_of_some hfind2
  have hvkey : ∃ a ∈ needingOf netId assignments s, v = a.2 :=
    (ipPairsOf_mem hpair).1
  unfold find_public_ip_for_vm
  rw [ipPhase_post_ips netId assignments s hids hfresh]
  rw [List.filter_map]
  have hq : ((fun x => x.netId == netId) ∘ natUpdOf (ipPairsOf netId assignments s))
      = fun x : IpR => x.netId == netId :=
    funext fun x => by
      simp only [Function.comp_apply]
      rw [(natUpdOf_fields (ipPairsOf netId assignments s) x).2.2.1]
  rw [hq]
  have hpmem : p ∈ (s.ips ++ freshIps s.fresh
      ((needingOf netId assignments s).length
        - (unassignedPoolOf netId assignments s).length) netId) :=
    ipPoolOf_sub (ipPairsOf_mem hpair).2
  rw [← hFp]
  apply find?_unique
  · exact List.mem_map.mpr ⟨p, List.mem_filter.mpr ⟨hpmem,
      by rw [show p.netId = netId from ipPoolOf_netId (ipPairsOf_mem hpair).2]; simp⟩, rfl⟩
  · rw [hFp]
    simp
  · intro y hy hpy
    rcases List.mem_map.mp hy with ⟨x, hx, hxy⟩
    obtain ⟨hxL, hxq⟩ := List.mem_filter.mp hx
    cases hfx : (ipPairsOf netId assignments s).find? (fun e => e.2.id == x.id) with
    | none =>
      exfalso
      rw [← hxy, natUpdOf_of_none hfx] at hpy
      simp only [beq_iff_eq] at hpy
      rcases List.mem_append.mp hxL with hxs | hxf
      · obtain ⟨a, haneed, hva⟩ := hvkey
        have hanone := (needingOf_mem.mp haneed).2
        rw [← hva] at hanone
        unfold find_public_ip_for_vm at hanone
        rw [List.find?_eq_none] at hanone
        exact hanone x (List.mem_filter.mpr ⟨hxs, hxq⟩) (by simp [hpy])
      · have := (freshIps_mem hxf).2.2.2
        rw [this] at hpy
        cases hpy
    | some e =>
      rw [← hxy, natUpdOf_of_some hfx] at hpy
      simp only [beq_iff_eq, Option.some.injEq] at hpy
      have hemem := List.mem_of_find?_eq_some hfx
      have heq : e = (v, p) := by
        apply List.inj_on_of_nodup_map hpairkeys hemem hpair
        exact hpy
      have hxid := List.find?_some hfx
      simp only [beq_iff_eq] at hxid
      have hxp : x = p := by
        apply List.inj_on_of_nodup_map (assocIps_ids_nodup s _ netId hids hfresh) hxL hpmem
        rw [← hxid, heq]
      rw [← hxy, hxp]

theorem reuseMapOf_ids_nodup (netId : Nat) (assignments : List (String × Nat)) (s : St)
    (hids : (s.ips.map (·.id)).Nodup) (hkeys : (assignments.map (·.2)).Nodup) :
    ((reuseMapOf netId assignments s).map (fun e => e.2.id)).Nodup := by
  have hentkeys : ((reuseMapOf netId assignments s).map Prod.fst).Nodup :=
    hkeys.sublist (reuseMapOf_keys_sublist netId s assignments)
  have hent : (reuseMapOf netId assignments s).Nodup := hentkeys.of_map
  refine hent.map_on ?_
  intro e he f hf hid
  have he2 := reuseMapOf_mem_val he
  have hf2 := reuseMapOf_mem_val hf
  have heip := find_public_ip_for_vm_mem he2.2
  have hfip := find_public_ip_for_vm_mem hf2.2
  have hipeq : e.2 = f.2 := List.inj_on_of_nodup_map hids heip.1 hfip.1 hid
  have hkeyeq : e.1 = f.1 := by
    have h1 := heip.2.2
    have h2 := hfip.2.2
    rw [hipeq] at h1
    rw [h1] at h2
    exact (Option.some.injEq _ _).mp h2
  exact Prod.ext hkeyeq hipeq

theorem ipPhase_fwd (netId : Nat) (assignments : List (String × Nat)) (s : St)
    (hids : (s.ips.map (·.id)).Nodup) (hfresh : ∀ ip ∈ s.ips, ip.id < s.fresh)
    (hkeys : (assignments.map (·.2)).Nodup) {m : List (Nat × IpR)} {s7 : St}
    (hrun : ipPhase netId assignments s = .ok (m, s7)) :
    s7.networks = s.networks ∧ s7.keypairs = s.keypairs ∧ s7.vms = s.vms ∧
    s7.volumes = s.volumes ∧ s7.fwRules = s.fwRules ∧ s7.policies = s.policies ∧
    s.fresh ≤ s7.fresh ∧ (∃ ext, s7.log = s.log ++ ext) ∧
    (∀ v, v ∈ assignments.map (·.2) →
      ∃ p ip2, lookupIpMap m v = some p ∧ find_public_ip_for_vm netId v s7 = some ip2 ∧
        ip2.id = p.id ∧ ip2.address = p.address) ∧
    (m.map (fun e => e.2.id)).Nodup := by
  rw [ipPhase_run] at hrun
  simp only [Except.ok.injEq, Prod.mk.injEq] at hrun
  obtain ⟨hm, hs⟩ := hrun
  subst hm
  subst hs
  obtain ⟨e1, e2, e3, e4, e5, e6, e7⟩ :=
    enableAllNat_frame (ipPairsOf netId assignments s) (ipAssocStateOf netId assignments s)
  have hpairkeys : ((ipPairsOf netId assignments s).map Prod.fst).Nodup := by
    rw [ipPairsOf_keys]
    exact hkeys.sublist (List.Sublist.map _ (List.filter_sublist _))
  refine ⟨e1, e2, e3, e4, e5, e6, by rw [e7]; show s.fresh ≤ s.fresh + _; omega,
    ⟨List.replicate ((needingOf netId assignments s).length
        - (unassignedPoolOf netId assignments s).length) (Cmd.associateIP netId)
      ++ (ipPairsOf netId assignments s).map fun e => Cmd.enableStaticNat e.2.id e.1,
      by rw [ipPhase_log, List.append_assoc]⟩, ?_, ?_⟩
  · intro v hv
    cases hf : find_public_ip_for_vm netId v s with
    | some ip =>
      exact ⟨ip, ip, lookupIpMap_append_left (reuseMapOf_lookup hv hf),
        ipPhase_find_reused netId assignments s hids hfresh hv hf, rfl, rfl⟩
    | none =>
      obtain ⟨a, ha, hav⟩ := List.mem_map.mp hv
      have haneed : a ∈ needingOf netId assignments s :=
        needingOf_mem.mpr ⟨ha, by rw [hav]; exact hf⟩
      have hvkeys : v ∈ (ipPairsOf netId assignments s).map Prod.fst := by
        rw [ipPairsOf_keys]
        exact List.mem_map.mpr ⟨a, haneed, hav⟩
      obtain ⟨e, he, hev⟩ := List.mem_map.mp hvkeys
      have hepair : (v, e.2) ∈ ipPairsOf netId assignments s := by
        rw [show (v, e.2) = e from by rw [← hev]]
        exact he
      have hlook : lookupIpMap (reuseMapOf netId assignments s
          ++ ipPairsOf netId assignments s) v = some e.2 := by
        rw [lookupIpMap_append_right (reuseMapOf_lookup_none hf)]
        unfold lookupIpMap
        rw [find?_unique hepair (by simp) ?_]
        · rfl
        · intro f hfm hfv
          simp only [beq_iff_eq] at hfv
          exact List.inj_on_of_nodup_map hpairkeys hfm hepair hfv
      exact ⟨e.2, { e.2 with isStaticNat := true, vmId := some v }, hlook,
        ipPhase_find_assigned netId assignments s hids hfresh hkeys hepair, rfl, rfl⟩
  · rw [List.map_append]
    refine List.Nodup.append (reuseMapOf_ids_nodup netId assignments s hids hkeys)
      (ipPairsOf_ids_nodup netId assignments s hids hfresh) ?_
    intro x hx hy
    rcases List.mem_map.mp hx with ⟨e, he, hex⟩
    rcases List.mem_map.mp hy with ⟨f, hfm, hfx⟩
    have hfpool := (ipPairsOf_mem hfm).2
    rcases ipPoolOf_mem hfpool with hun | hfr
    · exact (unassignedPoolOf_mem hun).2.2.2 e he (by rw [hex, hfx])
    · have hip := find_public_ip_for_vm_mem (reuseMapOf_mem_val he).2
      have := hfresh e.2 hip.1
      omega

/-- When every role VM already holds a NAT binding the IP wiring step is a
pure read: it returns the reuse map and leaves the account untouched. -/
theorem ipPhase_noop (netId : Nat) (assignments : List (String × Nat)) (s : St)
    (hall : ∀ v ∈ assignments.map (·.2), (find_public_ip_for_vm netId v s).isSome = true) :
    ipPhase netId assignments s = .ok (reuseMapOf netId assignments s, s) := by
  have hneed : needingOf netId assignments s = [] := by
    rw [List.eq_nil_iff_forall_not_mem]
    intro a ha
    obtain ⟨hmem, hnone⟩ := needingOf_mem.mp ha
    have := hall a.2 (List.mem_map.mpr ⟨a, hmem, rfl⟩)
    rw [hnone] at this
    cases this
  have hpairs : ipPairsOf netId assignments s = [] := by
    unfold ipPairsOf
    rw [hneed]
    rfl
  have hassoc : ipAssocStateOf netId assignments s = s := by
    unfold ipAssocStateOf
    rw [hneed]
    simp [freshIps]
  rw [ipPhase_run, hpairs, hassoc]
  show Except.ok (reuseMapOf netId assignments s ++ [], s) = _
  rw [List.append_nil]

/-! ## The firewall step -/

theorem applyFwRules_frame (rules : List (Nat × Nat × Nat)) :
    ∀ s : St,
      (applyFwRules rules s).networks = s.networks ∧
      (applyFwRules rules s).keypairs = s.keypairs ∧
      (applyFwRules rules s).vms = s.vms ∧
      (applyFwRules rules s).volumes = s.volumes ∧
      (applyFwRules rules s).ips = s.ips ∧
      (applyFwRules rules s).policies = s.policies ∧
      s.fresh ≤ (applyFwRules rules s).fresh ∧
      (∃ ext, (applyFwRules rules s).fwRules = s.fwRules ++ ext) ∧
      (∃ lext, (applyFwRules rules s).log = s.log ++ lext) := by
  induction rules with
  | nil =>
    intro s
    exact ⟨rfl, rfl, rfl, rfl, rfl, rfl, le_refl _,
      ⟨[], by show s.fwRules = s.fwRules ++ []; simp⟩,
      ⟨[], by show s.log = s.log ++ []; simp⟩⟩
  | cons trip rest ih =>
    intro s
    obtain ⟨ipId, sp, ep⟩ := trip
    rw [show applyFwRules ((ipId, sp, ep) :: rest) s = applyFwRules rest
      (if (find_firewall_rules ipId s).any (fun r => r.startport == sp && r.endport == ep)
        then s else cmkCreateFirewallRule ipId sp ep "TCP" "0.0.0.0/0" s) from rfl]
    by_cases hal : (find_firewall_rules ipId s).any
        (fun r => r.startport == sp && r.endport == ep) = true
    · rw [if_pos hal]
      exact ih s
    · rw [if_neg hal]
      obtain ⟨i1, i2, i3, i4, i5, i6, i7, ⟨ext, hext⟩, ⟨lext, hlext⟩⟩ :=
        ih (cmkCreateFirewallRule ipId sp ep "TCP" "0.0.0.0/0" s)
      refine ⟨i1, i2, i3, i4, i5, i6, ?_, ?_, ?_⟩
      · refine le_trans ?_ i7
        show s.fresh ≤ s.fresh + 1
        omega
      · refine ⟨⟨s.fresh, ipId, sp, ep, "TCP", "0.0.0.0/0"⟩ :: ext, ?_⟩
        rw [hext]
        show (s.fwRules ++ [⟨s.fresh, ipId, sp, ep, "TCP", "0.0.0.0/0"⟩]) ++ ext = _
        simp
      · refine ⟨.createFirewallRule ipId sp ep "TCP" "0.0.0.0/0" :: lext, ?_⟩
        rw [hlext]
        show (s.log ++ [.createFirewallRule ipId sp ep "TCP" "0.0.0.0/0"]) ++ lext = _
        simp

theorem fw_present_mono {s s1 : St} (hext : ∃ ext, s1.fwRules = s.fwRules ++ ext)
    {ipId sp ep : Nat}
    (h : ∃ r ∈ find_firewall_rules ipId s, r.startport = sp ∧ r.endport = ep) :
    ∃ r ∈ find_firewall_rules ipId s1, r.startport = sp ∧ r.endport = ep := by
  obtain ⟨ext, hext⟩ := hext
  obtain ⟨r, hr, hsp, hep⟩ := h
  unfold find_firewall_rules at hr ⊢
  obtain ⟨hmem, hpred⟩ := List.mem_filter.mp hr
  exact ⟨r, List.mem_filter.mpr ⟨by rw [hext]; exact List.mem_append_left _ hmem, hpred⟩,
    hsp, hep⟩

theorem applyFwRules_establishes (rules : List (Nat × Nat × Nat)) :
    ∀ s : St, ∀ trip ∈ rules,
      ∃ r ∈ find_firewall_rules trip.1 (applyFwRules rules s),
        r.startport = trip.2.1 ∧ r.endport = trip.2.2 := by
  induction rules with
  | nil => intro s trip htrip; cases htrip
  | cons trip0 rest ih =>
    intro s trip htrip
    obtain ⟨ipId, sp, ep⟩ := trip0
    rw [show applyFwRules ((ipId, sp, ep) :: rest) s = applyFwRules rest
      (if (find_firewall_rules ipId s).any (fun r => r.startport == sp && r.endport == ep)
        then s else cmkCreateFirewallRule ipId sp ep "TCP" "0.0.0.0/0" s) from rfl]
    rcases List.mem_cons.mp htrip with heq | hmem
    · subst heq
      by_cases hal : (find_firewall_rules ipId s).any
          (fun r => r.startport == sp && r.endport == ep) = true
      · rw [if_pos hal]
        obtain ⟨r, hr, hpred⟩ := List.any_eq_true.mp hal
        simp only [Bool.and_eq_true, beq_iff_eq] at hpred
        exact fw_present_mono (applyFwRules_frame rest s).2.2.2.2.2.2.2.1
          ⟨r, hr, hpred.1, hpred.2⟩
      · rw [if_neg hal]
        apply fw_present_mono (applyFwRules_frame rest _).2.2.2.2.2.2.2.1
        refine ⟨⟨s.fresh, ipId, sp, ep, "TCP", "0.0.0.0/0"⟩, ?_, rfl, rfl⟩
        unfold find_firewall_rules cmkCreateFirewallRule
        refine List.mem_filter.mpr ⟨?_, by simp⟩
        show _ ∈ s.fwRules ++ [_]
        exact List.mem_append_right _ (List.mem_singleton.mpr rfl)
    · by_cases hal : (find_firewall_rules ipId s).any
          (fun r => r.startport == sp && r.endport == ep) = true
      · rw [if_pos hal]
        exact ih s trip hmem
      · rw [if_neg hal]
        exact ih _ trip hmem

theorem applyFwRules_noop (rules : List (Nat × Nat × Nat)) :
    ∀ s : St, (∀ trip ∈ rules, (find_firewall_rules trip.1 s).any
        (fun r => r.startport == trip.2.1 && r.endport == trip.2.2) = true) →
      applyFwRules rules s = s := by
  induction rules with
  | nil => intro s _; rfl
  | cons trip0 rest ih =>
    intro s hall
    obtain ⟨ipId, sp, ep⟩ := trip0
    rw [show applyFwRules ((ipId, sp, ep) :: rest) s = applyFwRules rest
      (if (find_firewall_rules ipId s).any (fun r => r.startport == sp && r.endport == ep)
        then s else cmkCreateFirewallRule ipId sp ep "TCP" "0.0.0.0/0" s) from rfl]
    rw [if_pos (hall (ipId, sp, ep) (List.mem_cons_self _ _))]
    exact ih s (fun trip htrip => hall trip (List.mem_cons_of_mem _ htrip))

/-- The rules the firewall step creates from pristine rule sets: one TCP
`0.0.0.0/0` rule per required triple, with consecutive fresh ids. -/
def mkFw (start : Nat) : List (Nat × Nat × Nat) → List FwR
  | [] => []
  | (ipId, sp, ep) :: rest => ⟨start, ipId, sp, ep, "TCP", "0.0.0.0/0"⟩ :: mkFw (start + 1) rest

theorem mkFw_mem {start : Nat} :
    ∀ {rules : List (Nat × Nat × Nat)} {r : FwR}, r ∈ mkFw start rules →
      ∃ trip ∈ rules, r.ipId = trip.1 ∧ r.startport = trip.2.1 ∧ r.endport = trip.2.2 ∧
        r.protocol = "TCP" ∧ r.cidr = "0.0.0.0/0" := by
  intro rules
  induction rules generalizing start with
  | nil => intro r h; cases h
  | cons trip rest ih =>
    intro r h
    obtain ⟨ipId, sp, ep⟩ := trip
    rcases List.mem_cons.mp h with heq | hmem
    · subst heq
      exact ⟨(ipId, sp, ep), List.mem_cons_self _ _, rfl, rfl, rfl, rfl, rfl⟩
    · obtain ⟨t, ht, hrest⟩ := ih hmem
      exact ⟨t, List.mem_cons_of_mem _ ht, hrest⟩

theorem applyFwRules_all_created :
    ∀ (rules : List (Nat × Nat × Nat)) (s : St),
      (∀ trip ∈ rules, ∀ r ∈ s.fwRules, r.ipId = trip.1 →
        ¬(r.startport = trip.2.1 ∧ r.endport = trip.2.2)) →
      List.Pairwise (fun a b => ¬(a.1 = b.1 ∧ a.2.1 = b.2.1 ∧ a.2.2 = b.2.2)) rules →
      (applyFwRules rules s).fwRules = s.fwRules ++ mkFw s.fresh rules := by
  intro rules
  induction rules with
  | nil =>
    intro s _ _
    show s.fwRules = s.fwRules ++ mkFw s.fresh []
    simp [mkFw]
  | cons trip rest ih =>
    intro s hnone hpw
    obtain ⟨ipId, sp, ep⟩ := trip
    rw [show applyFwRules ((ipId, sp, ep) :: rest) s = applyFwRules rest
      (if (find_firewall_rules ipId s).any (fun r => r.startport == sp && r.endport == ep)
        then s else cmkCreateFirewallRule ipId sp ep "TCP" "0.0.0.0/0" s) from rfl]
    have hal : (find_firewall_rules ipId s).any
        (fun r => r.startport == sp && r.endport == ep) = false := by
      rw [Bool.eq_false_iff]
      intro hal
      obtain ⟨r, hr, hpred⟩ := List.any_eq_true.mp hal
      simp only [Bool.and_eq_true, beq_iff_eq] at hpred
      obtain ⟨hmem, hid⟩ := List.mem_filter.mp hr
      exact hnone (ipId, sp, ep) (List.mem_cons_self _ _) r hmem (by simpa using hid)
        ⟨hpred.1, hpred.2⟩
    rw [if_neg (by rw [hal]; simp)]
    rw [List.pairwise_cons] at hpw
    set s1 := cmkCreateFirewallRule ipId sp ep "TCP" "0.0.0.0/0" s with hs1
    have h1 : (applyFwRules rest s1).fwRules = s1.fwRules ++ mkFw s1.fresh rest := by
      apply ih s1 ?_ hpw.2
      intro t ht r hr hid hmatch
      rcases List.mem_append.mp (show r ∈ s.fwRules ++ [⟨s.fresh, ipId, sp, ep, "TCP",
          "0.0.0.0/0"⟩] from hr) with hm | hm
      · exact hnone t (List.mem_cons_of_mem _ ht) r hm hid hmatch
      · rcases List.mem_singleton.mp hm with rfl
        exact hpw.1 t ht ⟨hid, hmatch.1, hmatch.2⟩
    rw [h1]
    show (s.fwRules ++ [⟨s.fresh, ipId, sp, ep, "TCP", "0.0.0.0/0"⟩])
      ++ mkFw (s.fresh + 1) rest = _
    rw [show mkFw s.fresh ((ipId, sp, ep) :: rest)
      = ⟨s.fresh, ipId, sp, ep, "TCP", "0.0.0.0/0"⟩ :: mkFw (s.fresh + 1) rest from rfl]
    simp

/-- The start-port listing of an IP's firewall rules
(`[r \x7b"startport"\x7d for r in find_firewall_rules(ip_id)]`). -/
def portsOf (ipId : Nat) (s : St) : List Nat :=
  (find_firewall_rules ipId s).map (·.startport)

theorem mkFw_filter_ports (tgt : Nat) :
    ∀ (rules : List (Nat × Nat × Nat)) (start : Nat),
      ((mkFw start rules).filter (fun r => r.ipId == tgt)).map (·.startport)
        = (rules.filter (fun t => t.1 == tgt)).map (·.2.1) := by
  intro rules
  induction rules with
  | nil => intro start; rfl
  | cons trip rest ih =>
    intro start
    obtain ⟨ipId, sp, ep⟩ := trip
    rw [show mkFw start ((ipId, sp, ep) :: rest)
      = ⟨start, ipId, sp, ep, "TCP", "0.0.0.0/0"⟩ :: mkFw (start + 1) rest from rfl]
    rw [List.filter_cons, List.filter_cons]
    by_cases hid : ipId = tgt
    · rw [if_pos (by simpa using hid), if_pos (by simpa using hid)]
      rw [List.map_cons, List.map_cons, ih]
    · rw [if_neg (by simpa using hid), if_neg (by simpa using hid)]
      exact ih (start + 1)

/-! ## The data-disk and snapshot-policy steps -/

theorem create_disk_fwd {diskName diskOffId zoneId : String} {sizeGB vmId : Nat}
    {networkName : String} {s : St} {volId : Nat} {s1 : St}
    (h : create_disk diskName diskOffId zoneId sizeGB vmId networkName s = .ok (volId, s1)) :
    s1.networks = s.networks ∧ s1.keypairs = s.keypairs ∧ s1.vms = s.vms ∧
    s1.ips = s.ips ∧ s1.fwRules = s.fwRules ∧ s1.policies = s.policies ∧
    s.fresh ≤ s1.fresh ∧ (∃ ext, s1.log = s.log ++ ext) ∧
    (∃ vol1, find_volume diskName s1 = some vol1 ∧ vol1.id = volId ∧
      vol1.size = sizeGB * 1024 ^ 3 ∧ vol1.vmId.isSome = true) ∧
    ((∃ g : VolR → VolR,
        (∀ v, (g v).id = v.id ∧ (g v).name = v.name ∧ (g v).isData = v.isData) ∧
        (∀ v, ¬ v.id = volId → g v = v) ∧
        s1.volumes = s.volumes.map g ∧ s1.fresh = s.fresh ∧
        ∃ vol0, find_volume diskName s = some vol0 ∧ volId = vol0.id)
      ∨ (find_volume diskName s = none ∧ volId = s.fresh ∧ s1.fresh = s.fresh + 1 ∧
        ∃ g : VolR → VolR,
          (∀ v, (g v).id = v.id ∧ (g v).name = v.name ∧ (g v).isData = v.isData) ∧
          (∀ v, ¬ v.id = volId → g v = v) ∧
          ∃ nv : VolR, nv.id = s.fresh ∧ s1.volumes = s.volumes.map g ++ [nv])) := by
  unfold create_disk at h
  cases hfv : find_volume diskName s with
  | some vol =>
    rw [hfv] at h
    unfold resize_volume at h
    dsimp only at h
    have hname : vol.name = diskName ∧ vol.isData = true := by
      unfold find_volume at hfv
      have hp := List.find?_some hfv
      simp only [Bool.and_eq_true, beq_iff_eq] at hp
      exact ⟨hp.2, hp.1⟩
    by_cases hgt : sizeGB * 1024 ^ 3 > vol.size
    · rw [if_pos hgt] at h
      dsimp only at h
      by_cases hatt : vol.vmId.isNone = true
      · rw [if_pos hatt] at h
        simp only [Except.ok.injEq, Prod.mk.injEq] at h
        obtain ⟨h1, h2⟩ := h
        subst h1
        subst h2
        refine ⟨rfl, rfl, rfl, rfl, rfl, rfl, le_refl _,
          ⟨[.resizeVolume vol.id sizeGB, .attachVolume vol.id vmId], by
            show (s.log ++ [_]) ++ [_] = _
            simp⟩, ?_, Or.inl ⟨fun x => if x.id == vol.id then
              { x with size := sizeGB * 1024 ^ 3, vmId := some vmId } else x, ?_, ?_, ?_,
              rfl, vol, rfl, rfl⟩⟩
        · refine ⟨{ vol with size := sizeGB * 1024 ^ 3, vmId := some vmId }, ?_, rfl, rfl,
            rfl⟩
          unfold find_volume at hfv ⊢
          show ((s.volumes.map fun x => if x.id == vol.id then
            { x with size := sizeGB * 1024 ^ 3 } else x).map fun x => if x.id == vol.id
            then { x with vmId := some vmId } else x).find?
            (fun v => v.isData && v.name == diskName) = _
          rw [List.map_map]
          rw [find?_map_congr _ _ _ (fun x => by
            simp only [Function.comp_apply]
            by_cases hx : x.id == vol.id <;> simp [hx])]
          rw [hfv]
          simp only [Option.map_some', Function.comp_apply]
          rw [if_pos (by simp), if_pos (by simp)]
        · intro v
          by_cases hv : v.id == vol.id <;> simp [hv]
        · intro v hv
          simp [hv]
        · show ((s.volumes.map _).map _) = _
          rw [List.map_map]
          apply List.map_congr_left
          intro x _
          simp only [Function.comp_apply]
          by_cases hx : x.id == vol.id <;> simp [hx]
      · rw [if_neg hatt] at h
        simp only [Except.ok.injEq, Prod.mk.injEq] at h
        obtain ⟨h1, h2⟩ := h
        subst h1
        subst h2
        have hsome : vol.vmId.isSome = true := by
          cases hv : vol.vmId with
          | none => rw [hv] at hatt; exact absurd rfl hatt
          | some w => rfl
        refine ⟨rfl, rfl, rfl, rfl, rfl, rfl, le_refl _,
          ⟨[.resizeVolume vol.id sizeGB], rfl⟩, ?_,
          Or.inl ⟨fun x => if x.id == vol.id then { x with size := sizeGB * 1024 ^ 3 }
            else x, ?_, ?_, rfl, rfl, vol, rfl, rfl⟩⟩
        · refine ⟨{ vol with size := sizeGB * 1024 ^ 3 }, ?_, rfl, rfl, hsome⟩
          unfold find_volume at hfv ⊢
          show (s.volumes.map fun x => if x.id == vol.id then
            { x with size := sizeGB * 1024 ^ 3 } else x).find?
            (fun v => v.isData && v.name == diskName) = _
          rw [find?_map_congr _ _ _ (fun x => by
            by_cases hx : x.id == vol.id <;> simp [hx])]
          rw [hfv]
          simp only [Option.map_some']
          rw [if_pos (by simp)]
        · intro v
          by_cases hv : v.id == vol.id <;> simp [hv]
        · intro v hv
          simp [hv]
    · rw [if_neg hgt] at h
      by_cases hlt : sizeGB * 1024 ^ 3 < vol.size
      · rw [if_pos hlt] at h
        cases h
      · rw [if_neg hlt] at h
        dsimp only at h
        have hsz : vol.size = sizeGB * 1024 ^ 3 := by omega
        by_cases hatt : vol.vmId.isNone = true
        · rw [if_pos hatt] at h
          simp only [Except.ok.injEq, Prod.mk.injEq] at h
          obtain ⟨h1, h2⟩ := h
          subst h1
          subst h2
          refine ⟨rfl, rfl, rfl, rfl, rfl, rfl, le_refl _,
            ⟨[.attachVolume vol.id vmId], rfl⟩, ?_,
            Or.inl ⟨fun x => if x.id == vol.id then { x with vmId := some vmId } else x,
              ?_, ?_, rfl, rfl, vol, rfl, rfl⟩⟩
          · refine ⟨{ vol with vmId := some vmId }, ?_, rfl, by rw [← hsz], rfl⟩
            unfold find_volume at hfv ⊢
            show (s.volumes.map fun x => if x.id == vol.id then
              { x with vmId := some vmId } else x).find?
              (fun v => v.isData && v.name == diskName) = _
            rw [find?_map_congr _ _ _ (fun x => by
              by_cases hx : x.id == vol.id <;> simp [hx])]
            rw [hfv]
            simp only [Option.map_some']
            rw [if_pos (by simp)]
          · intro v
            by_cases hv : v.id == vol.id <;> simp [hv]
          · intro v hv
            simp [hv]
        · rw [if_neg hatt] at h
          simp only [Except.ok.injEq, Prod.mk.injEq] at h
          obtain ⟨h1, h2⟩ := h
          subst h1
          subst h2
          have hsome : vol.vmId.isSome = true := by
            cases hv : vol.vmId with
            | none => rw [hv] at hatt; exact absurd rfl hatt
            | some w => rfl
          exact ⟨rfl, rfl, rfl, rfl, rfl, rfl, le_refl _, ⟨[], by simp⟩,
            ⟨vol, hfv, rfl, hsz, hsome⟩,
            Or.inl ⟨fun v => v, fun v => ⟨rfl, rfl, rfl⟩, fun v _ => rfl, by simp, rfl,
              vol, rfl, rfl⟩⟩
  | none =>
    rw [hfv] at h
    unfold cmkCreateVolume at h
    dsimp only at h
    simp only [Except.ok.injEq, Prod.mk.injEq] at h
    obtain ⟨h1, h2⟩ := h
    subst h1
    subst h2
    refine ⟨rfl, rfl, rfl, rfl, rfl, rfl, by show s.fresh ≤ s.fresh + 1; omega,
      ⟨[.createVolume diskName diskOffId zoneId sizeGB,
        .createTags s.fresh "locaweb-ai-deploy-id" networkName,
        .attachVolume s.fresh vmId], by
          show ((s.log ++ [_]) ++ [_]) ++ [_] = _
          simp⟩, ?_, Or.inr ⟨rfl, rfl, rfl,
        fun x => if x.id == s.fresh then { x with
          tags := x.tags ++ [("locaweb-ai-deploy-id", networkName)],
          vmId := some vmId } else x, ?_, ?_,
        ⟨s.fresh, diskName, true, some vmId, sizeGB * 1024 ^ 3, zoneId,
          [("locaweb-ai-deploy-id", networkName)]⟩, rfl, ?_⟩⟩
    · refine ⟨⟨s.fresh, diskName, true, some vmId, sizeGB * 1024 ^ 3, zoneId,
        [("locaweb-ai-deploy-id", networkName)]⟩, ?_, rfl, rfl, rfl⟩
      unfold find_volume at hfv ⊢
      show (((s.volumes ++ [(⟨s.fresh, diskName, true, none, sizeGB * 1024 ^ 3, zoneId,
        []⟩ : VolR)]).map (_ : VolR → VolR)).map (_ : VolR → VolR)).find?
        (fun v => v.isData && v.name == diskName) = _
      rw [List.map_map, List.map_append]
      rw [find?_append_none (by
        rw [find?_map_congr _ _ _ (fun x => by
          simp only [Function.comp_apply]
          by_cases hx : x.id == s.fresh <;> simp [hx])]
        rw [hfv]
        rfl)]
      rw [List.map_singleton]
      rw [List.find?_cons_of_pos _ (by simp)]
      simp only [Function.comp_apply, Option.some.injEq]
      rw [if_pos (by simp), if_pos (by simp)]
      simp
    · intro v
      by_cases hv : v.id == s.fresh <;> simp [hv]
    · intro v hv
      simp [hv]
    · show (((s.volumes ++ [(⟨s.fresh, diskName, true, none, sizeGB * 1024 ^ 3, zoneId,
        []⟩ : VolR)]).map (_ : VolR → VolR)).map (_ : VolR → VolR)) = _
      rw [List.map_map, List.map_append, List.map_singleton]
      congr 1
      · apply List.map_congr_left
        intro x _
        simp only [Function.comp_apply]
        by_cases hx : x.id == s.fresh <;> simp [hx]
      · simp only [Function.comp_apply]
        rw [if_pos (by simp), if_pos (by simp)]
        simp

theorem find_volume_name_of {n : String} {s : St} {v : VolR}
    (h : find_volume n s = some v) : v ∈ s.volumes ∧ v.name = n ∧ v.isData = true := by
  unfold find_volume at h
  have hmem := List.mem_of_find?_eq_some h
  have hp := List.find?_some h
  simp only [Bool.and_eq_true, beq_iff_eq] at hp
  exact ⟨hmem, hp.2, hp.1⟩

theorem create_disk_pres {diskName diskOffId zoneId : String} {sizeGB vmId : Nat}
    {networkName : String} {s : St} {volId : Nat} {s1 : St}
    (h : create_disk diskName diskOffId zoneId sizeGB vmId networkName s = .ok (volId, s1))
    (hids : (s.volumes.map (·.id)).Nodup) (hbound : ∀ v ∈ s.volumes, v.id < s.fresh) :
    (∀ n v, find_volume n s = some v → ¬ n = diskName →
      ∃ v1, find_volume n s1 = some v1 ∧ v1.id = v.id ∧ v1.size = v.size ∧
        v1.vmId.isSome = v.vmId.isSome) ∧
    (s1.volumes.map (·.id)).Nodup ∧ (∀ v ∈ s1.volumes, v.id < s1.fresh) := by
  obtain ⟨_, _, _, _, _, _, _, _, _, hevo⟩ := create_disk_fwd h
  rcases hevo with ⟨g, hg1, hg2, hvols, hfr1, vol0, hvol0, hvid⟩ |
    ⟨hnone, hvid, hfr1, g, hg1, hg2, nv, hnv, hvols⟩
  · have hfix : ∀ n v, find_volume n s = some v → ¬ n = diskName → g v = v := by
      intro n v hv hn
      apply hg2
      intro hid
      have hvmem := (find_volume_name_of hv).1
      have hv0mem := (find_volume_name_of hvol0).1
      have heq : v = vol0 := List.inj_on_of_nodup_map hids hvmem hv0mem (by rw [hid, hvid])
      exact hn (by rw [← (find_volume_name_of hv).2.1, heq,
        (find_volume_name_of hvol0).2.1])
    refine ⟨?_, ?_, ?_⟩
    · intro n v hv hn
      refine ⟨v, ?_, rfl, rfl, rfl⟩
      unfold find_volume at hv ⊢
      rw [hvols, find?_map_congr _ _ _ (fun x => by
        rw [show ((g x).isData && (g x).name == n) = (x.isData && x.name == n) from by
          rw [(hg1 x).2.1, (hg1 x).2.2]]), hv]
      simp [hfix n v hv hn]
    · rw [hvols, List.map_map,
        List.map_congr_left (fun v _ => show ((·.id) ∘ g) v = v.id from (hg1 v).1)]
      exact hids
    · intro v hv
      rw [hvols] at hv
      rcases List.mem_map.mp hv with ⟨x, hx, hgx⟩
      rw [hfr1, ← hgx, (hg1 x).1]
      exact hbound x hx
  · refine ⟨?_, ?_, ?_⟩
    · intro n v hv hn
      have hfix : g v = v := hg2 v (by
        intro hid
        have := hbound v (find_volume_name_of hv).1
        omega)
      refine ⟨v, ?_, rfl, rfl, rfl⟩
      unfold find_volume at hv ⊢
      rw [hvols]
      apply find?_append_some
      rw [find?_map_congr _ _ _ (fun x => by
        rw [show ((g x).isData && (g x).name == n) = (x.isData && x.name == n) from by
          rw [(hg1 x).2.1, (hg1 x).2.2]]), hv]
      simp [hfix]
    · rw [hvols, List.map_append, List.map_map,
        List.map_congr_left (fun v _ => show ((·.id) ∘ g) v = v.id from (hg1 v).1)]
      refine List.Nodup.append hids (by simp) ?_
      intro x hx hx2
      rcases List.mem_map.mp hx with ⟨v, hv, hxv⟩
      simp only [List.map_cons, List.map_nil, List.mem_singleton] at hx2
      have := hbound v hv
      rw [hnv] at hx2
      omega
    · intro v hv
      rw [hvols] at hv
      rw [hfr1]
      rcases List.mem_append.mp hv with hm | hm
      · rcases List.mem_map.mp hm with ⟨x, hx, hgx⟩
        have := hbound x hx
        rw [← hgx, (hg1 x).1]
        omega
      · rcases List.mem_singleton.mp hm with rfl
        rw [hnv]
        omega

theorem create_disk_noop {diskName diskOffId zoneId : String} {sizeGB vmId : Nat}
    {networkName : String} {s : St} {vol1 : VolR}
    (hfind : find_volume diskName s = some vol1)
    (hsz : vol1.size = sizeGB * 1024 ^ 3) (hatt : vol1.vmId.isSome = true) :
    create_disk diskName diskOffId zoneId sizeGB vmId networkName s = .ok (vol1.id, s) := by
  unfold create_disk
  rw [hfind]
  unfold resize_volume
  dsimp only
  rw [if_neg (by omega), if_neg (by omega)]
  dsimp only
  rw [if_neg (by
    cases hv : vol1.vmId with
    | none => rw [hv] at hatt; cases hatt
    | some w => simp)]

/-! ## Snapshot policies -/

theorem create_snapshot_policy_fwd (volId : Nat) (networkName zoneIds : String) (s : St) :
    (create_snapshot_policy volId networkName zoneIds s).networks = s.networks ∧
    (create_snapshot_policy volId networkName zoneIds s).keypairs = s.keypairs ∧
    (create_snapshot_policy volId networkName zoneIds s).vms = s.vms ∧
    (create_snapshot_policy volId networkName zoneIds s).volumes = s.volumes ∧
    (create_snapshot_policy volId networkName zoneIds s).ips = s.ips ∧
    (create_snapshot_policy volId networkName zoneIds s).fwRules = s.fwRules ∧
    s.fresh ≤ (create_snapshot_policy volId networkName zoneIds s).fresh ∧
    (∃ ext, (create_snapshot_policy volId networkName zoneIds s).log = s.log ++ ext) ∧
    (∃ pext, (create_snapshot_policy volId networkName zoneIds s).policies
      = s.policies ++ pext) ∧
    ((create_snapshot_policy volId networkName zoneIds s).policies.filter
      (fun p => p.volumeId == volId)).isEmpty = false := by
  unfold create_snapshot_policy
  by_cases hemp : (s.policies.filter fun p => p.volumeId == volId).isEmpty = true
  · rw [if_pos hemp]
    unfold cmkCreateSnapshotPolicy
    refine ⟨rfl, rfl, rfl, rfl, rfl, rfl, by show s.fresh ≤ s.fresh + 1; omega,
      ⟨[.createSnapshotPolicy volId SNAPSHOT_SCHEDULE SNAPSHOT_MAX SNAPSHOT_TIMEZONE
        zoneIds "locaweb-ai-deploy-id" networkName], rfl⟩,
      ⟨[⟨s.fresh, volId⟩], rfl⟩, ?_⟩
    show ((s.policies ++ [(⟨s.fresh, volId⟩ : SpR)]).filter
      (fun p => p.volumeId == volId)).isEmpty = false
    rw [List.filter_append]
    rw [List.isEmpty_eq_false]
    intro hnil
    have : (⟨s.fresh, volId⟩ : SpR) ∈ ([] : List SpR) := by
      rw [← hnil]
      exact List.mem_append_right _ (List.mem_filter.mpr
        ⟨List.mem_singleton.mpr rfl, by simp⟩)
    cases this
  · rw [if_neg hemp]
    refine ⟨rfl, rfl, rfl, rfl, rfl, rfl, le_refl _, ⟨[], by simp⟩, ⟨[], by simp⟩, ?_⟩
    simpa using hemp

theorem create_snapshot_policy_noop {volId : Nat} {networkName zoneIds : String} {s : St}
    (h : (s.policies.filter (fun p => p.volumeId == volId)).isEmpty = false) :
    create_snapshot_policy volId networkName zoneIds s = s := by
  unfold create_snapshot_policy
  rw [if_neg (by rw [h]; simp)]

theorem policy_nonempty_mono {s s1 : St} {volId : Nat}
    (hext : ∃ pext, s1.policies = s.policies ++ pext)
    (h : (s.policies.filter (fun p => p.volumeId == volId)).isEmpty = false) :
    (s1.policies.filter (fun p => p.volumeId == volId)).isEmpty = false := by
  obtain ⟨pext, hp⟩ := hext
  rw [hp, List.filter_append]
  rw [List.isEmpty_eq_false] at h ⊢
  intro hnil
  apply h
  cases hq : (s.policies.filter fun p => p.volumeId == volId) with
  | nil => rfl
  | cons x xs =>
    rw [hq] at hnil
    cases hnil

/-! ## Second-run convergence -/

/-- Pointwise NAT-binding facts for a list of VMs and their recorded IPs. -/
def IpsFact (netId : Nat) : List Nat → List IpR → St → Prop
  | [], [], _ => True
  | v :: vs, ip :: ips, s =>
    find_public_ip_for_vm netId v s = some ip ∧ IpsFact netId vs ips s
  | _, _, _ => False

theorem assignmentsOf_keys (w : Nat) (ws : List Nat) (db : Option Nat) :
    (assignmentsOf w ws db).map (·.2)
      = w :: ws ++ (match db with | some d => [d] | none => []) := by
  unfold assignmentsOf
  cases db <;> simp

theorem ipsFact_isSome (netId : Nat) :
    ∀ {vids : List Nat} {ips : List IpR} {s : St}, IpsFact netId vids ips s →
      ∀ v ∈ vids, (find_public_ip_for_vm netId v s).isSome = true := by
  intro vids
  induction vids with
  | nil => intro ips s _ v hv; cases hv
  | cons v0 rest ih =>
    intro ips s hf v hv
    cases ips with
    | nil => cases hf
    | cons ip ips' =>
      obtain ⟨hfind, htail⟩ := hf
      rcases List.mem_cons.mp hv with rfl | hv'
      · rw [hfind]; rfl
      · exact ih htail v hv'

theorem collectIps_of_ipsFact (netId : Nat) (m : List (Nat × IpR)) (sErr : St) :
    ∀ (vids : List Nat) (ips : List IpR) (s : St), IpsFact netId vids ips s →
      (∀ v ip, v ∈ vids → find_public_ip_for_vm netId v s = some ip →
        lookupIpMap m v = some ip) →
      collectIps m vids sErr = .ok ips := by
  intro vids
  induction vids with
  | nil =>
    intro ips s hf _
    cases ips with
    | nil => rfl
    | cons ip rest => cases hf
  | cons v rest ih =>
    intro ips s hf hlk
    cases ips with
    | nil => cases hf
    | cons ip ips' =>
      obtain ⟨hfind, htail⟩ := hf
      unfold collectIps
      rw [hlk v ip (List.mem_cons_self _ _) hfind]
      dsimp only
      rw [ih ips' s htail (fun v' ip' hv' => hlk v' ip' (List.mem_cons_of_mem _ hv'))]

/-- All observations about the post-provision account and output that make a
repeated `provision` a pure read returning the same output and state. -/
def Converged (env : Env) (cfg : Config) (repoName uniqueId : String) (o : Output)
    (s' : St) : Prop :=
  ∃ (zoneId netOffId diskOffId webOffId workerOffId dbOffId tmplId : String)
    (wids : List Nat) (wIps : List IpR),
    resolve_zone env cfg.zone = .ok zoneId ∧
    resolve_network_offering env NETWORK_OFFERING_NAME = .ok netOffId ∧
    resolve_disk_offering env DISK_OFFERING_NAME = .ok diskOffId ∧
    resolve_service_offering env cfg.webPlan = .ok webOffId ∧
    discover_template env.templates zoneId = .ok tmplId ∧
    (cfg.workersEnabled = true →
      resolve_service_offering env cfg.workersPlan = .ok workerOffId) ∧
    (cfg.workersEnabled = false → workerOffId = "") ∧
    (cfg.dbEnabled = true → resolve_service_offering env cfg.dbPlan = .ok dbOffId) ∧
    (cfg.dbEnabled = false → dbOffId = "") ∧
    o.network_name = networkNameOf repoName uniqueId ∧
    o.keypair_name = keypairNameOf (networkNameOf repoName uniqueId) ∧
    find_network (networkNameOf repoName uniqueId) s' = some o.network_id ∧
    find_keypair (keypairNameOf (networkNameOf repoName uniqueId)) s' = true ∧
    (∃ vmW, find_vm (webVmNameOf (networkNameOf repoName uniqueId)) s' = some vmW ∧
      vmW.id = o.web_vm_id ∧ (vmW.offering = webOffId ∨ vmW.offering = "")) ∧
    o.worker_vm_ids = (if cfg.workersEnabled then some wids else none) ∧
    (cfg.workersEnabled = true → wids.length = cfg.workersReplicas) ∧
    (cfg.workersEnabled = false → wids = []) ∧
    WorkersFact (networkNameOf repoName uniqueId) 1 wids workerOffId s' ∧
    (∀ d, o.db_vm_id = some d →
      ∃ vmD, find_vm (dbVmNameOf (networkNameOf repoName uniqueId)) s' = some vmD ∧
        vmD.id = d ∧ (vmD.offering = dbOffId ∨ vmD.offering = "")) ∧
    (cfg.dbEnabled = true → ∃ d, o.db_vm_id = some d) ∧
    (cfg.dbEnabled = false → o.db_vm_id = none) ∧
    find_vm (workerVmNameOf (networkNameOf repoName uniqueId)
      ((if cfg.workersEnabled then cfg.workersReplicas else 0) + 1)) s' = none ∧
    (∃ wip, find_public_ip_for_vm o.network_id o.web_vm_id s' = some wip ∧
      wip.id = o.web_ip_id ∧ wip.address = o.web_ip) ∧
    IpsFact o.network_id wids wIps s' ∧
    o.worker_ips = (if cfg.workersEnabled then some (wIps.map (·.address)) else none) ∧
    (∀ d, o.db_vm_id = some d →
      ∃ dip, find_public_ip_for_vm o.network_id d s' = some dip ∧
        o.db_ip_id = some dip.id ∧ o.db_ip = some dip.address) ∧
    (o.db_vm_id = none → o.db_ip_id = none ∧ o.db_ip = none) ∧
    (∀ trip ∈ fwRequired o.web_ip_id (wIps.map (·.id)) o.db_ip_id,
      (find_firewall_rules trip.1 s').any
        (fun r => r.startport == trip.2.1 && r.endport == trip.2.2) = true) ∧
    (∃ vb, find_volume (blobDiskNameOf (networkNameOf repoName uniqueId)) s' = some vb ∧
      vb.id = o.blob_volume_id ∧ vb.size = cfg.blobDiskSizeGB * 1024 ^ 3 ∧
      vb.vmId.isSome = true) ∧
    (∀ d, o.db_vm_id = some d →
      ∃ dv vdb, o.db_volume_id = some dv ∧
        find_volume (dbDiskNameOf (networkNameOf repoName uniqueId)) s' = some vdb ∧
        vdb.id = dv ∧ vdb.size = cfg.dbDiskSizeGB * 1024 ^ 3 ∧ vdb.vmId.isSome = true) ∧
    (o.db_vm_id = none → o.db_volume_id = none) ∧
    (s'.policies.filter (fun p => p.volumeId == o.blob_volume_id)).isEmpty = false ∧
    (∀ dv, o.db_volume_id = some dv →
      (s'.policies.filter (fun p => p.volumeId == dv)).isEmpty = false) ∧
    get_vm_internal_ip o.web_vm_id s' = some o.web_internal_ip ∧
    (∃ wiIps, collectInternalIps wids s' = .ok wiIps ∧
      o.worker_internal_ips = (if cfg.workersEnabled then some wiIps else none)) ∧
    (∀ d, o.db_vm_id = some d → ∃ di, get_vm_internal_ip d s' = some di ∧
      o.db_internal_ip = some di) ∧
    (o.db_vm_id = none → o.db_internal_ip = none)

theorem exbind_ok {α β ε : Type} (a : α) (f : α → Except ε β) :
    (Except.ok a : Except ε α) >>= f = f a := rfl

theorem expure_eq {α ε : Type} (a : α) : (pure a : Except ε α) = Except.ok a := rfl

/-- A converged account is a fixpoint: a repeated `provision` issues no
mutating command and returns the same `ProvisionOutput` over the unchanged
account state. -/
theorem provision_noop_of_converged (env : Env) (cfg : Config)
    (repoName uniqueId publicKey : String) (o : Output) (s' : St)
    (hc : Converged env cfg repoName uniqueId o s') :
    provision env cfg repoName uniqueId publicKey s' = .ok (o, s') := by
  obtain ⟨network_name, network_id, keypair_name, web_vm_id, worker_vm_ids, db_vm_id,
    web_ip, web_ip_id, worker_ips, db_ip, db_ip_id, blob_volume_id, db_volume_id,
    web_internal_ip, worker_internal_ips, db_internal_ip⟩ := o
  unfold Converged at hc
  dsimp only at hc
  obtain ⟨zoneId, netOffId, diskOffId, webOffId, workerOffId, dbOffId, tmplId, wids, wIps,
    hz, hno, hdo, hwo, htm, hwoE, hwoD, hdoE, hdoD, honame, hokp, hnet, hkp,
    ⟨vmW, hvmW, hvmWid, hvmWoff⟩, hwidsout, hwlen, hwnil, hwfact, hdbvm, hdbexE, hdbexD,
    hexc, ⟨wip, hwip, hwipid, hwipaddr⟩, hipsfact, hwipsout, hdbip, hdbipnone, hfw,
    ⟨vb, hvb, hvbid, hvbsz, hvbatt⟩, hdbvol, hdbvolnone, hpolB, hpolD, hwebint,
    ⟨wiIps, hwint, hwintout⟩, hdbint, hdbintnone⟩ := hc
  have hz2 : exceptWith s' (resolve_zone env cfg.zone)
      = (.ok zoneId : Except (String × St) String) := by
    rw [hz]
    rfl
  have hno2 : exceptWith s' (resolve_network_offering env NETWORK_OFFERING_NAME)
      = (.ok netOffId : Except (String × St) String) := by
    rw [hno]
    rfl
  have hdo2 : exceptWith s' (resolve_disk_offering env DISK_OFFERING_NAME)
      = (.ok diskOffId : Except (String × St) String) := by
    rw [hdo]
    rfl
  have hwo2 : exceptWith s' (resolve_service_offering env cfg.webPlan)
      = (.ok webOffId : Except (String × St) String) := by
    rw [hwo]
    rfl
  have htm2 : exceptWith s' (discover_template env.templates zoneId)
      = (.ok tmplId : Except (String × St) String) := by
    rw [htm]
    rfl
  have hnetphase : networkPhase (networkNameOf repoName uniqueId) netOffId zoneId s'
      = (network_id, s') := by
    unfold networkPhase
    rw [hnet]
  have hkphase : keypairPhase (keypairNameOf (networkNameOf repoName uniqueId))
      publicKey s' = s' := by
    unfold keypairPhase
    rw [if_pos hkp]
  have hwebdeploy : deploy_vm env (webVmNameOf (networkNameOf repoName uniqueId))
      webOffId tmplId zoneId network_id
      (keypairNameOf (networkNameOf repoName uniqueId)) s' = (web_vm_id, s') := by
    have h := @deploy_vm_noop env (webVmNameOf (networkNameOf repoName uniqueId))
      webOffId tmplId zoneId network_id
      (keypairNameOf (networkNameOf repoName uniqueId)) s' vmW hvmW hvmWoff
    rw [hvmWid] at h
    exact h
  have hkeysweb : web_vm_id ∈ (assignmentsOf web_vm_id wids db_vm_id).map (·.2) := by
    rw [assignmentsOf_keys]
    exact List.mem_cons_self _ _
  have hkeysw : ∀ v ∈ wids, v ∈ (assignmentsOf web_vm_id wids db_vm_id).map (·.2) := by
    intro v hv
    rw [assignmentsOf_keys]
    exact List.mem_cons_of_mem _ (List.mem_append_left _ hv)
  have hipnoop : ipPhase network_id (assignmentsOf web_vm_id wids db_vm_id) s'
      = .ok (reuseMapOf network_id (assignmentsOf web_vm_id wids db_vm_id) s', s') := by
    apply ipPhase_noop
    intro v hv
    rw [assignmentsOf_keys] at hv
    rcases List.mem_cons.mp hv with rfl | hv2
    · rw [hwip]
      rfl
    · rcases List.mem_append.mp hv2 with hv3 | hv3
      · exact ipsFact_isSome network_id hipsfact v hv3
      · cases hdbv : db_vm_id with
        | none =>
          rw [hdbv] at hv3
          cases hv3
        | some d =>
          rw [hdbv] at hv3
          rcases List.mem_singleton.mp hv3 with rfl
          obtain ⟨dip, hdipf, _, _⟩ := hdbip v hdbv
          rw [hdipf]
          rfl
  have hweblookup : lookupIpMap (reuseMapOf network_id
      (assignmentsOf web_vm_id wids db_vm_id) s') web_vm_id = some wip :=
    reuseMapOf_lookup hkeysweb hwip
  have hcollect : collectIps (reuseMapOf network_id
      (assignmentsOf web_vm_id wids db_vm_id) s') wids s' = .ok wIps :=
    collectIps_of_ipsFact network_id _ s' wids wIps s' hipsfact
      (fun v ip hv hf => reuseMapOf_lookup (hkeysw v hv) hf)
  have hdisk1 : create_disk (blobDiskNameOf (networkNameOf repoName uniqueId))
      diskOffId zoneId cfg.blobDiskSizeGB web_vm_id (networkNameOf repoName uniqueId) s'
      = .ok (blob_volume_id, s') := by
    rw [← hvbid]
    exact create_disk_noop hvb hvbsz hvbatt
  have hpol1 : create_snapshot_policy blob_volume_id (networkNameOf repoName uniqueId)
      (String.intercalate "," (resolve_all_zone_ids env)) s' = s' :=
    create_snapshot_policy_noop hpolB
  cases db_vm_id with
  | some d =>
    obtain ⟨vmD, hvmD, hvmDid, hvmDoff⟩ := hdbvm d rfl
    obtain ⟨dip, hdipf, hdipid, hdipaddr⟩ := hdbip d rfl
    obtain ⟨dv, vdb, hdv, hvdb, hvdbid, hvdbsz, hvdbatt⟩ := hdbvol d rfl
    obtain ⟨di, hdif, hdiout⟩ := hdbint d rfl
    have hde : cfg.dbEnabled = true := by
      cases hde2 : cfg.dbEnabled with
      | true => rfl
      | false => cases hdbexD hde2
    have hdres : exceptWith s' (resolve_service_offering env cfg.dbPlan)
        = (.ok dbOffId : Except (String × St) String) := by
      rw [hdoE hde]
      rfl
    have hdbdeploy : deploy_vm env (dbVmNameOf (networkNameOf repoName uniqueId))
        dbOffId tmplId zoneId network_id
        (keypairNameOf (networkNameOf repoName uniqueId)) s' = (d, s') := by
      have h := @deploy_vm_noop env (dbVmNameOf (networkNameOf repoName uniqueId))
        dbOffId tmplId zoneId network_id
        (keypairNameOf (networkNameOf repoName uniqueId)) s' vmD hvmD hvmDoff
      rw [hvmDid] at h
      exact h
    have hdblookup : lookupIpMap (reuseMapOf network_id
        (assignmentsOf web_vm_id wids (some d)) s') d = some dip := by
      apply reuseMapOf_lookup ?_ hdipf
      rw [assignmentsOf_keys]
      exact List.mem_cons_of_mem _ (List.mem_append_right _ (List.mem_singleton.mpr rfl))
    have hfwnoop : applyFwRules (fwRequired wip.id (wIps.map (·.id)) (some dip.id)) s'
        = s' := by
      apply applyFwRules_noop
      rw [hwipid, ← hdipid]
      exact hfw
    have hdisk2 : create_disk (dbDiskNameOf (networkNameOf repoName uniqueId))
        diskOffId zoneId cfg.dbDiskSizeGB d (networkNameOf repoName uniqueId) s'
        = .ok (dv, s') := by
      rw [← hvdbid]
      exact create_disk_noop hvdb hvdbsz hvdbatt
    have hpol2 : create_snapshot_policy dv (networkNameOf repoName uniqueId)
        (String.intercalate "," (resolve_all_zone_ids env)) s' = s' :=
      create_snapshot_policy_noop (hpolD dv hdv)
    cases hwe : cfg.workersEnabled with
    | true =>
      have hwres : exceptWith s' (resolve_service_offering env cfg.workersPlan)
          = (.ok workerOffId : Except (String × St) String) := by
        rw [hwoE hwe]
        rfl
      have hwl : deployWorkersLoop env (networkNameOf repoName uniqueId) workerOffId
          tmplId zoneId network_id (keypairNameOf (networkNameOf repoName uniqueId)) 1
          cfg.workersReplicas s' = (wids, s') := by
        rw [← hwlen hwe]
        exact deployWorkersLoop_noop env _ _ _ _ _ _ wids 1 s' hwfact
      have hexc2 : find_vm (workerVmNameOf (networkNameOf repoName uniqueId)
          (cfg.workersReplicas + 1)) s' = none := by
        rw [hwe] at hexc
        simpa using hexc
      rw [hwe] at hwidsout hwipsout hwintout
      simp only [if_pos] at hwidsout hwipsout hwintout
      simp only [provision, provisionTail, hz2, hno2, hdo2, hwo2, htm2, hwe, hde,
        if_true, hwres, hdres, exbind_ok, hnetphase, hkphase, hwebdeploy, hwl,
        hdbdeploy, removeExcessLoop_none hexc2, hipnoop, hweblookup, hcollect,
        hdblookup, hfwnoop, hdisk1, hdisk2, hpol1, hpol2, hwebint, hwint, hdif,
        expure_eq, Option.map_some']
      simp only [Except.ok.injEq, Prod.mk.injEq, Output.mk.injEq]
      exact ⟨⟨honame.symm, trivial, hokp.symm, trivial, hwidsout.symm, trivial,
        hwipaddr, hwipid, hwipsout.symm, hdipaddr.symm, hdipid.symm, trivial, hdv.symm,
        trivial, hwintout.symm, hdiout.symm⟩, trivial⟩
    | false =>
      have hw0 := hwnil hwe
      subst hw0
      have hexc2 : find_vm (workerVmNameOf (networkNameOf repoName uniqueId) 1) s'
          = none := by
        rw [hwe] at hexc
        simpa using hexc
      rw [hwe] at hwidsout hwipsout hwintout
      simp only [Bool.false_eq_true, if_false] at hwidsout hwipsout hwintout
      simp only [provision, provisionTail, hz2, hno2, hdo2, hwo2, htm2, hwe, hde,
        Bool.false_eq_true, if_false, if_true, hdres, exbind_ok, hnetphase, hkphase,
        hwebdeploy, hdbdeploy, removeExcessLoop_none hexc2, hipnoop, hweblookup,
        hcollect, hdblookup, hfwnoop, hdisk1, hdisk2, hpol1, hpol2, hwebint, hdif,
        expure_eq, Option.map_some']
      simp only [Except.ok.injEq, Prod.mk.injEq, Output.mk.injEq]
      exact ⟨⟨honame.symm, trivial, hokp.symm, trivial, hwidsout.symm, trivial,
        hwipaddr, hwipid, hwipsout.symm, hdipaddr.symm, hdipid.symm, trivial, hdv.symm,
        trivial, hwintout.symm, hdiout.symm⟩, trivial⟩
  | none =>
    have hde : cfg.dbEnabled = false := by
      cases hde2 : cfg.dbEnabled with
      | false => rfl
      | true =>
        obtain ⟨d, hd⟩ := hdbexE hde2
        cases hd
    obtain ⟨hdbipid, hdbipaddr⟩ := hdbipnone rfl
    have hdbvol2 := hdbvolnone rfl
    have hdbint2 := hdbintnone rfl
    have hfwnoop : applyFwRules (fwRequired wip.id (wIps.map (·.id)) none) s' = s' := by
      apply applyFwRules_noop
      rw [hwipid, ← hdbipid]
      exact hfw
    cases hwe : cfg.workersEnabled with
    | true =>
      have hwres : exceptWith s' (resolve_service_offering env cfg.workersPlan)
          = (.ok workerOffId : Except (String × St) String) := by
        rw [hwoE hwe]
        rfl
      have hwl : deployWorkersLoop env (networkNameOf repoName uniqueId) workerOffId
          tmplId zoneId network_id (keypairNameOf (networkNameOf repoName uniqueId)) 1
          cfg.workersReplicas s' = (wids, s') := by
        rw [← hwlen hwe]
        exact deployWorkersLoop_noop env _ _ _ _ _ _ wids 1 s' hwfact
      have hexc2 : find_vm (workerVmNameOf (networkNameOf repoName uniqueId)
          (cfg.workersReplicas + 1)) s' = none := by
        rw [hwe] at hexc
        simpa using hexc
      rw [hwe] at hwidsout hwipsout hwintout
      simp only [if_pos] at hwidsout hwipsout hwintout
      simp only [provision, provisionTail, hz2, hno2, hdo2, hwo2, htm2, hwe, hde,
        Bool.false_eq_true, if_false, if_true, hwres, exbind_ok, hnetphase, hkphase,
        hwebdeploy, hwl, removeExcessLoop_none hexc2, hipnoop, hweblookup, hcollect,
        hfwnoop, hdisk1, hpol1, hwebint, hwint, expure_eq, Option.map_none']
      simp only [Except.ok.injEq, Prod.mk.injEq, Output.mk.injEq]
      exact ⟨⟨honame.symm, trivial, hokp.symm, trivial, hwidsout.symm, trivial,
        hwipaddr, hwipid, hwipsout.symm, hdbipaddr.symm, hdbipid.symm, trivial,
        hdbvol2.symm, trivial, hwintout.symm, hdbint2.symm⟩, trivial⟩
    | false =>
      have hw0 := hwnil hwe
      subst hw0
      have hexc2 : find_vm (workerVmNameOf (networkNameOf repoName uniqueId) 1) s'
          = none := by
        rw [hwe] at hexc
        simpa using hexc
      rw [hwe] at hwidsout hwipsout hwintout
      simp only [Bool.false_eq_true, if_false] at hwidsout hwipsout hwintout
      simp only [provision, provisionTail, hz2, hno2, hdo2, hwo2, htm2, hwe, hde,
        Bool.false_eq_true, if_false, exbind_ok, hnetphase, hkphase, hwebdeploy,
        removeExcessLoop_none hexc2, hipnoop, hweblookup, hcollect, hfwnoop, hdisk1,
        hpol1, hwebint, expure_eq, Option.map_none']
      simp only [Except.ok.injEq, Prod.mk.injEq, Output.mk.injEq]
      exact ⟨⟨honame.symm, trivial, hokp.symm, trivial, hwidsout.symm, trivial,
        hwipaddr, hwipid, hwipsout.symm, hdbipaddr.symm, hdbipid.symm, trivial,
        hdbvol2.symm, trivial, hwintout.symm, hdbint2.symm⟩, trivial⟩

/-! ## Read-only lookups depend only on the listings they scan -/

theorem find_public_ip_congr {s1 s2 : St} (h : s2.ips = s1.ips) (n v : Nat) :
    find_public_ip_for_vm n v s2 = find_public_ip_for_vm n v s1 := by
  unfold find_public_ip_for_vm
  rw [h]

theorem find_vm_congr {s1 s2 : St} (h : s2.vms = s1.vms) (n : String) :
    find_vm n s2 = find_vm n s1 := by
  unfold find_vm
  rw [h]

theorem find_volume_congr {s1 s2 : St} (h : s2.volumes = s1.volumes) (n : String) :
    find_volume n s2 = find_volume n s1 := by
  unfold find_volume
  rw [h]

theorem find_firewall_rules_congr {s1 s2 : St} (h : s2.fwRules = s1.fwRules) (i : Nat) :
    find_firewall_rules i s2 = find_firewall_rules i s1 := by
  unfold find_firewall_rules
  rw [h]

theorem get_vm_internal_ip_congr {s1 s2 : St} (h : s2.vms = s1.vms) (v : Nat) :
    get_vm_internal_ip v s2 = get_vm_internal_ip v s1 := by
  unfold get_vm_internal_ip
  rw [h]

theorem find_network_congr {s1 s2 : St} (h : s2.networks = s1.networks) (n : String) :
    find_network n s2 = find_network n s1 := by
  unfold find_network
  rw [h]

theorem find_keypair_congr {s1 s2 : St} (h : s2.keypairs = s1.keypairs) (n : String) :
    find_keypair n s2 = find_keypair n s1 := by
  unfold find_keypair
  rw [h]

/-! ## Worker-id lookups of the output map -/

/-- Pointwise `ip_map` lookup facts for the worker ids, in order. -/
def LookupsFact (m : List (Nat × IpR)) : List Nat → List IpR → Prop
  | [], [] => True
  | v :: vs, ip :: ips => lookupIpMap m v = some ip ∧ LookupsFact m vs ips
  | _, _ => False

theorem collectIps_fwd (m : List (Nat × IpR)) (sErr : St) :
    ∀ (vids : List Nat) (l : List IpR), collectIps m vids sErr = .ok l →
      LookupsFact m vids l := by
  intro vids
  induction vids with
  | nil =>
    intro l h
    unfold collectIps at h
    simp only [Except.ok.injEq] at h
    rw [← h]
    trivial
  | cons v rest ih =>
    intro l h
    unfold collectIps at h
    cases hlk : lookupIpMap m v with
    | none =>
      rw [hlk] at h
      cases h
    | some ip =>
      rw [hlk] at h
      dsimp only at h
      cases hrec : collectIps m rest sErr with
      | error e =>
        rw [hrec] at h
        cases h
      | ok l2 =>
        rw [hrec] at h
        dsimp only at h
        simp only [Except.ok.injEq] at h
        rw [← h]
        exact ⟨hlk, ih l2 hrec⟩

theorem ipsFact_of_lookups (netId : Nat) (m : List (Nat × IpR)) (s7 : St)
    (keys : List Nat)
    (hv : ∀ v ∈ keys, ∃ p ip2, lookupIpMap m v = some p ∧
      find_public_ip_for_vm netId v s7 = some ip2 ∧ ip2.id = p.id ∧
      ip2.address = p.address) :
    ∀ (vids : List Nat) (l : List IpR), LookupsFact m vids l →
      (∀ v ∈ vids, v ∈ keys) →
      ∃ l2, IpsFact netId vids l2 s7 ∧ l2.map (·.id) = l.map (·.id) ∧
        l2.map (·.address) = l.map (·.address) := by
  intro vids
  induction vids with
  | nil =>
    intro l hf _
    cases l with
    | nil => exact ⟨[], trivial, rfl, rfl⟩
    | cons ip rest => cases hf
  | cons v rest ih =>
    intro l hf hsub
    cases l with
    | nil => cases hf
    | cons ip l2 =>
      obtain ⟨hlk, htail⟩ := hf
      obtain ⟨p, ip2, hp, hfind, hid, haddr⟩ := hv v (hsub v (List.mem_cons_self _ _))
      rw [hlk] at hp
      cases hp
      obtain ⟨l3, hfact, hids, haddrs⟩ := ih l2 htail
        (fun v' hv' => hsub v' (List.mem_cons_of_mem _ hv'))
      exact ⟨ip2 :: l3, ⟨hfind, hfact⟩, by rw [List.map_cons, List.map_cons, hids, hid],
        by rw [List.map_cons, List.map_cons, haddrs, haddr]⟩

theorem lookupIpMap_key {m : List (Nat × IpR)} {v : Nat} {p : IpR}
    (h : lookupIpMap m v = some p) :
    ∀ {w : Nat} {q : IpR}, lookupIpMap m w = some q →
      (m.map (fun e => e.2.id)).Nodup → ¬ v = w → ¬ p.id = q.id := by
  intro w q hw hm hvw hpq
  have h1 := lookupIpMap_mem h
  have h2 := lookupIpMap_mem hw
  have heq := List.inj_on_of_nodup_map hm h1 h2 hpq
  exact hvw (congrArg Prod.fst heq)

/-! ## Shape of the rules the firewall step creates -/

theorem applyFwRules_created_shape :
    ∀ (rules : List (Nat × Nat × Nat)) (s : St),
      ∃ ext, (applyFwRules rules s).fwRules = s.fwRules ++ ext ∧
        ∀ r ∈ ext, ∃ trip ∈ rules, r.ipId = trip.1 ∧ r.startport = trip.2.1 ∧
          r.endport = trip.2.2 ∧ r.protocol = "TCP" ∧ r.cidr = "0.0.0.0/0" := by
  intro rules
  induction rules with
  | nil =>
    intro s
    exact ⟨[], by show s.fwRules = s.fwRules ++ []; simp, fun r hr => absurd hr
      (List.not_mem_nil _)⟩
  | cons trip0 rest ih =>
    intro s
    obtain ⟨ipId, sp, ep⟩ := trip0
    rw [show applyFwRules ((ipId, sp, ep) :: rest) s = applyFwRules rest
      (if (find_firewall_rules ipId s).any (fun r => r.startport == sp && r.endport == ep)
        then s else cmkCreateFirewallRule ipId sp ep "TCP" "0.0.0.0/0" s) from rfl]
    by_cases hal : (find_firewall_rules ipId s).any
        (fun r => r.startport == sp && r.endport == ep) = true
    · rw [if_pos hal]
      obtain ⟨ext, hext, hsh⟩ := ih s
      exact ⟨ext, hext, fun r hr => by
        obtain ⟨t, ht, hrest⟩ := hsh r hr
        exact ⟨t, List.mem_cons_of_mem _ ht, hrest⟩⟩
    · rw [if_neg hal]
      obtain ⟨ext, hext, hsh⟩ := ih (cmkCreateFirewallRule ipId sp ep "TCP" "0.0.0.0/0" s)
      refine ⟨⟨s.fresh, ipId, sp, ep, "TCP", "0.0.0.0/0"⟩ :: ext, ?_, ?_⟩
      · rw [hext]
        show (s.fwRules ++ [_]) ++ ext = _
        simp
      · intro r hr
        rcases List.mem_cons.mp hr with heq | hmem
        · subst heq
          exact ⟨(ipId, sp, ep), List.mem_cons_self _ _, rfl, rfl, rfl, rfl, rfl⟩
        · obtain ⟨t, ht, hrest⟩ := hsh r hmem
          exact ⟨t, List.mem_cons_of_mem _ ht, hrest⟩

theorem fwRequired_trip_shape {webIpId : Nat} {workerIpIds : List Nat} {dbIpId : Option Nat}
    {trip : Nat × Nat × Nat} (h : trip ∈ fwRequired webIpId workerIpIds dbIpId) :
    trip.2.1 = trip.2.2 ∧ (trip.2.1 = 22 ∨ trip.2.1 = 80 ∨ trip.2.1 = 443) := by
  unfold fwRequired at h
  rcases List.mem_append.mp h with h1 | h1
  · rcases List.mem_append.mp h1 with h2 | h2
    · rcases List.mem_cons.mp h2 with rfl | h3
      · exact ⟨rfl, Or.inl rfl⟩
      · rcases List.mem_cons.mp h3 with rfl | h4
        · exact ⟨rfl, Or.inr (Or.inl rfl)⟩
        · rcases List.mem_singleton.mp h4 with rfl
          exact ⟨rfl, Or.inr (Or.inr rfl)⟩
    · rcases List.mem_map.mp h2 with ⟨i, _, hi⟩
      rw [← hi]
      exact ⟨rfl, Or.inl rfl⟩
  · cases dbIpId with
    | some d =>
      rcases List.mem_singleton.mp h1 with rfl
      exact ⟨rfl, Or.inl rfl⟩
    | none => cases h1

theorem blobDiskNameOf_ne_dbDiskNameOf (net : String) :
    ¬ blobDiskNameOf net = dbDiskNameOf net := by
  intro h
  unfold blobDiskNameOf dbDiskNameOf at h
  have h2 := string_append_cancel_left h
  exact absurd h2 (by decide)

theorem exbind_err {α β ε : Type} (e : ε) (f : α → Except ε β) :
    (Except.error e : Except ε α) >>= f = .error e := rfl

theorem ipsFact_congr (netId : Nat) {s1 s2 : St} (hips : s2.ips = s1.ips) :
    ∀ {vids : List Nat} {l : List IpR}, IpsFact netId vids l s1 → IpsFact netId vids l s2 := by
  intro vids
  induction vids with
  | nil =>
    intro l h
    cases l with
    | nil => trivial
    | cons ip rest => cases h
  | cons v rest ih =>
    intro l h
    cases l with
    | nil => cases h
    | cons ip l2 =>
      obtain ⟨hf, ht⟩ := h
      exact ⟨by rw [find_public_ip_congr hips, hf], ih ht⟩

theorem lookups_mem_of_id {m : List (Nat × IpR)} :
    ∀ {vids : List Nat} {l : List IpR}, LookupsFact m vids l →
      ∀ {i : Nat}, i ∈ l.map (·.id) →
        ∃ q : Nat × IpR, (q.1 ∈ vids ∧ lookupIpMap m q.1 = some q.2) ∧ q.2.id = i := by
  intro vids
  induction vids with
  | nil =>
    intro l hf i hi
    cases l with
    | nil => cases hi
    | cons ip rest => cases hf
  | cons v rest ih =>
    intro l hf i hi
    cases l with
    | nil => cases hf
    | cons ip l2 =>
      obtain ⟨hlk, ht⟩ := hf
      rcases List.mem_cons.mp hi with heq | hmem
      · exact ⟨(v, ip), ⟨List.mem_cons_self _ _, hlk⟩, heq.symm⟩
      · obtain ⟨q, hq, hqid⟩ := ih ht hmem
        exact ⟨q, ⟨List.mem_cons_of_mem _ hq.1, hq.2⟩, hqid⟩

theorem lookups_ids_nodup {m : List (Nat × IpR)}
    (hm : (m.map (fun e => e.2.id)).Nodup) :
    ∀ {vids : List Nat} {l : List IpR}, LookupsFact m vids l → vids.Nodup →
      (l.map (·.id)).Nodup := by
  intro vids
  induction vids with
  | nil =>
    intro l hf _
    cases l with
    | nil => simp
    | cons ip rest => cases hf
  | cons v rest ih =>
    intro l hf hnd
    cases l with
    | nil => cases hf
    | cons ip l2 =>
      obtain ⟨hlk, ht⟩ := hf
      rw [List.map_cons, List.nodup_cons]
      rw [List.nodup_cons] at hnd
      refine ⟨?_, ih ht hnd.2⟩
      intro hmem
      obtain ⟨q, hq, hqid⟩ := lookups_mem_of_id ht hmem
      exact lookupIpMap_key hlk hq.2 hm (fun hv => hnd.1 (hv ▸ hq.1)) hqid.symm

theorem lookups_ids_not_mem {m : List (Nat × IpR)}
    (hm : (m.map (fun e => e.2.id)).Nodup) {v : Nat} {p : IpR}
    (hv : lookupIpMap m v = some p) :
    ∀ {vids : List Nat} {l : List IpR}, LookupsFact m vids l → ¬ v ∈ vids →
      ¬ p.id ∈ l.map (·.id) := by
  intro vids l hf hnv hmem
  obtain ⟨q, hq, hqid⟩ := lookups_mem_of_id hf hmem
  exact lookupIpMap_key hv hq.2 hm (fun hveq => hnv (hveq ▸ hq.1)) hqid.symm

/-! ## Exact firewall port sets on pristine IPs -/

theorem fwRequired_eq (web : Nat) (ws : List Nat) (db : Option Nat) :
    fwRequired web ws db = [(web, 22, 22), (web, 80, 80), (web, 443, 443)]
      ++ (ws ++ db.toList).map (fun i => (i, 22, 22)) := by
  unfold fwRequired
  cases db <;> simp


theorem fwRequired_ips_sub {web : Nat} {ws : List Nat} {db : Option Nat}
    {trip : Nat × Nat × Nat} (h : trip ∈ fwRequired web ws db) :
    trip.1 ∈ web :: (ws ++ db.toList) := by
  rw [fwRequired_eq] at h
  rcases List.mem_append.mp h with h1 | h1
  · rcases List.mem_cons.mp h1 with rfl | h2
    · exact List.mem_cons_self _ _
    · rcases List.mem_cons.mp h2 with rfl | h3
      · exact List.mem_cons_self _ _
      · rcases List.mem_singleton.mp h3 with rfl
        exact List.mem_cons_self _ _
  · rcases List.mem_map.mp h1 with ⟨i, hi, htrip⟩
    rw [← htrip]
    exact List.mem_cons_of_mem _ hi

theorem fwRequired_pairwise {web : Nat} {ws : List Nat} {db : Option Nat}
    (hnd : (web :: (ws ++ db.toList)).Nodup) :
    List.Pairwise (fun a b => ¬(a.1 = b.1 ∧ a.2.1 = b.2.1 ∧ a.2.2 = b.2.2))
      (fwRequired web ws db) := by
  rw [fwRequired_eq]
  rw [List.nodup_cons] at hnd
  rw [List.pairwise_append]
  refine ⟨?_, ?_, ?_⟩
  · simp
  · rw [List.pairwise_map]
    refine List.Pairwise.imp ?_ hnd.2
    intro a b hab hcon
    exact hab hcon.1
  · intro a ha b hb
    rcases List.mem_map.mp hb with ⟨i, hi, hbi⟩
    intro hcon
    apply hnd.1
    have hb1 : b.1 = i := by rw [← hbi]
    have ha1 : a.1 = web := by
      rcases List.mem_cons.mp ha with rfl | h2
      · rfl
      · rcases List.mem_cons.mp h2 with rfl | h3
        · rfl
        · rcases List.mem_singleton.mp h3 with rfl
          rfl
    rw [show web = i from by rw [← ha1, hcon.1, hb1]]
    exact hi

theorem nodup_filter_eq_singleton {l : List Nat} {i : Nat} (hnd : l.Nodup) (hi : i ∈ l) :
    l.filter (fun j => j == i) = [i] := by
  induction l with
  | nil => cases hi
  | cons a rest ih =>
    rw [List.nodup_cons] at hnd
    rw [List.filter_cons]
    rcases List.mem_cons.mp hi with rfl | hmem
    · rw [if_pos (by simp)]
      rw [List.filter_eq_nil_iff.mpr ?_]
      · intro j hj
        simp only [beq_iff_eq]
        intro hji
        exact hnd.1 (hji ▸ hj)
    · rw [if_neg (by
        simp only [beq_iff_eq]
        intro hai
        exact hnd.1 (hai ▸ hmem))]
      exact ih hnd.2 hmem

theorem fwRequired_filter_web {web : Nat} {ws : List Nat} {db : Option Nat}
    (hnd : (web :: (ws ++ db.toList)).Nodup) :
    ((fwRequired web ws db).filter (fun t => t.1 == web)).map (·.2.1) = [22, 80, 443] := by
  rw [fwRequired_eq, List.filter_append, List.map_append]
  rw [List.nodup_cons] at hnd
  rw [show ([(web, 22, 22), (web, 80, 80), (web, 443, 443)] : List (Nat × Nat × Nat)).filter
    (fun t => t.1 == web) = [(web, 22, 22), (web, 80, 80), (web, 443, 443)] from by simp]
  rw [List.filter_eq_nil_iff.mpr ?_]
  · rfl
  · intro t ht
    rcases List.mem_map.mp ht with ⟨i, hi, hti⟩
    rw [← hti]
    simp only [beq_iff_eq]
    intro hiw
    exact hnd.1 (hiw ▸ hi)

theorem fwRequired_filter_other {web : Nat} {ws : List Nat} {db : Option Nat} {i : Nat}
    (hnd : (web :: (ws ++ db.toList)).Nodup) (hi : i ∈ ws ++ db.toList) (hiw : ¬ i = web) :
    ((fwRequired web ws db).filter (fun t => t.1 == i)).map (·.2.1) = [22] := by
  rw [fwRequired_eq, List.filter_append, List.map_append]
  rw [List.nodup_cons] at hnd
  rw [List.filter_eq_nil_iff.mpr (by
    intro t ht
    have ht1 : t.1 = web := by
      rcases List.mem_cons.mp ht with rfl | h2
      · rfl
      · rcases List.mem_cons.mp h2 with rfl | h3
        · rfl
        · rcases List.mem_singleton.mp h3 with rfl
          rfl
    simp only [beq_iff_eq, ht1]
    intro hwi
    exact hiw hwi.symm)]
  rw [show ((ws ++ db.toList).map (fun i => (i, 22, 22))).filter (fun t => t.1 == i)
      = ((ws ++ db.toList).filter (fun j => j == i)).map (fun i => (i, 22, 22)) from by
    rw [List.filter_map]
    rfl]
  rw [nodup_filter_eq_singleton hnd.2 hi]
  rfl

theorem portsOf_split {i : Nat} {s1 : St} {base ext : List FwR}
    (h : s1.fwRules = base ++ ext) :
    portsOf i s1 = (base.filter (fun r => r.ipId == i)).map (·.startport)
      ++ (ext.filter (fun r => r.ipId == i)).map (·.startport) := by
  unfold portsOf find_firewall_rules
  rw [h, List.filter_append, List.map_append]

theorem fwStep_exact {web : Nat} {wids : List Nat} {db : Option Nat} {s7 : St}
    (hnd : (web :: (wids ++ db.toList)).Nodup)
    (hprist : ∀ r ∈ s7.fwRules, ¬ r.ipId ∈ web :: (wids ++ db.toList)) :
    portsOf web (applyFwRules (fwRequired web wids db) s7) = [22, 80, 443] ∧
    (∀ i ∈ web :: (wids ++ db.toList), ¬ i = web →
      portsOf i (applyFwRules (fwRequired web wids db) s7) = [22]) := by
  have hall := applyFwRules_all_created (fwRequired web wids db) s7
    (fun trip htrip r hr hid =>
      absurd (hid ▸ fwRequired_ips_sub htrip) (hprist r hr))
    (fwRequired_pairwise hnd)
  have hbase : ∀ i ∈ web :: (wids ++ db.toList),
      (s7.fwRules.filter (fun r => r.ipId == i)).map (·.startport) = [] := by
    intro i hi
    rw [List.filter_eq_nil_iff.mpr ?_]
    · rfl
    · intro r hr
      simp only [beq_iff_eq]
      intro hri
      exact hprist r hr (hri ▸ hi)
  constructor
  · rw [portsOf_split hall, hbase web (List.mem_cons_self _ _), List.nil_append,
      mkFw_filter_ports, fwRequired_filter_web hnd]
  · intro i hi hiw
    have hi2 : i ∈ wids ++ db.toList := by
      rcases List.mem_cons.mp hi with rfl | h2
      · exact absurd rfl hiw
      · exact h2
    rw [portsOf_split hall, hbase i hi, List.nil_append, mkFw_filter_ports,
      fwRequired_filter_other hnd hi2 hiw]

theorem fwStep_created_shape (web : Nat) (wids : List Nat) (db : Option Nat) (s7 : St) :
    ∃ created, (applyFwRules (fwRequired web wids db) s7).fwRules
        = s7.fwRules ++ created ∧
      ∀ r ∈ created, r.protocol = "TCP" ∧ r.cidr = "0.0.0.0/0" ∧
        r.startport = r.endport ∧
        (r.startport = 22 ∨ r.startport = 80 ∨ r.startport = 443) := by
  obtain ⟨ext, hext, hsh⟩ := applyFwRules_created_shape (fwRequired web wids db) s7
  refine ⟨ext, hext, ?_⟩
  intro r hr
  obtain ⟨trip, htrip, hid, hsp, hep, hproto, hcidr⟩ := hsh r hr
  obtain ⟨heq, hport⟩ := fwRequired_trip_shape htrip
  exact ⟨hproto, hcidr, by rw [hsp, hep, heq], by rw [hsp]; exact hport⟩

theorem fwStep_any (rules : List (Nat × Nat × Nat)) (s7 : St) :
    ∀ trip ∈ rules,
      (find_firewall_rules trip.1 (applyFwRules rules s7)).any
        (fun r => r.startport == trip.2.1 && r.endport == trip.2.2) = true := by
  intro trip htrip
  obtain ⟨r, hr, hsp, hep⟩ := applyFwRules_establishes rules s7 trip htrip
  exact List.any_eq_true.mpr ⟨r, hr, by simp [hsp, hep]⟩

theorem portsOf_congr {s1 s2 : St} (h : s2.fwRules = s1.fwRules) (i : Nat) :
    portsOf i s2 = portsOf i s1 := by
  unfold portsOf
  rw [find_firewall_rules_congr h]

theorem append_ext_trans {α : Type} {a b c : List α} (h1 : ∃ e, b = a ++ e)
    (h2 : ∃ e, c = b ++ e) : ∃ e, c = a ++ e := by
  obtain ⟨e1, rfl⟩ := h1
  obtain ⟨e2, rfl⟩ := h2
  exact ⟨e1 ++ e2, by simp⟩

theorem keys_facts_some {w d : Nat} {ws : List Nat}
    (h : ((w :: ws) ++ [d]).Nodup) :
    ¬ w ∈ ws ∧ ws.Nodup ∧ ¬ d ∈ ws ∧ ¬ d = w := by
  rw [show (w :: ws) ++ [d] = w :: (ws ++ [d]) from rfl, List.nodup_cons] at h
  obtain ⟨hw, hrest⟩ := h
  rw [List.nodup_append] at hrest
  refine ⟨fun hmem => hw (List.mem_append_left _ hmem), hrest.1, ?_, ?_⟩
  · intro hd
    exact hrest.2.2 hd (List.mem_singleton.mpr rfl)
  · intro hdw
    exact hw (List.mem_append_right _ (List.mem_singleton.mpr hdw.symm))

theorem keys_facts_none {w : Nat} {ws : List Nat}
    (h : ((w :: ws) ++ []).Nodup) : ¬ w ∈ ws ∧ ws.Nodup := by
  rw [List.append_nil, List.nodup_cons] at h
  exact h

theorem owned_nodup_some {a b : Nat} {l : List Nat} (hal : ¬ a ∈ l) (hab : ¬ a = b)
    (hbl : ¬ b ∈ l) (hl : l.Nodup) : (a :: (l ++ [b])).Nodup := by
  rw [List.nodup_cons]
  refine ⟨?_, ?_⟩
  · intro hmem
    rcases List.mem_append.mp hmem with hm | hm
    · exact hal hm
    · exact hab (List.mem_singleton.mp hm)
  · rw [List.nodup_append]
    exact ⟨hl, by simp, fun x hx hx2 => hbl ((List.mem_singleton.mp hx2) ▸ hx)⟩

theorem owned_nodup_none {a : Nat} {l : List Nat} (hal : ¬ a ∈ l) (hl : l.Nodup) :
    (a :: (l ++ [])).Nodup := by
  rw [List.append_nil, List.nodup_cons]
  exact ⟨hal, hl⟩

/-- Forward decomposition of the reconciler's tail: everything a successful
run establishes about the returned output and the final account state. -/
theorem provisionTail_fwd (cfg : Config)
    (networkName snapshotZoneIds diskOfferingId zoneId : String)
    (netId webVmId : Nat) (workerVmIds : List Nat) (dbVmId : Option Nat) (s6 : St)
    {o : Output} {s' : St}
    (hips : (s6.ips.map (·.id)).Nodup) (hipfr : ∀ ip ∈ s6.ips, ip.id < s6.fresh)
    (hvolids : (s6.volumes.map (·.id)).Nodup)
    (hvolfr : ∀ v ∈ s6.volumes, v.id < s6.fresh)
    (hkeys : ((assignmentsOf webVmId workerVmIds dbVmId).map (·.2)).Nodup)
    (hrun : provisionTail cfg networkName snapshotZoneIds diskOfferingId zoneId netId
      webVmId workerVmIds dbVmId s6 = .ok (o, s')) :
    o.network_name = networkName ∧
    o.keypair_name = keypairNameOf networkName ∧
    o.network_id = netId ∧
    o.web_vm_id = webVmId ∧
    o.worker_vm_ids = (if cfg.workersEnabled then some workerVmIds else none) ∧
    o.db_vm_id = dbVmId ∧
    s'.networks = s6.networks ∧
    s'.keypairs = s6.keypairs ∧
    s'.vms = s6.vms ∧
    s6.fresh ≤ s'.fresh ∧
    (∃ ext, s'.log = s6.log ++ ext) ∧
    (∃ wip, find_public_ip_for_vm netId webVmId s' = some wip ∧
      wip.id = o.web_ip_id ∧ wip.address = o.web_ip) ∧
    (∃ wIps,
      IpsFact netId workerVmIds wIps s' ∧
      o.worker_ips = (if cfg.workersEnabled then some (wIps.map (·.address)) else none) ∧
      (∀ trip ∈ fwRequired o.web_ip_id (wIps.map (·.id)) o.db_ip_id,
        (find_firewall_rules trip.1 s').any
          (fun r => r.startport == trip.2.1 && r.endport == trip.2.2) = true) ∧
      (o.web_ip_id :: (wIps.map (·.id) ++ o.db_ip_id.toList)).Nodup ∧
      (∃ created, s'.fwRules = s6.fwRules ++ created ∧
        (∀ r ∈ created, r.protocol = "TCP" ∧ r.cidr = "0.0.0.0/0" ∧
          r.startport = r.endport ∧
          (r.startport = 22 ∨ r.startport = 80 ∨ r.startport = 443)) ∧
        ((∀ r ∈ s6.fwRules,
            ¬ r.ipId ∈ o.web_ip_id :: (wIps.map (·.id) ++ o.db_ip_id.toList)) →
          portsOf o.web_ip_id s' = [22, 80, 443] ∧
          ∀ i ∈ o.web_ip_id :: (wIps.map (·.id) ++ o.db_ip_id.toList),
            ¬ i = o.web_ip_id → portsOf i s' = [22]))) ∧
    (∀ d, dbVmId = some d →
      ∃ dip, find_public_ip_for_vm netId d s' = some dip ∧
        o.db_ip_id = some dip.id ∧ o.db_ip = some dip.address) ∧
    (dbVmId = none → o.db_ip_id = none ∧ o.db_ip = none) ∧
    (∃ vb, find_volume (blobDiskNameOf networkName) s' = some vb ∧
      vb.id = o.blob_volume_id ∧ vb.size = cfg.blobDiskSizeGB * 1024 ^ 3 ∧
      vb.vmId.isSome = true) ∧
    (∀ d, dbVmId = some d →
      ∃ dv vdb, o.db_volume_id = some dv ∧
        find_volume (dbDiskNameOf networkName) s' = some vdb ∧
        vdb.id = dv ∧ vdb.size = cfg.dbDiskSizeGB * 1024 ^ 3 ∧
        vdb.vmId.isSome = true) ∧
    (dbVmId = none → o.db_volume_id = none) ∧
    (s'.policies.filter (fun p => p.volumeId == o.blob_volume_id)).isEmpty = false ∧
    (∀ dv, o.db_volume_id = some dv →
      (s'.policies.filter (fun p => p.volumeId == dv)).isEmpty = false) ∧
    get_vm_internal_ip o.web_vm_id s' = some o.web_internal_ip ∧
    (cfg.workersEnabled = true →
      ∃ wiIps, collectInternalIps workerVmIds s' = .ok wiIps ∧
        o.worker_internal_ips = some wiIps) ∧
    (cfg.workersEnabled = false → o.worker_internal_ips = none) ∧
    (∀ d, dbVmId = some d → ∃ di, get_vm_internal_ip d s' = some di ∧
      o.db_internal_ip = some di) ∧
    (dbVmId = none → o.db_internal_ip = none) := by
  have hipfacts := ipPhase_fwd netId (assignmentsOf webVmId workerVmIds dbVmId) s6
    hips hipfr hkeys (ipPhase_run netId (assignmentsOf webVmId workerVmIds dbVmId) s6)
  simp only [provisionTail, ipPhase_run, exbind_ok] at hrun
  set m0 := reuseMapOf netId (assignmentsOf webVmId workerVmIds dbVmId) s6
    ++ ipPairsOf netId (assignmentsOf webVmId workerVmIds dbVmId) s6 with hM
  set s7 := enableAllNat (ipPairsOf netId (assignmentsOf webVmId workerVmIds dbVmId) s6)
    (ipAssocStateOf netId (assignmentsOf webVmId workerVmIds dbVmId) s6) with hS7
  obtain ⟨hN7, hK7, hV7, hVol7, hF7, hP7, hfr7, hlog7, hvfacts, hmids⟩ := hipfacts
  cases hweb : lookupIpMap m0 webVmId with
  | none =>
    simp only [hweb, exbind_err] at hrun
    exact Except.noConfusion hrun
  | some webIp =>
  simp only [hweb, exbind_ok] at hrun
  obtain ⟨pW, wip2, hlkW, hfindW, hidW, haddrW⟩ := hvfacts webVmId (by
    rw [assignmentsOf_keys]
    exact List.mem_append_left _ (List.mem_cons_self _ _))
  rw [hweb] at hlkW
  injection hlkW with hpW
  subst hpW
  cases hcol : collectIps m0 workerVmIds s7 with
  | error e =>
    simp only [hcol, exbind_err] at hrun
    exact Except.noConfusion hrun
  | ok workerIps =>
  simp only [hcol, exbind_ok] at hrun
  have hLF := collectIps_fwd m0 s7 workerVmIds workerIps hcol
  cases dbVmId with
  | some d =>
    obtain ⟨hWnotin, hWSnodup, hDnotin, hDneW⟩ := keys_facts_some
      (show ((webVmId :: workerVmIds) ++ [d]).Nodup from by
        rw [assignmentsOf_keys] at hkeys
        exact hkeys)
    obtain ⟨l2, hl2fact, hl2ids, hl2addrs⟩ := ipsFact_of_lookups netId m0 s7
      ((assignmentsOf webVmId workerVmIds (some d)).map (·.2)) hvfacts workerVmIds
      workerIps hLF (fun v hv => by
        rw [assignmentsOf_keys]
        exact List.mem_append_left _ (List.mem_cons_of_mem _ hv))
    cases hdlk : lookupIpMap m0 d with
    | none =>
      simp only [hdlk, exbind_err] at hrun
      exact Except.noConfusion hrun
    | some dip =>
    simp only [hdlk, exbind_ok, Option.map_some'] at hrun
    obtain ⟨pD, dip2, hlkD, hfindD, hidD, haddrD⟩ := hvfacts d (by
      rw [assignmentsOf_keys]
      exact List.mem_append_right _ (List.mem_singleton.mpr rfl))
    rw [hdlk] at hlkD
    injection hlkD with hpD
    subst hpD
    have hWebNotinIds : ¬ webIp.id ∈ workerIps.map (·.id) :=
      lookups_ids_not_mem hmids hweb hLF hWnotin
    have hDipNotinIds : ¬ dip.id ∈ workerIps.map (·.id) :=
      lookups_ids_not_mem hmids hdlk hLF hDnotin
    have hWneD : ¬ webIp.id = dip.id :=
      lookupIpMap_key hweb hdlk hmids (fun h => hDneW h.symm)
    have hIdsNodup : (workerIps.map (·.id)).Nodup := lookups_ids_nodup hmids hLF hWSnodup
    have hOwnedNodup : (webIp.id :: (workerIps.map (·.id) ++ [dip.id])).Nodup :=
      owned_nodup_some hWebNotinIds hWneD hDipNotinIds hIdsNodup
    obtain ⟨fwN, fwK, fwV, fwVol, fwI, fwP, fwFr, fwExt, fwLog⟩ :=
      applyFwRules_frame (fwRequired webIp.id (List.map (fun x => x.id) workerIps)
        (some dip.id)) s7
    obtain ⟨created0, hcreated0, hcrshape⟩ :=
      fwStep_created_shape webIp.id (List.map (fun x => x.id) workerIps) (some dip.id) s7
    have hfwany := fwStep_any (fwRequired webIp.id (List.map (fun x => x.id) workerIps)
      (some dip.id)) s7
    set s8 := applyFwRules (fwRequired webIp.id (List.map (fun x => x.id) workerIps)
      (some dip.id)) s7 with hS8
    have hvol8eq : s8.volumes = s6.volumes := by rw [fwVol, hVol7]
    have hvol8ids : (s8.volumes.map (·.id)).Nodup := by rw [hvol8eq]; exact hvolids
    have hvol8fr : ∀ v ∈ s8.volumes, v.id < s8.fresh := by
      rw [hvol8eq]
      intro v hv
      exact lt_of_lt_of_le (hvolfr v hv) (le_trans hfr7 fwFr)
    cases hbd : create_disk (blobDiskNameOf networkName) diskOfferingId zoneId
        cfg.blobDiskSizeGB webVmId networkName s8 with
    | error e =>
      simp only [hbd, exbind_err] at hrun
      exact Except.noConfusion hrun
    | ok pr =>
    obtain ⟨blobVolId, s9⟩ := pr
    simp only [hbd, exbind_ok] at hrun
    obtain ⟨bN, bK, bV, bI, bF, bP, bFr, bLog, ⟨vb9, hvb9, hvb9id, hvb9sz, hvb9att⟩, _⟩ :=
      create_disk_fwd hbd
    obtain ⟨bPresFind, bIds, bBound⟩ := create_disk_pres hbd hvol8ids hvol8fr
    cases hdd : create_disk (dbDiskNameOf networkName) diskOfferingId zoneId
        cfg.dbDiskSizeGB d networkName s9 with
    | error e =>
      simp only [hdd, exbind_err] at hrun
      exact Except.noConfusion hrun
    | ok pr2 =>
    obtain ⟨dbVolId0, s10⟩ := pr2
    simp only [hdd, exbind_ok] at hrun
    obtain ⟨dN, dK, dV, dI, dF, dP, dFr, dLog,
      ⟨vdb10, hvdb10find, hvdb10id, hvdb10sz, hvdb10att⟩, _⟩ := create_disk_fwd hdd
    obtain ⟨dPresFind, dIds, dBound⟩ := create_disk_pres hdd bIds bBound
    obtain ⟨vb10, hvb10find, hvb10id, hvb10sz, hvb10att⟩ :=
      dPresFind (blobDiskNameOf networkName) vb9 hvb9
        (blobDiskNameOf_ne_dbDiskNameOf networkName)
    obtain ⟨p1N, p1K, p1V, p1Vol, p1I, p1F, p1Fr, p1Log, p1Pext, p1NE⟩ :=
      create_snapshot_policy_fwd blobVolId networkName snapshotZoneIds s10
    set s11 := create_snapshot_policy blobVolId networkName snapshotZoneIds s10 with hS11
    obtain ⟨p2N, p2K, p2V, p2Vol, p2I, p2F, p2Fr, p2Log, p2Pext, p2NE⟩ :=
      create_snapshot_policy_fwd dbVolId0 networkName snapshotZoneIds s11
    set s12 := create_snapshot_policy dbVolId0 networkName snapshotZoneIds s11 with hS12
    have hNET : s12.networks = s6.networks := by rw [p2N, p1N, dN, bN, fwN, hN7]
    have hKP : s12.keypairs = s6.keypairs := by rw [p2K, p1K, dK, bK, fwK, hK7]
    have hVMS : s12.vms = s6.vms := by rw [p2V, p1V, dV, bV, fwV, hV7]
    have hIPS : s12.ips = s7.ips := by rw [p2I, p1I, dI, bI, fwI]
    have hFWR : s12.fwRules = s8.fwRules := by rw [p2F, p1F, dF, bF]
    have hVOLS : s12.volumes = s10.volumes := by rw [p2Vol, p1Vol]
    have hFRESH : s6.fresh ≤ s12.fresh :=
      le_trans hfr7 (le_trans fwFr (le_trans bFr (le_trans dFr (le_trans p1Fr p2Fr))))
    have hLOG : ∃ ext, s12.log = s6.log ++ ext :=
      append_ext_trans (append_ext_trans (append_ext_trans (append_ext_trans
        (append_ext_trans hlog7 fwLog) bLog) dLog) p1Log) p2Log
    have hPolB : (s12.policies.filter (fun p => p.volumeId == blobVolId)).isEmpty = false :=
      policy_nonempty_mono p2Pext p1NE
    cases hwint : get_vm_internal_ip webVmId s12 with
    | none =>
      simp only [hwint, exbind_err] at hrun
      exact Except.noConfusion hrun
    | some webInt =>
    simp only [hwint, exbind_ok] at hrun
    cases hwe : cfg.workersEnabled with
    | true =>
      simp only [hwe, if_true] at hrun
      cases hwcoll : collectInternalIps workerVmIds s12 with
      | error e =>
        simp only [hwcoll, exbind_err] at hrun
        exact Except.noConfusion hrun
      | ok wInts =>
      simp only [hwcoll, exbind_ok] at hrun
      cases hdint : get_vm_internal_ip d s12 with
      | none =>
        simp only [hdint, exbind_err] at hrun
        exact Except.noConfusion hrun
      | some dInt =>
      simp only [hdint, exbind_ok, expure_eq] at hrun
      rw [Except.ok.injEq, Prod.mk.injEq] at hrun
      obtain ⟨ho, hsfin⟩ := hrun
      subst hsfin
      subst ho
      refine ⟨rfl, rfl, rfl, rfl, rfl, rfl, hNET, hKP, hVMS, hFRESH, hLOG,
        ⟨wip2, ?_, hidW, haddrW⟩,
        ⟨l2, ipsFact_congr netId hIPS hl2fact, ?_, ?_, ?_, created0, ?_, hcrshape, ?_⟩,
        ?_, fun h => Option.noConfusion h,
        ⟨vb10, ?_, ?_, ?_, ?_⟩, ?_, fun h => Option.noConfusion h,
        hPolB, ?_, hwint, fun _ => ⟨wInts, hwcoll, rfl⟩, ?_, ?_,
        fun h => Option.noConfusion h⟩
      · show find_public_ip_for_vm netId webVmId s12 = some wip2
        rw [find_public_ip_congr hIPS]
        exact hfindW
      · rw [hl2addrs]
        rfl
      · intro trip htrip
        show (find_firewall_rules trip.1 s12).any
          (fun r => r.startport == trip.2.1 && r.endport == trip.2.2) = true
        rw [find_firewall_rules_congr hFWR]
        rw [hl2ids] at htrip
        exact hfwany trip htrip
      · show (webIp.id :: (List.map (fun x => x.id) l2 ++ [dip.id])).Nodup
        rw [hl2ids]
        exact hOwnedNodup
      · show s12.fwRules = s6.fwRules ++ created0
        rw [hFWR, hcreated0, hF7]
      · intro hpr
        have hpr7 : ∀ r ∈ s7.fwRules,
            ¬ r.ipId ∈ webIp.id :: (List.map (fun x => x.id) workerIps ++ [dip.id]) := by
          intro r hr
          rw [hF7] at hr
          have hthis := hpr r hr
          rw [hl2ids] at hthis
          exact hthis
        have hex := @fwStep_exact webIp.id (List.map (fun x => x.id) workerIps)
          (some dip.id) s7 hOwnedNodup hpr7
        refine ⟨?_, ?_⟩
        · show portsOf webIp.id s12 = [22, 80, 443]
          rw [portsOf_congr hFWR]
          exact hex.1
        · intro i hi hine
          show portsOf i s12 = [22]
          rw [portsOf_congr hFWR]
          rw [hl2ids] at hi
          exact hex.2 i hi hine
      · intro d' heq
        injection heq with hd'
        subst hd'
        refine ⟨dip2, ?_, ?_, ?_⟩
        · show find_public_ip_for_vm netId d s12 = some dip2
          rw [find_public_ip_congr hIPS]
          exact hfindD
        · show (some dip.id : Option Nat) = some dip2.id
          rw [hidD]
        · show (some dip.address : Option String) = some dip2.address
          rw [haddrD]
      · show find_volume (blobDiskNameOf networkName) s12 = some vb10
        rw [find_volume_congr hVOLS]
        exact hvb10find
      · show vb10.id = blobVolId
        rw [hvb10id, hvb9id]
      · rw [hvb10sz, hvb9sz]
      · rw [hvb10att]
        exact hvb9att
      · intro d' heq
        refine ⟨dbVolId0, vdb10, rfl, ?_, hvdb10id, hvdb10sz, hvdb10att⟩
        show find_volume (dbDiskNameOf networkName) s12 = some vdb10
        rw [find_volume_congr hVOLS]
        exact hvdb10find
      · intro dv heq
        injection heq with hdv
        subst hdv
        exact p2NE
      · intro h
        exact Bool.noConfusion h
      · intro d' heq
        injection heq with hd'
        subst hd'
        exact ⟨dInt, hdint, rfl⟩
    | false =>
      simp only [hwe, Bool.false_eq_true, if_false] at hrun
      cases hdint : get_vm_internal_ip d s12 with
      | none =>
        simp only [hdint, exbind_err] at hrun
        exact Except.noConfusion hrun
      | some dInt =>
      simp only [hdint, exbind_ok, expure_eq] at hrun
      rw [Except.ok.injEq, Prod.mk.injEq] at hrun
      obtain ⟨ho, hsfin⟩ := hrun
      subst hsfin
      subst ho
      refine ⟨rfl, rfl, rfl, rfl, rfl, rfl, hNET, hKP, hVMS, hFRESH, hLOG,
        ⟨wip2, ?_, hidW, haddrW⟩,
        ⟨l2, ipsFact_congr netId hIPS hl2fact, rfl, ?_, ?_, created0, ?_,
          hcrshape, ?_⟩,
        ?_, fun h => Option.noConfusion h,
        ⟨vb10, ?_, ?_, ?_, ?_⟩, ?_, fun h => Option.noConfusion h,
        hPolB, ?_, hwint, ?_, fun _ => rfl, ?_,
        fun h => Option.noConfusion h⟩
      · show find_public_ip_for_vm netId webVmId s12 = some wip2
        rw [find_public_ip_congr hIPS]
        exact hfindW
      · intro trip htrip
        show (find_firewall_rules trip.1 s12).any
          (fun r => r.startport == trip.2.1 && r.endport == trip.2.2) = true
        rw [find_firewall_rules_congr hFWR]
        rw [hl2ids] at htrip
        exact hfwany trip htrip
      · show (webIp.id :: (List.map (fun x => x.id) l2 ++ [dip.id])).Nodup
        rw [hl2ids]
        exact hOwnedNodup
      · show s12.fwRules = s6.fwRules ++ created0
        rw [hFWR, hcreated0, hF7]
      · intro hpr
        have hpr7 : ∀ r ∈ s7.fwRules,
            ¬ r.ipId ∈ webIp.id :: (List.map (fun x => x.id) workerIps ++ [dip.id]) := by
          intro r hr
          rw [hF7] at hr
          have hthis := hpr r hr
          rw [hl2ids] at hthis
          exact hthis
        have hex := @fwStep_exact webIp.id (List.map (fun x => x.id) workerIps)
          (some dip.id) s7 hOwnedNodup hpr7
        refine ⟨?_, ?_⟩
        · show portsOf webIp.id s12 = [22, 80, 443]
          rw [portsOf_congr hFWR]
          exact hex.1
        · intro i hi hine
          show portsOf i s12 = [22]
          rw [portsOf_congr hFWR]
          rw [hl2ids] at hi
          exact hex.2 i hi hine
      · intro d' heq
        injection heq with hd'
        subst hd'
        refine ⟨dip2, ?_, ?_, ?_⟩
        · show find_public_ip_for_vm netId d s12 = some dip2
          rw [find_public_ip_congr hIPS]
          exact hfindD
        · show (some dip.id : Option Nat) = some dip2.id
          rw [hidD]
        · show (some dip.address : Option String) = some dip2.address
          rw [haddrD]
      · show find_volume (blobDiskNameOf networkName) s12 = some vb10
        rw [find_volume_congr hVOLS]
        exact hvb10find
      · show vb10.id = blobVolId
        rw [hvb10id, hvb9id]
      · rw [hvb10sz, hvb9sz]
      · rw [hvb10att]
        exact hvb9att
      · intro d' heq
        refine ⟨dbVolId0, vdb10, rfl, ?_, hvdb10id, hvdb10sz, hvdb10att⟩
        show find_volume (dbDiskNameOf networkName) s12 = some vdb10
        rw [find_volume_congr hVOLS]
        exact hvdb10find
      · intro dv heq
        injection heq with hdv
        subst hdv
        exact p2NE
      · intro h
        exact Bool.noConfusion h
      · intro d' heq
        injection heq with hd'
        subst hd'
        exact ⟨dInt, hdint, rfl⟩
  | none =>
    obtain ⟨hWnotin, hWSnodup⟩ := keys_facts_none
      (show ((webVmId :: workerVmIds) ++ []).Nodup from by
        rw [assignmentsOf_keys] at hkeys
        exact hkeys)
    obtain ⟨l2, hl2fact, hl2ids, hl2addrs⟩ := ipsFact_of_lookups netId m0 s7
      ((assignmentsOf webVmId workerVmIds none).map (·.2)) hvfacts workerVmIds
      workerIps hLF (fun v hv => by
        rw [assignmentsOf_keys]
        exact List.mem_append_left _ (List.mem_cons_of_mem _ hv))
    simp only [Option.map_none'] at hrun
    have hWebNotinIds : ¬ webIp.id ∈ workerIps.map (·.id) :=
      lookups_ids_not_mem hmids hweb hLF hWnotin
    have hIdsNodup : (workerIps.map (·.id)).Nodup := lookups_ids_nodup hmids hLF hWSnodup
    have hOwnedNodup : (webIp.id :: (workerIps.map (·.id) ++ [])).Nodup :=
      owned_nodup_none hWebNotinIds hIdsNodup
    obtain ⟨fwN, fwK, fwV, fwVol, fwI, fwP, fwFr, fwExt, fwLog⟩ :=
      applyFwRules_frame (fwRequired webIp.id (List.map (fun x => x.id) workerIps)
        none) s7
    obtain ⟨created0, hcreated0, hcrshape⟩ :=
      fwStep_created_shape webIp.id (List.map (fun x => x.id) workerIps) none s7
    have hfwany := fwStep_any (fwRequired webIp.id (List.map (fun x => x.id) workerIps)
      none) s7
    set s8 := applyFwRules (fwRequired webIp.id (List.map (fun x => x.id) workerIps)
      none) s7 with hS8
    have hvol8eq : s8.volumes = s6.volumes := by rw [fwVol, hVol7]
    have hvol8ids : (s8.volumes.map (·.id)).Nodup := by rw [hvol8eq]; exact hvolids
    have hvol8fr : ∀ v ∈ s8.volumes, v.id < s8.fresh := by
      rw [hvol8eq]
      intro v hv
      exact lt_of_lt_of_le (hvolfr v hv) (le_trans hfr7 fwFr)
    cases hbd : create_disk (blobDiskNameOf networkName) diskOfferingId zoneId
        cfg.blobDiskSizeGB webVmId networkName s8 with
    | error e =>
      simp only [hbd, exbind_err] at hrun
      exact Except.noConfusion hrun
    | ok pr =>
    obtain ⟨blobVolId, s9⟩ := pr
    simp only [hbd, exbind_ok] at hrun
    obtain ⟨bN, bK, bV, bI, bF, bP, bFr, bLog, ⟨vb9, hvb9, hvb9id, hvb9sz, hvb9att⟩, _⟩ :=
      create_disk_fwd hbd
    obtain ⟨p1N, p1K, p1V, p1Vol, p1I, p1F, p1Fr, p1Log, p1Pext, p1NE⟩ :=
      create_snapshot_policy_fwd blobVolId networkName snapshotZoneIds s9
    set s11 := create_snapshot_policy blobVolId networkName snapshotZoneIds s9 with hS11
    have hNET : s11.networks = s6.networks := by rw [p1N, bN, fwN, hN7]
    have hKP : s11.keypairs = s6.keypairs := by rw [p1K, bK, fwK, hK7]
    have hVMS : s11.vms = s6.vms := by rw [p1V, bV, fwV, hV7]
    have hIPS : s11.ips = s7.ips := by rw [p1I, bI, fwI]
    have hFWR : s11.fwRules = s8.fwRules := by rw [p1F, bF]
    have hVOLS : s11.volumes = s9.volumes := p1Vol
    have hFRESH : s6.fresh ≤ s11.fresh :=
      le_trans hfr7 (le_trans fwFr (le_trans bFr p1Fr))
    have hLOG : ∃ ext, s11.log = s6.log ++ ext :=
      append_ext_trans (append_ext_trans (append_ext_trans hlog7 fwLog) bLog) p1Log
    cases hwint : get_vm_internal_ip webVmId s11 with
    | none =>
      simp only [hwint, exbind_err] at hrun
      exact Except.noConfusion hrun
    | some webInt =>
    simp only [hwint, exbind_ok] at hrun
    cases hwe : cfg.workersEnabled with
    | true =>
      simp only [hwe, if_true] at hrun
      cases hwcoll : collectInternalIps workerVmIds s11 with
      | error e =>
        simp only [hwcoll, exbind_err] at hrun
        exact Except.noConfusion hrun
      | ok wInts =>
      simp only [hwcoll, exbind_ok, expure_eq] at hrun
      rw [Except.ok.injEq, Prod.mk.injEq] at hrun
      obtain ⟨ho, hsfin⟩ := hrun
      subst hsfin
      subst ho
      refine ⟨rfl, rfl, rfl, rfl, rfl, rfl, hNET, hKP, hVMS, hFRESH, hLOG,
        ⟨wip2, ?_, hidW, haddrW⟩,
        ⟨l2, ipsFact_congr netId hIPS hl2fact, ?_, ?_, ?_, created0, ?_, hcrshape, ?_⟩,
        fun d h => Option.noConfusion h, fun _ => ⟨rfl, rfl⟩,
        ⟨vb9, ?_, hvb9id, hvb9sz, hvb9att⟩, fun d h => Option.noConfusion h,
        fun _ => rfl, p1NE, fun dv h => Option.noConfusion h, hwint,
        fun _ => ⟨wInts, hwcoll, rfl⟩, ?_, fun d h => Option.noConfusion h,
        fun _ => rfl⟩
      · show find_public_ip_for_vm netId webVmId s11 = some wip2
        rw [find_public_ip_congr hIPS]
        exact hfindW
      · rw [hl2addrs]
        rfl
      · intro trip htrip
        show (find_firewall_rules trip.1 s11).any
          (fun r => r.startport == trip.2.1 && r.endport == trip.2.2) = true
        rw [find_firewall_rules_congr hFWR]
        rw [hl2ids] at htrip
        exact hfwany trip htrip
      · show (webIp.id :: (List.map (fun x => x.id) l2 ++ [])).Nodup
        rw [hl2ids]
        exact hOwnedNodup
      · show s11.fwRules = s6.fwRules ++ created0
        rw [hFWR, hcreated0, hF7]
      · intro hpr
        have hpr7 : ∀ r ∈ s7.fwRules,
            ¬ r.ipId ∈ webIp.id :: (List.map (fun x => x.id) workerIps ++ []) := by
          intro r hr
          rw [hF7] at hr
          have hthis := hpr r hr
          rw [hl2ids] at hthis
          exact hthis
        have hex := @fwStep_exact webIp.id (List.map (fun x => x.id) workerIps)
          none s7 hOwnedNodup hpr7
        refine ⟨?_, ?_⟩
        · show portsOf webIp.id s11 = [22, 80, 443]
          rw [portsOf_congr hFWR]
          exact hex.1
        · intro i hi hine
          show portsOf i s11 = [22]
          rw [portsOf_congr hFWR]
          rw [hl2ids] at hi
          exact hex.2 i hi hine
      · show find_volume (blobDiskNameOf networkName) s11 = some vb9
        rw [find_volume_congr hVOLS]
        exact hvb9
      · intro h
        exact Bool.noConfusion h
    | false =>
      simp only [hwe, Bool.false_eq_true, if_false, expure_eq] at hrun
      rw [Except.ok.injEq, Prod.mk.injEq] at hrun
      obtain ⟨ho, hsfin⟩ := hrun
      subst hsfin
      subst ho
      refine ⟨rfl, rfl, rfl, rfl, rfl, rfl, hNET, hKP, hVMS, hFRESH, hLOG,
        ⟨wip2, ?_, hidW, haddrW⟩,
        ⟨l2, ipsFact_congr netId hIPS hl2fact, rfl, ?_, ?_, created0, ?_,
          hcrshape, ?_⟩,
        fun d h => Option.noConfusion h, fun _ => ⟨rfl, rfl⟩,
        ⟨vb9, ?_, hvb9id, hvb9sz, hvb9att⟩, fun d h => Option.noConfusion h,
        fun _ => rfl, p1NE, fun dv h => Option.noConfusion h, hwint, ?_,
        fun _ => rfl, fun d h => Option.noConfusion h, fun _ => rfl⟩
      · show find_public_ip_for_vm netId webVmId s11 = some wip2
        rw [find_public_ip_congr hIPS]
        exact hfindW
      · intro trip htrip
        show (find_firewall_rules trip.1 s11).any
          (fun r => r.startport == trip.2.1 && r.endport == trip.2.2) = true
        rw [find_firewall_rules_congr hFWR]
        rw [hl2ids] at htrip
        exact hfwany trip htrip
      · show (webIp.id :: (List.map (fun x => x.id) l2 ++ [])).Nodup
        rw [hl2ids]
        exact hOwnedNodup
      · show s11.fwRules = s6.fwRules ++ created0
        rw [hFWR, hcreated0, hF7]
      · intro hpr
        have hpr7 : ∀ r ∈ s7.fwRules,
            ¬ r.ipId ∈ webIp.id :: (List.map (fun x => x.id) workerIps ++ []) := by
          intro r hr
          rw [hF7] at hr
          have hthis := hpr r hr
          rw [hl2ids] at hthis
          exact hthis
        have hex := @fwStep_exact webIp.id (List.map (fun x => x.id) workerIps)
          none s7 hOwnedNodup hpr7
        refine ⟨?_, ?_⟩
        · show portsOf webIp.id s11 = [22, 80, 443]
          rw [portsOf_congr hFWR]
          exact hex.1
        · intro i hi hine
          show portsOf i s11 = [22]
          rw [portsOf_congr hFWR]
          rw [hl2ids] at hi
          exact hex.2 i hi hine
      · show find_volume (blobDiskNameOf networkName) s11 = some vb9
        rw [find_volume_congr hVOLS]
        exact hvb9
      · intro h
        exact Bool.noConfusion h

/-! ## Worker-deployment facts: membership, distinctness, transfer -/

theorem workersFact_mem (net : String) :
    ∀ {i : Nat} {ids : List Nat} {off : String} {s : St}, WorkersFact net i ids off s →
      ∀ v ∈ ids, ∃ k vm, i ≤ k ∧ k < i + ids.length ∧
        find_vm (workerVmNameOf net k) s = some vm ∧ vm.id = v := by
  intro i ids
  induction ids generalizing i with
  | nil => intro off s _ v hv; cases hv
  | cons vid rest ih =>
    intro off s hf v hv
    obtain ⟨⟨vm1, hfind, hid, _⟩, htail⟩ := hf
    rcases List.mem_cons.mp hv with rfl | hmem
    · exact ⟨i, vm1, le_refl _, by simp, hfind, hid⟩
    · obtain ⟨k, vm, hk, hk2, hfind2, hid2⟩ := ih htail v hmem
      exact ⟨k, vm, by omega, by simp only [List.length_cons]; omega, hfind2, hid2⟩

theorem workersFact_nodup (net : String) :
    ∀ {i : Nat} {ids : List Nat} {off : String} {s : St}, WorkersFact net i ids off s →
      (s.vms.map (·.id)).Nodup → ids.Nodup := by
  intro i ids
  induction ids generalizing i with
  | nil => intro off s _ _; simp
  | cons vid rest ih =>
    intro off s hf hnd
    obtain ⟨⟨vm1, hfind, hid, _⟩, htail⟩ := hf
    rw [List.nodup_cons]
    refine ⟨?_, ih htail hnd⟩
    intro hmem
    obtain ⟨k, vm, hk, _, hfind2, hid2⟩ := workersFact_mem net htail vid hmem
    have heqvm : vm = vm1 := List.inj_on_of_nodup_map hnd (find_vm_mem hfind2)
      (find_vm_mem hfind) (by rw [hid2, hid])
    have hnames : workerVmNameOf net k = workerVmNameOf net i := by
      rw [← find_vm_name hfind2, heqvm, find_vm_name hfind]
    have := workerVmNameOf_inj hnames
    omega

theorem workersFact_pres {net : String} :
    ∀ {i : Nat} {ids : List Nat} {off : String} {s s1 : St},
      WorkersFact net i ids off s →
      (∀ k v, i ≤ k → k < i + ids.length →
        find_vm (workerVmNameOf net k) s = some v →
        ∃ v1, find_vm (workerVmNameOf net k) s1 = some v1 ∧ v1.id = v.id ∧
          v1.offering = v.offering) →
      WorkersFact net i ids off s1 := by
  intro i ids
  induction ids generalizing i with
  | nil => intro off s s1 _ _; trivial
  | cons vid rest ih =>
    intro off s s1 hf hpres
    obtain ⟨⟨vm1, hfind, hid, hoff⟩, htail⟩ := hf
    obtain ⟨v1, hv1, hid1, hoff1⟩ := hpres i vm1 (le_refl _) (by simp) hfind
    refine ⟨⟨v1, hv1, by rw [hid1, hid], by rw [hoff1]; exact hoff⟩, ?_⟩
    exact ih htail (fun k v hk hk2 hfd => hpres k v (by omega)
      (by simp only [List.length_cons]; omega) hfd)

theorem deployWorkersLoop_pres_out (env : Env) (net : String)
    (offId tmplId zoneId : String) (netId : Nat) (kp : String) :
    ∀ (count i : Nat) (s : St) (ids : List Nat) (s1 : St),
      deployWorkersLoop env net offId tmplId zoneId netId kp i count s = (ids, s1) →
      WF s →
      ∀ n v, find_vm n s = some v →
        (∀ j, i ≤ j → j < i + count → ¬ n = workerVmNameOf net j) →
        ∃ v1, find_vm n s1 = some v1 ∧ v1.id = v.id ∧ v1.name = v.name ∧
          v1.offering = v.offering := by
  intro count
  induction count with
  | zero =>
    intro i s ids s1 h _ n v hv _
    unfold deployWorkersLoop at h
    simp only [Prod.mk.injEq] at h
    rw [← h.2]
    exact ⟨v, hv, rfl, rfl, rfl⟩
  | succ c ihc =>
    intro i s ids s1 h hwf n v hv hout
    unfold deployWorkersLoop at h
    cases hd : deploy_vm env (workerVmNameOf net i) offId tmplId zoneId netId kp s with
    | mk wid sA =>
    rw [hd] at h
    dsimp only at h
    cases hr : deployWorkersLoop env net offId tmplId zoneId netId kp (i + 1) c sA with
    | mk rest sB =>
    rw [hr] at h
    dsimp only at h
    simp only [Prod.mk.injEq] at h
    rw [← h.2]
    obtain ⟨dpres, _, _, dwf⟩ := deploy_vm_pres hd hwf.1
    obtain ⟨vA, hvA, hidA, hnameA, hoffA⟩ := dpres n v hv (hout i (le_refl _) (by omega))
    obtain ⟨vB, hvB, hidB, hnameB, hoffB⟩ := ihc (i + 1) sA rest sB hr (dwf hwf) n vA hvA
      (fun j hj hj2 => hout j (by omega) (by omega))
    exact ⟨vB, hvB, by rw [hidB, hidA], by rw [hnameB, hnameA], by rw [hoffB, hoffA]⟩

/-! ## The set of IPs the reconciler owns after a run (claim C6's reading) -/

/-- The role VM ids recorded in a `ProvisionOutput`, in role order. -/
def rolesVmIdsOf (o : Output) : List Nat :=
  o.web_vm_id :: ((match o.worker_vm_ids with | some l => l | none => [])
    ++ o.db_vm_id.toList)

/-- The ids of the public IPs NATed to the output's role VMs: the IPs the
reconciler considers its own after a run. -/
def ownedIpIds (o : Output) (s : St) : List Nat :=
  (rolesVmIdsOf o).filterMap fun v => (find_public_ip_for_vm o.network_id v s).map (·.id)

theorem ipsFact_filterMap (netId : Nat) :
    ∀ {vids : List Nat} {ips : List IpR} {s : St}, IpsFact netId vids ips s →
      (vids.filterMap fun v => (find_public_ip_for_vm netId v s).map (·.id))
        = ips.map (·.id) := by
  intro vids
  induction vids with
  | nil =>
    intro ips s hf
    cases ips with
    | nil => rfl
    | cons ip rest => cases hf
  | cons v rest ih =>
    intro ips s hf
    cases ips with
    | nil => cases hf
    | cons ip ips' =>
      obtain ⟨hfind, htail⟩ := hf
      rw [List.filterMap_cons, hfind]
      simp only [Option.map_some']
      rw [List.map_cons, ih htail]

/-- From the facts the deployment phases establish, the scale-down +- tail
of the reconciler yields convergence, the excess-worker post, and the
firewall post.  Shared spine of the run-1 analysis. -/
theorem post_deploy_assemble (env : Env) (cfg : Config) (repoName uniqueId : String)
    (zoneId netOffId diskOffId webOffId workerOffId dbOffId tmplId snapZoneIds : String)
    (netId webVmId desired : Nat) (wids : List Nat) (dbVm : Option Nat)
    (s s5 : St) {o : Output} {s' : St}
    (hwf5 : WF s5)
    (hdes : desired = if cfg.workersEnabled then cfg.workersReplicas else 0)
    (hz : resolve_zone env cfg.zone = .ok zoneId)
    (hno : resolve_network_offering env NETWORK_OFFERING_NAME = .ok netOffId)
    (hdo : resolve_disk_offering env DISK_OFFERING_NAME = .ok diskOffId)
    (hwo : resolve_service_offering env cfg.webPlan = .ok webOffId)
    (htm : discover_template env.templates zoneId = .ok tmplId)
    (hwoE : cfg.workersEnabled = true →
      resolve_service_offering env cfg.workersPlan = .ok workerOffId)
    (hwoD : cfg.workersEnabled = false → workerOffId = "")
    (hdoE : cfg.dbEnabled = true → resolve_service_offering env cfg.dbPlan = .ok dbOffId)
    (hdoD : cfg.dbEnabled = false → dbOffId = "")
    (hnet5 : find_network (networkNameOf repoName uniqueId) s5 = some netId)
    (hkp5 : find_keypair (keypairNameOf (networkNameOf repoName uniqueId)) s5 = true)
    (hweb5 : ∃ vmW, find_vm (webVmNameOf (networkNameOf repoName uniqueId)) s5 = some vmW ∧
      vmW.id = webVmId ∧ (vmW.offering = webOffId ∨ vmW.offering = ""))
    (hwfact5 : WorkersFact (networkNameOf repoName uniqueId) 1 wids workerOffId s5)
    (hwlen : cfg.workersEnabled = true → wids.length = cfg.workersReplicas)
    (hwnil : cfg.workersEnabled = false → wids = [])
    (hdb5 : ∀ d, dbVm = some d →
      ∃ vmD, find_vm (dbVmNameOf (networkNameOf repoName uniqueId)) s5 = some vmD ∧
        vmD.id = d ∧ (vmD.offering = dbOffId ∨ vmD.offering = ""))
    (hdbE : cfg.dbEnabled = true → ∃ d, dbVm = some d)
    (hdbD : cfg.dbEnabled = false → dbVm = none)
    (hkeys : ((assignmentsOf webVmId wids dbVm).map (·.2)).Nodup)
    (hvms5 : ∀ vm ∈ s.vms, ∃ v1 ∈ s5.vms, v1.id = vm.id ∧ v1.name = vm.name)
    (hfw5 : s5.fwRules = s.fwRules)
    (hips5 : s5.ips = s.ips)
    (hlog5 : ∃ pre, s5.log = s.log ++ pre)
    (hchain5 : (∀ k, 1 ≤ k →
        (find_vm (workerVmNameOf (networkNameOf repoName uniqueId) (k + 1)) s).isSome
          = true →
        (find_vm (workerVmNameOf (networkNameOf repoName uniqueId) k) s).isSome = true) →
      ∀ k, desired + 1 ≤ k →
        (find_vm (workerVmNameOf (networkNameOf repoName uniqueId) (k + 1)) s5).isSome
          = true →
        (find_vm (workerVmNameOf (networkNameOf repoName uniqueId) k) s5).isSome = true)
    (hrun : provisionTail cfg (networkNameOf repoName uniqueId) snapZoneIds diskOffId
      zoneId netId webVmId wids dbVm
      (removeExcessLoop (networkNameOf repoName uniqueId) netId (desired + 1) s5)
      = .ok (o, s')) :
    Converged env cfg repoName uniqueId o s' ∧
    ((∀ k, 1 ≤ k →
        (find_vm (workerVmNameOf (networkNameOf repoName uniqueId) (k + 1)) s).isSome
          = true →
        (find_vm (workerVmNameOf (networkNameOf repoName uniqueId) k) s).isSome = true) →
      (∀ k, desired < k →
        find_vm (workerVmNameOf (networkNameOf repoName uniqueId) k) s' = none) ∧
      (∃ (pre : List Cmd) (segs : List (List Cmd)) (post : List Cmd),
        s'.log = s.log ++ pre ++ segs.flatten ++ post ∧
        (∀ seg ∈ segs, ∃ vmId, removalSeg vmId seg) ∧
        (∀ vm ∈ s.vms, ∀ k, desired < k →
          vm.name = workerVmNameOf (networkNameOf repoName uniqueId) k →
          ∃ seg ∈ segs, removalSeg vm.id seg) ∧
        ((s.fwRules.map (·.id)).Nodup →
          ∀ vm ∈ s.vms, ∀ k, desired < k →
            vm.name = workerVmNameOf (networkNameOf repoName uniqueId) k →
            ∃ seg ∈ segs, removalSegFor o.network_id s vm.id seg))) ∧
    (∃ wIpIds kept created,
      ownedIpIds o s' = o.web_ip_id :: (wIpIds ++ o.db_ip_id.toList) ∧
      s'.fwRules = kept ++ created ∧
      kept.Sublist s.fwRules ∧
      (∀ r ∈ created, r.protocol = "TCP" ∧ r.cidr = "0.0.0.0/0" ∧
        r.startport = r.endport ∧
        (r.startport = 22 ∨ r.startport = 80 ∨ r.startport = 443)) ∧
      ((∀ r ∈ kept, ¬ r.ipId ∈ o.web_ip_id :: (wIpIds ++ o.db_ip_id.toList)) →
        portsOf o.web_ip_id s' = [22, 80, 443] ∧
        ∀ i ∈ o.web_ip_id :: (wIpIds ++ o.db_ip_id.toList), ¬ i = o.web_ip_id →
          portsOf i s' = [22])) := by
  have hwidsle : wids.length ≤ desired := by
    cases hwe2 : cfg.workersEnabled with
    | true =>
      rw [hwlen hwe2, hdes, hwe2]
      simp
    | false =>
      rw [hwnil hwe2]
      simp
  have hrem := removeExcessLoop_spec (networkNameOf repoName uniqueId) netId s5
    (desired + 1) hwf5.1 (fun k _ => filter_length_le_one hwf5.2.1
      (fun x hx => by simpa using hx))
  unfold RemovalLoopFacts at hrem
  set s6 := removeExcessLoop (networkNameOf repoName uniqueId) netId (desired + 1) s5
    with hS6
  obtain ⟨r1, r2, r3, r4, r5, r6, r7, r8, r9, r10, r11, segs, rlog, rsegshape, rsegall,
    rsegfor⟩ := hrem
  have hips6 : (s6.ips.map (·.id)).Nodup :=
    List.Nodup.sublist (List.Sublist.map _ r7) hwf5.2.2.1
  have hipfr6 : ∀ ip ∈ s6.ips, ip.id < s6.fresh := by
    intro ip hip
    rw [r5]
    exact hwf5.2.2.2.2.2.1 ip (r7.subset hip)
  have hvol6ids : (s6.volumes.map (·.id)).Nodup := by
    rw [r3]
    exact hwf5.2.2.2.1
  have hvol6fr : ∀ v ∈ s6.volumes, v.id < s6.fresh := by
    rw [r3, r5]
    exact hwf5.2.2.2.2.2.2
  obtain ⟨t1, t2, t3, t4, t5, t6, t7, t8, t9, t10, t11, t12, t13, t14, t15, t16, t17,
    t18, t19, t20, t21, t22, t23, t24, t25⟩ := provisionTail_fwd cfg
    (networkNameOf repoName uniqueId) snapZoneIds diskOffId zoneId netId webVmId wids
    dbVm s6 hips6 hipfr6 hvol6ids hvol6fr hkeys hrun
  obtain ⟨wIps, tIps, tWips, tFw, tNodup, created, tCreatedEq, tShape, tCond⟩ := t13
  obtain ⟨vmW, hfindW5, hidW5, hoffW5⟩ := hweb5
  have hvmseq : s'.vms = s5.vms → True := fun _ => trivial
  have hfindW6 : find_vm (webVmNameOf (networkNameOf repoName uniqueId)) s6
      = find_vm (webVmNameOf (networkNameOf repoName uniqueId)) s5 :=
    r9 _ (fun k _ => webVmNameOf_ne_workerVmNameOf _ k)
  refine ⟨?_, ?_, ?_⟩
  · -- Converged
    refine ⟨zoneId, netOffId, diskOffId, webOffId, workerOffId, dbOffId, tmplId, wids,
      wIps, hz, hno, hdo, hwo, htm, hwoE, hwoD, hdoE, hdoD, t1, t2, ?_, ?_, ?_, t5,
      hwlen, hwnil, ?_, ?_, ?_, ?_, ?_, ?_, ?_, tWips, ?_, ?_, tFw, t16, ?_, ?_, t19,
      t20, t21, ?_, ?_, ?_⟩
    · rw [find_network_congr (t7.trans r1), t3]
      exact hnet5
    · rw [find_keypair_congr (t8.trans r2)]
      exact hkp5
    · refine ⟨vmW, ?_, ?_, hoffW5⟩
      · rw [find_vm_congr t9, hfindW6]
        exact hfindW5
      · rw [hidW5, t4]
    · -- WorkersFact at s'
      refine workersFact_pres hwfact5 ?_
      intro k v hk hk2 hfd
      refine ⟨v, ?_, rfl, rfl⟩
      rw [find_vm_congr t9, r9 _ ?_]
      · exact hfd
      · intro k' hk'
        intro heq
        have := workerVmNameOf_inj heq
        omega
    · -- db vm
      intro d hd
      rw [t6] at hd
      obtain ⟨vmD, hfindD5, hidD5, hoffD5⟩ := hdb5 d hd
      refine ⟨vmD, ?_, hidD5, hoffD5⟩
      rw [find_vm_congr t9, r9 _ (fun k _ => dbVmNameOf_ne_workerVmNameOf _ k)]
      exact hfindD5
    · intro hdbe
      obtain ⟨d, hd⟩ := hdbE hdbe
      exact ⟨d, by rw [t6, hd]⟩
    · intro hdbd
      rw [t6]
      exact hdbD hdbd
    · -- no worker at index desired + 1
      rw [show (if cfg.workersEnabled then cfg.workersReplicas else 0) + 1 = desired + 1
        from by rw [hdes]]
      rw [find_vm_congr t9]
      exact r10
    · -- web ip
      obtain ⟨wip, hfindwip, hwipid, hwipaddr⟩ := t12
      refine ⟨wip, ?_, hwipid, hwipaddr⟩
      rw [t3, t4]
      exact hfindwip
    · rw [t3]
      exact tIps
    · -- db ip
      intro d hd
      rw [t6] at hd
      obtain ⟨dip, hfindd, hdbid, hdbaddr⟩ := t14 d hd
      refine ⟨dip, ?_, hdbid, hdbaddr⟩
      rw [t3]
      exact hfindd
    · intro hd
      rw [t6] at hd
      exact t15 hd
    · intro d hd
      rw [t6] at hd
      exact t17 d hd
    · intro hd
      rw [t6] at hd
      exact t18 hd
    · -- worker internal ips
      cases hwe2 : cfg.workersEnabled with
      | true =>
        obtain ⟨wiIps, hcoll, hout⟩ := t22 hwe2
        exact ⟨wiIps, hcoll, by rw [hout]; rfl⟩
      | false =>
        have hw0 : wids = [] := hwnil hwe2
        subst hw0
        exact ⟨[], rfl, by rw [t23 hwe2]; rfl⟩
    · intro d hd
      rw [t6] at hd
      exact t24 d hd
    · intro hd
      rw [t6] at hd
      exact t25 hd
  · -- C5 core
    intro hcontig
    have hchain := hchain5 hcontig
    refine ⟨?_, ?_⟩
    · intro k hk
      rw [find_vm_congr t9]
      exact r11 hchain k (by omega)
    · obtain ⟨pre, hpre⟩ := hlog5
      obtain ⟨post, hpost⟩ := t11
      refine ⟨pre, segs, post, ?_, rsegshape, ?_, ?_⟩
      · rw [hpost, rlog, hpre]
      · intro vm hvm k hk hname
        obtain ⟨v1, hv1mem, hv1id, hv1name⟩ := hvms5 vm hvm
        obtain ⟨seg, hsegmem, hsegrem⟩ := rsegall hchain v1 hv1mem k (by omega)
          (by rw [hv1name, hname])
        exact ⟨seg, hsegmem, by rw [← hv1id]; exact hsegrem⟩
      · intro hfwids vm hvm k hk hname
        obtain ⟨v1, hv1mem, hv1id, hv1name⟩ := hvms5 vm hvm
        have hfwids5 : (s5.fwRules.map (·.id)).Nodup := by
          rw [hfw5]
          exact hfwids
        obtain ⟨seg, hsegmem, hsegfor⟩ := rsegfor hwf5.2.2.1 hfwids5 hchain v1 hv1mem k
          (by omega) (by rw [hv1name, hname])
        refine ⟨seg, hsegmem, ?_⟩
        rw [t3, ← hv1id]
        refine removalSegFor_congr ?_ ?_ hsegfor
        · unfold find_public_ip_for_vm
          rw [hips5]
        · intro ip _
          unfold find_firewall_rules
          rw [hfw5]
  · -- C6 core
    have hwvm : (match o.worker_vm_ids with | some l => l | none => []) = wids := by
      rw [t5]
      cases hwe2 : cfg.workersEnabled with
      | true => rfl
      | false =>
        rw [hwnil hwe2]
        rfl
    have howned : ownedIpIds o s'
        = o.web_ip_id :: (wIps.map (·.id) ++ o.db_ip_id.toList) := by
      unfold ownedIpIds rolesVmIdsOf
      rw [hwvm, t3, t4, t6]
      rw [List.filterMap_cons]
      obtain ⟨wip, hfindwip, hwipid, _⟩ := t12
      rw [hfindwip]
      simp only [Option.map_some']
      rw [List.filterMap_append, ipsFact_filterMap netId tIps, hwipid]
      cases hdb : dbVm with
      | none =>
        rw [(t15 hdb).1]
        rfl
      | some d =>
        obtain ⟨dip, hfindd, hdbid, _⟩ := t14 d hdb
        rw [show (some d : Option Nat).toList = [d] from rfl, List.filterMap_cons,
          hfindd]
        simp only [Option.map_some']
        rw [hdbid]
        rfl
    refine ⟨wIps.map (·.id), s6.fwRules, created, howned, tCreatedEq, ?_, tShape, tCond⟩
    rw [← hfw5]
    exact r8

/-- The role VM ids (web, workers, db) a run records are pairwise distinct:
they are ids of VMs found under pairwise-distinct names. -/
theorem assignments_keys_nodup {net : String} {webVmId : Nat} {wids : List Nat}
    {dbVm : Option Nat} {workerOffId : String} {s5 : St}
    (hids : (s5.vms.map (·.id)).Nodup)
    (hweb : ∃ vmW, find_vm (webVmNameOf net) s5 = some vmW ∧ vmW.id = webVmId)
    (hwfact : WorkersFact net 1 wids workerOffId s5)
    (hdb : ∀ d, dbVm = some d →
      ∃ vmD, find_vm (dbVmNameOf net) s5 = some vmD ∧ vmD.id = d) :
    ((assignmentsOf webVmId wids dbVm).map (·.2)).Nodup := by
  rw [assignmentsOf_keys]
  obtain ⟨vmW, hfw, hidw⟩ := hweb
  have hWnotin : ¬ webVmId ∈ wids := by
    intro hmem
    obtain ⟨k, vm, hk, _, hfk, hidk⟩ := workersFact_mem net hwfact webVmId hmem
    have heq : vm = vmW := List.inj_on_of_nodup_map hids (find_vm_mem hfk)
      (find_vm_mem hfw) (by rw [hidk, hidw])
    have hne : workerVmNameOf net k = webVmNameOf net := by
      rw [← find_vm_name hfk, heq, find_vm_name hfw]
    exact webVmNameOf_ne_workerVmNameOf net k hne.symm
  have hwnodup : wids.Nodup := workersFact_nodup net hwfact hids
  cases hdbv : dbVm with
  | none =>
    exact owned_nodup_none hWnotin hwnodup
  | some d =>
    obtain ⟨vmD, hfd, hidd⟩ := hdb d hdbv
    have hDnotin : ¬ d ∈ wids := by
      intro hmem
      obtain ⟨k, vm, hk, _, hfk, hidk⟩ := workersFact_mem net hwfact d hmem
      have heq : vm = vmD := List.inj_on_of_nodup_map hids (find_vm_mem hfk)
        (find_vm_mem hfd) (by rw [hidk, hidd])
      have hne : workerVmNameOf net k = dbVmNameOf net := by
        rw [← find_vm_name hfk, heq, find_vm_name hfd]
      exact dbVmNameOf_ne_workerVmNameOf net k hne.symm
    have hWneD : ¬ webVmId = d := by
      intro h
      have heq : vmW = vmD := List.inj_on_of_nodup_map hids (find_vm_mem hfw)
        (find_vm_mem hfd) (by rw [hidw, hidd, h])
      have hne : webVmNameOf net = dbVmNameOf net := by
        rw [← find_vm_name hfw, heq, find_vm_name hfd]
      exact webVmNameOf_ne_dbVmNameOf net hne
    exact owned_nodup_some hWnotin hWneD hDnotin hwnodup

/-- Forward analysis of a successful `provision` run from a well-formed
account: the final state is converged on the returned output; under
contiguously-named pre-state workers, every excess worker is removed with
its removal command sequence in the log; and the firewall rules decompose
into kept rules and freshly created role rules, exact on pristine IPs. -/
theorem provision_fwd (env : Env) (cfg : Config) (repoName uniqueId publicKey : String)
    (s : St) {o : Output} {s' : St} (hwf : WF s)
    (hrun : provision env cfg repoName uniqueId publicKey s = .ok (o, s')) :
    Converged env cfg repoName uniqueId o s' ∧
    ((∀ k, 1 ≤ k →
        (find_vm (workerVmNameOf (networkNameOf repoName uniqueId) (k + 1)) s).isSome
          = true →
        (find_vm (workerVmNameOf (networkNameOf repoName uniqueId) k) s).isSome = true) →
      (∀ k, (if cfg.workersEnabled then cfg.workersReplicas else 0) < k →
        find_vm (workerVmNameOf (networkNameOf repoName uniqueId) k) s' = none) ∧
      (∃ (pre : List Cmd) (segs : List (List Cmd)) (post : List Cmd),
        s'.log = s.log ++ pre ++ segs.flatten ++ post ∧
        (∀ seg ∈ segs, ∃ vmId, removalSeg vmId seg) ∧
        (∀ vm ∈ s.vms, ∀ k, (if cfg.workersEnabled then cfg.workersReplicas else 0) < k →
          vm.name = workerVmNameOf (networkNameOf repoName uniqueId) k →
          ∃ seg ∈ segs, removalSeg vm.id seg) ∧
        ((s.fwRules.map (·.id)).Nodup →
          ∀ vm ∈ s.vms, ∀ k,
            (if cfg.workersEnabled then cfg.workersReplicas else 0) < k →
            vm.name = workerVmNameOf (networkNameOf repoName uniqueId) k →
            ∃ seg ∈ segs, removalSegFor o.network_id s vm.id seg))) ∧
    (∃ wIpIds kept created,
      ownedIpIds o s' = o.web_ip_id :: (wIpIds ++ o.db_ip_id.toList) ∧
      s'.fwRules = kept ++ created ∧
      kept.Sublist s.fwRules ∧
      (∀ r ∈ created, r.protocol = "TCP" ∧ r.cidr = "0.0.0.0/0" ∧
        r.startport = r.endport ∧
        (r.startport = 22 ∨ r.startport = 80 ∨ r.startport = 443)) ∧
      ((∀ r ∈ kept, ¬ r.ipId ∈ o.web_ip_id :: (wIpIds ++ o.db_ip_id.toList)) →
        portsOf o.web_ip_id s' = [22, 80, 443] ∧
        ∀ i ∈ o.web_ip_id :: (wIpIds ++ o.db_ip_id.toList), ¬ i = o.web_ip_id →
          portsOf i s' = [22])) := by
  cases hz : resolve_zone env cfg.zone with
  | error e =>
    simp only [provision, hz, exceptWith, exbind_err] at hrun
    exact Except.noConfusion hrun
  | ok zoneId =>
  simp only [provision, hz, exceptWith, exbind_ok] at hrun
  cases hno : resolve_network_offering env NETWORK_OFFERING_NAME with
  | error e =>
    simp only [hno, exceptWith, exbind_err] at hrun
    exact Except.noConfusion hrun
  | ok netOffId =>
  simp only [hno, exceptWith, exbind_ok] at hrun
  cases hdo : resolve_disk_offering env DISK_OFFERING_NAME with
  | error e =>
    simp only [hdo, exceptWith, exbind_err] at hrun
    exact Except.noConfusion hrun
  | ok diskOffId =>
  simp only [hdo, exceptWith, exbind_ok] at hrun
  cases hwo : resolve_service_offering env cfg.webPlan with
  | error e =>
    simp only [hwo, exceptWith, exbind_err] at hrun
    exact Except.noConfusion hrun
  | ok webOffId =>
  simp only [hwo, exceptWith, exbind_ok] at hrun
  cases htm : discover_template env.templates zoneId with
  | error e =>
    simp only [htm, exceptWith, exbind_err] at hrun
    exact Except.noConfusion hrun
  | ok tmplId =>
  simp only [htm, exceptWith, exbind_ok] at hrun
  cases hwe : cfg.workersEnabled with
  | true =>
    simp only [hwe, if_true] at hrun
    cases hwres : resolve_service_offering env cfg.workersPlan with
    | error e =>
      simp only [hwres, exceptWith, exbind_err] at hrun
      exact Except.noConfusion hrun
    | ok workerOffId =>
    simp only [hwres, exceptWith, exbind_ok] at hrun
    cases hde : cfg.dbEnabled with
    | true =>
      simp only [hde, if_true] at hrun
      cases hdres : resolve_service_offering env cfg.dbPlan with
      | error e =>
        simp only [hdres, exceptWith, exbind_err] at hrun
        exact Except.noConfusion hrun
      | ok dbOffId =>
      simp only [hdres, exceptWith, exbind_ok] at hrun
      cases hnp : networkPhase (networkNameOf repoName uniqueId) netOffId zoneId s with
      | mk netId s1 =>
      simp only [hnp] at hrun
      obtain ⟨hnet1, n1K, n1V, n1Vol, n1I, n1F, n1P, n1Fr, n1Log⟩ := networkPhase_fwd hnp
      have hwf1 : WF s1 := WF_mono n1V n1I n1Vol n1Fr hwf
      obtain ⟨hkp2, k2N, k2V, k2Vol, k2I, k2F, k2P, k2Fr, k2Log⟩ :=
        keypairPhase_fwd (keypairNameOf (networkNameOf repoName uniqueId)) publicKey s1
      set s2 := keypairPhase (keypairNameOf (networkNameOf repoName uniqueId)) publicKey s1 with hS2
      have hwf2 : WF s2 := WF_mono k2V k2I k2Vol (le_of_eq k2Fr.symm) hwf1
      cases hwd : deploy_vm env (webVmNameOf (networkNameOf repoName uniqueId)) webOffId tmplId zoneId netId
          (keypairNameOf (networkNameOf repoName uniqueId)) s2 with
      | mk webVmId s3 =>
      simp only [hwd] at hrun
      obtain ⟨w3N, w3K, w3Vol, w3I, w3F, w3P, w3Fr, w3Log,
        ⟨vmW3, hvmW3, hvmW3id, hvmW3off⟩, w3evo⟩ := deploy_vm_fwd hwd
      obtain ⟨w3pres, w3none, w3mem, w3wf⟩ := deploy_vm_pres hwd hwf2.1
      have hwf3 : WF s3 := w3wf hwf2
      cases hwl : deployWorkersLoop env (networkNameOf repoName uniqueId) workerOffId tmplId zoneId netId
          (keypairNameOf (networkNameOf repoName uniqueId)) 1 cfg.workersReplicas s3 with
      | mk wids s4 =>
      simp only [hwl] at hrun
      obtain ⟨hwf4, hwlen4, l4N, l4K, l4Vol, l4I, l4F, l4P, l4Fr, l4Log, hwfact4,
        l4pres, l4none, l4mem⟩ := deployWorkersLoop_fwd env (networkNameOf repoName uniqueId) workerOffId tmplId
        zoneId netId (keypairNameOf (networkNameOf repoName uniqueId)) cfg.workersReplicas 1 s3 wids s4 hwl hwf3
      have l4out := deployWorkersLoop_pres_out env (networkNameOf repoName uniqueId) workerOffId tmplId zoneId
        netId (keypairNameOf (networkNameOf repoName uniqueId)) cfg.workersReplicas 1 s3 wids s4 hwl hwf3
      cases hdd : deploy_vm env (dbVmNameOf (networkNameOf repoName uniqueId)) dbOffId tmplId zoneId netId
          (keypairNameOf (networkNameOf repoName uniqueId)) s4 with
      | mk d s5 =>
      simp only [hdd] at hrun
      obtain ⟨d5N, d5K, d5Vol, d5I, d5F, d5P, d5Fr, d5Log,
        ⟨vmD5, hvmD5, hvmD5id, hvmD5off⟩, d5evo⟩ := deploy_vm_fwd hdd
      obtain ⟨d5pres, d5none, d5mem, d5wf⟩ := deploy_vm_pres hdd hwf4.1
      have hwf5 : WF s5 := d5wf hwf4
      have hnets : s5.networks = s1.networks := by
        rw [d5N, l4N, w3N, k2N]
      have hkps : s5.keypairs = s2.keypairs := by
        rw [d5K, l4K, w3K]
      have hnet5 : find_network (networkNameOf repoName uniqueId) s5 = some netId := by
        rw [find_network_congr hnets]
        exact hnet1
      have hkp5 : find_keypair (keypairNameOf (networkNameOf repoName uniqueId)) s5 = true := by
        rw [find_keypair_congr hkps]
        exact hkp2
      have hfw5 : s5.fwRules = s.fwRules := by
        rw [d5F, l4F, w3F, k2F, n1F]
      have hips5 : s5.ips = s.ips := by
        rw [d5I, l4I, w3I, k2I, n1I]
      have hlog5 : ∃ pre, s5.log = s.log ++ pre := append_ext_trans (append_ext_trans (append_ext_trans (append_ext_trans n1Log k2Log) w3Log) l4Log) d5Log
      have hweb5 : ∃ vmW, find_vm (webVmNameOf (networkNameOf repoName uniqueId)) s5 = some vmW ∧
          vmW.id = webVmId ∧ (vmW.offering = webOffId ∨ vmW.offering = "") := by
        obtain ⟨v4, hv4, hid4, hname4, hoff4⟩ := l4pres (webVmNameOf (networkNameOf repoName uniqueId)) vmW3 hvmW3
          (fun j hj h => webVmNameOf_ne_workerVmNameOf (networkNameOf repoName uniqueId) j h)
        obtain ⟨v5, hv5, hid5, hname5, hoff5⟩ := d5pres (webVmNameOf (networkNameOf repoName uniqueId)) v4 hv4
          (webVmNameOf_ne_dbVmNameOf (networkNameOf repoName uniqueId))
        refine ⟨v5, hv5, by rw [hid5, hid4, hvmW3id], ?_⟩
        rw [hoff5, hoff4]
        exact hvmW3off
      have hwfact5 : WorkersFact (networkNameOf repoName uniqueId) 1 wids workerOffId s5 := by
        refine workersFact_pres hwfact4 ?_
        intro k v hk hk2 hfd
        obtain ⟨v1, hv1, hid1, hname1, hoff1⟩ := d5pres _ v hfd
          (fun h => dbVmNameOf_ne_workerVmNameOf (networkNameOf repoName uniqueId) k h.symm)
        exact ⟨v1, hv1, hid1, hoff1⟩
      have hdb5 : ∀ d0, (some d) = some d0 →
          ∃ vmD, find_vm (dbVmNameOf (networkNameOf repoName uniqueId)) s5 = some vmD ∧ vmD.id = d0 ∧
            (vmD.offering = dbOffId ∨ vmD.offering = "") := by
        intro d0 hd0
        injection hd0 with hd0
        subst hd0
        exact ⟨vmD5, hvmD5, hvmD5id, hvmD5off⟩
      have hkeys5 : ((assignmentsOf webVmId wids (some d)).map (·.2)).Nodup := by
        refine assignments_keys_nodup hwf5.1 ?_ hwfact5 ?_
        · obtain ⟨vmW, h1, h2, _⟩ := hweb5
          exact ⟨vmW, h1, h2⟩
        · intro d0 hd0
          obtain ⟨vmD, h1, h2, _⟩ := hdb5 d0 hd0
          exact ⟨vmD, h1, h2⟩
      have hvms5 : ∀ vm ∈ s.vms, ∃ v1 ∈ s5.vms, v1.id = vm.id ∧ v1.name = vm.name := by
        intro vm hvm
        have hvm2 : vm ∈ s2.vms := by
          rw [k2V, n1V]
          exact hvm
        obtain ⟨v3, hv3, hid3, hname3⟩ := w3mem vm hvm2
        obtain ⟨v4, hv4, hid4, hname4⟩ := l4mem v3 hv3
        obtain ⟨v5, hv5, hid5, hname5⟩ := d5mem v4 hv4
        exact ⟨v5, hv5, by rw [hid5, hid4, hid3], by rw [hname5, hname4, hname3]⟩
      have hchain5 : (∀ k, 1 ≤ k →
          (find_vm (workerVmNameOf (networkNameOf repoName uniqueId) (k + 1)) s).isSome = true →
          (find_vm (workerVmNameOf (networkNameOf repoName uniqueId) k) s).isSome = true) →
          ∀ k, cfg.workersReplicas + 1 ≤ k →
            (find_vm (workerVmNameOf (networkNameOf repoName uniqueId) (k + 1)) s5).isSome = true →
            (find_vm (workerVmNameOf (networkNameOf repoName uniqueId) k) s5).isSome = true := by
        intro hcontig k hk hsome
        have hs2vms : s2.vms = s.vms := by rw [k2V, n1V]
        have hup : ∀ m (v : VMR), cfg.workersReplicas + 1 ≤ m →
            find_vm (workerVmNameOf (networkNameOf repoName uniqueId) m) s = some v →
            ∃ v1, find_vm (workerVmNameOf (networkNameOf repoName uniqueId) m) s5 = some v1 := by
          intro m v hm hfd
          have hfd2 : find_vm (workerVmNameOf (networkNameOf repoName uniqueId) m) s2 = some v := by
            rw [find_vm_congr hs2vms]
            exact hfd
          obtain ⟨v3, hv3, _, _, _⟩ := w3pres _ v hfd2
            (fun h => webVmNameOf_ne_workerVmNameOf (networkNameOf repoName uniqueId) m h.symm)
          obtain ⟨v4, hv4, _, _, _⟩ := l4out _ v3 hv3
            (fun j hj hj2 h => by
              have := workerVmNameOf_inj h
              omega)
          obtain ⟨v5, hv5, _, _, _⟩ := d5pres _ v4 hv4
            (fun h => dbVmNameOf_ne_workerVmNameOf (networkNameOf repoName uniqueId) m h.symm)
          exact ⟨v5, hv5⟩
        have hdown : ∀ m, cfg.workersReplicas + 1 ≤ m →
            find_vm (workerVmNameOf (networkNameOf repoName uniqueId) m) s = none →
            find_vm (workerVmNameOf (networkNameOf repoName uniqueId) m) s5 = none := by
          intro m hm hfd
          have hfd2 : find_vm (workerVmNameOf (networkNameOf repoName uniqueId) m) s2 = none := by
            rw [find_vm_congr hs2vms]
            exact hfd
          have h3 := w3none _ hfd2 (fun h => webVmNameOf_ne_workerVmNameOf (networkNameOf repoName uniqueId) m h.symm)
          have h4 := l4none _ h3 (fun j hj hj2 h => by
            have := workerVmNameOf_inj h
            omega)
          exact d5none _ h4 (fun h => dbVmNameOf_ne_workerVmNameOf (networkNameOf repoName uniqueId) m h.symm)
        have hSsome : (find_vm (workerVmNameOf (networkNameOf repoName uniqueId) (k + 1)) s).isSome = true := by
          by_contra hns
          have hnone : find_vm (workerVmNameOf (networkNameOf repoName uniqueId) (k + 1)) s = none := by
            cases hfd : find_vm (workerVmNameOf (networkNameOf repoName uniqueId) (k + 1)) s with
            | none => rfl
            | some v =>
              rw [hfd] at hns
              exact absurd rfl hns
          rw [hdown (k + 1) (by omega) hnone] at hsome
          cases hsome
        have hks := hcontig k (by omega) hSsome
        obtain ⟨v, hv⟩ := Option.isSome_iff_exists.mp hks
        obtain ⟨v1, hv1⟩ := hup k v (by omega) hv
        rw [hv1]
        rfl
      have hdes5 : cfg.workersReplicas = if cfg.workersEnabled then cfg.workersReplicas else 0 := by
        simp [hwe]
      have hwoE5 : cfg.workersEnabled = true →
          resolve_service_offering env cfg.workersPlan = .ok workerOffId := fun _ => hwres
      have hwoD5 : cfg.workersEnabled = false → workerOffId = "" := by
        intro h
        rw [hwe] at h
        exact Bool.noConfusion h
      have hwlen5 : cfg.workersEnabled = true → wids.length = cfg.workersReplicas :=
        fun _ => hwlen4
      have hwnil5 : cfg.workersEnabled = false → wids = [] := by
        intro h
        rw [hwe] at h
        exact Bool.noConfusion h
      have hdoE5 : cfg.dbEnabled = true →
          resolve_service_offering env cfg.dbPlan = .ok dbOffId := fun _ => hdres
      have hdoD5 : cfg.dbEnabled = false → dbOffId = "" := by
        intro h
        rw [hde] at h
        exact Bool.noConfusion h
      have hdbE5 : cfg.dbEnabled = true → ∃ d0, (some d) = some d0 := fun _ => ⟨d, rfl⟩
      have hdbD5 : cfg.dbEnabled = false → (some d) = none := by
        intro h
        rw [hde] at h
        exact Bool.noConfusion h
      exact post_deploy_assemble env cfg repoName uniqueId zoneId netOffId diskOffId
        webOffId workerOffId dbOffId tmplId (String.intercalate "," (resolve_all_zone_ids env))
        netId webVmId cfg.workersReplicas wids (some d) s s5 hwf5 hdes5 hz hno hdo hwo htm
        hwoE5 hwoD5 hdoE5 hdoD5 hnet5 hkp5 hweb5 hwfact5 hwlen5 hwnil5 hdb5 hdbE5
        hdbD5 hkeys5 hvms5 hfw5 hips5 hlog5 hchain5 hrun
    | false =>
      simp only [hde, Bool.false_eq_true, if_false, exbind_ok] at hrun
      cases hnp : networkPhase (networkNameOf repoName uniqueId) netOffId zoneId s with
      | mk netId s1 =>
      simp only [hnp] at hrun
      obtain ⟨hnet1, n1K, n1V, n1Vol, n1I, n1F, n1P, n1Fr, n1Log⟩ := networkPhase_fwd hnp
      have hwf1 : WF s1 := WF_mono n1V n1I n1Vol n1Fr hwf
      obtain ⟨hkp2, k2N, k2V, k2Vol, k2I, k2F, k2P, k2Fr, k2Log⟩ :=
        keypairPhase_fwd (keypairNameOf (networkNameOf repoName uniqueId)) publicKey s1
      set s2 := keypairPhase (keypairNameOf (networkNameOf repoName uniqueId)) publicKey s1 with hS2
      have hwf2 : WF s2 := WF_mono k2V k2I k2Vol (le_of_eq k2Fr.symm) hwf1
      cases hwd : deploy_vm env (webVmNameOf (networkNameOf repoName uniqueId)) webOffId tmplId zoneId netId
          (keypairNameOf (networkNameOf repoName uniqueId)) s2 with
      | mk webVmId s3 =>
      simp only [hwd] at hrun
      obtain ⟨w3N, w3K, w3Vol, w3I, w3F, w3P, w3Fr, w3Log,
        ⟨vmW3, hvmW3, hvmW3id, hvmW3off⟩, w3evo⟩ := deploy_vm_fwd hwd
      obtain ⟨w3pres, w3none, w3mem, w3wf⟩ := deploy_vm_pres hwd hwf2.1
      have hwf3 : WF s3 := w3wf hwf2
      cases hwl : deployWorkersLoop env (networkNameOf repoName uniqueId) workerOffId tmplId zoneId netId
          (keypairNameOf (networkNameOf repoName uniqueId)) 1 cfg.workersReplicas s3 with
      | mk wids s4 =>
      simp only [hwl] at hrun
      obtain ⟨hwf4, hwlen4, l4N, l4K, l4Vol, l4I, l4F, l4P, l4Fr, l4Log, hwfact4,
        l4pres, l4none, l4mem⟩ := deployWorkersLoop_fwd env (networkNameOf repoName uniqueId) workerOffId tmplId
        zoneId netId (keypairNameOf (networkNameOf repoName uniqueId)) cfg.workersReplicas 1 s3 wids s4 hwl hwf3
      have l4out := deployWorkersLoop_pres_out env (networkNameOf repoName uniqueId) workerOffId tmplId zoneId
        netId (keypairNameOf (networkNameOf repoName uniqueId)) cfg.workersReplicas 1 s3 wids s4 hwl hwf3
      have hwf5 : WF s4 := hwf4
      have hnets : s4.networks = s1.networks := by
        rw [l4N, w3N, k2N]
      have hkps : s4.keypairs = s2.keypairs := by
        rw [l4K, w3K]
      have hnet5 : find_network (networkNameOf repoName uniqueId) s4 = some netId := by
        rw [find_network_congr hnets]
        exact hnet1
      have hkp5 : find_keypair (keypairNameOf (networkNameOf repoName uniqueId)) s4 = true := by
        rw [find_keypair_congr hkps]
        exact hkp2
      have hfw5 : s4.fwRules = s.fwRules := by
        rw [l4F, w3F, k2F, n1F]
      have hips5 : s4.ips = s.ips := by
        rw [l4I, w3I, k2I, n1I]
      have hlog5 : ∃ pre, s4.log = s.log ++ pre := append_ext_trans (append_ext_trans (append_ext_trans n1Log k2Log) w3Log) l4Log
      have hweb5 : ∃ vmW, find_vm (webVmNameOf (networkNameOf repoName uniqueId)) s4 = some vmW ∧
          vmW.id = webVmId ∧ (vmW.offering = webOffId ∨ vmW.offering = "") := by
        obtain ⟨v4, hv4, hid4, hname4, hoff4⟩ := l4pres (webVmNameOf (networkNameOf repoName uniqueId)) vmW3 hvmW3
          (fun j hj h => webVmNameOf_ne_workerVmNameOf (networkNameOf repoName uniqueId) j h)
        refine ⟨v4, hv4, by rw [hid4, hvmW3id], ?_⟩
        rw [hoff4]
        exact hvmW3off
      have hwfact5 : WorkersFact (networkNameOf repoName uniqueId) 1 wids workerOffId s4 := by
        refine workersFact_pres hwfact4 ?_
        intro k v hk hk2 hfd
        exact ⟨v, hfd, rfl, rfl⟩
      have hdb5 : ∀ d0, (none : Option Nat) = some d0 →
          ∃ vmD, find_vm (dbVmNameOf (networkNameOf repoName uniqueId)) s4 = some vmD ∧ vmD.id = d0 ∧
            (vmD.offering = ("" : String) ∨ vmD.offering = "") :=
        fun d0 hd0 => Option.noConfusion hd0
      have hkeys5 : ((assignmentsOf webVmId wids (none : Option Nat)).map (·.2)).Nodup := by
        refine assignments_keys_nodup hwf5.1 ?_ hwfact5 ?_
        · obtain ⟨vmW, h1, h2, _⟩ := hweb5
          exact ⟨vmW, h1, h2⟩
        · intro d0 hd0
          obtain ⟨vmD, h1, h2, _⟩ := hdb5 d0 hd0
          exact ⟨vmD, h1, h2⟩
      have hvms5 : ∀ vm ∈ s.vms, ∃ v1 ∈ s4.vms, v1.id = vm.id ∧ v1.name = vm.name := by
        intro vm hvm
        have hvm2 : vm ∈ s2.vms := by
          rw [k2V, n1V]
          exact hvm
        obtain ⟨v3, hv3, hid3, hname3⟩ := w3mem vm hvm2
        obtain ⟨v4, hv4, hid4, hname4⟩ := l4mem v3 hv3
        exact ⟨v4, hv4, by rw [hid4, hid3], by rw [hname4, hname3]⟩
      have hchain5 : (∀ k, 1 ≤ k →
          (find_vm (workerVmNameOf (networkNameOf repoName uniqueId) (k + 1)) s).isSome = true →
          (find_vm (workerVmNameOf (networkNameOf repoName uniqueId) k) s).isSome = true) →
          ∀ k, cfg.workersReplicas + 1 ≤ k →
            (find_vm (workerVmNameOf (networkNameOf repoName uniqueId) (k + 1)) s4).isSome = true →
            (find_vm (workerVmNameOf (networkNameOf repoName uniqueId) k) s4).isSome = true := by
        intro hcontig k hk hsome
        have hs2vms : s2.vms = s.vms := by rw [k2V, n1V]
        have hup : ∀ m (v : VMR), cfg.workersReplicas + 1 ≤ m →
            find_vm (workerVmNameOf (networkNameOf repoName uniqueId) m) s = some v →
            ∃ v1, find_vm (workerVmNameOf (networkNameOf repoName uniqueId) m) s4 = some v1 := by
          intro m v hm hfd
          have hfd2 : find_vm (workerVmNameOf (networkNameOf repoName uniqueId) m) s2 = some v := by
            rw [find_vm_congr hs2vms]
            exact hfd
          obtain ⟨v3, hv3, _, _, _⟩ := w3pres _ v hfd2
            (fun h => webVmNameOf_ne_workerVmNameOf (networkNameOf repoName uniqueId) m h.symm)
          obtain ⟨v4, hv4, _, _, _⟩ := l4out _ v3 hv3
            (fun j hj hj2 h => by
              have := workerVmNameOf_inj h
              omega)
          exact ⟨v4, hv4⟩
        have hdown : ∀ m, cfg.workersReplicas + 1 ≤ m →
            find_vm (workerVmNameOf (networkNameOf repoName uniqueId) m) s = none →
            find_vm (workerVmNameOf (networkNameOf repoName uniqueId) m) s4 = none := by
          intro m hm hfd
          have hfd2 : find_vm (workerVmNameOf (networkNameOf repoName uniqueId) m) s2 = none := by
            rw [find_vm_congr hs2vms]
            exact hfd
          have h3 := w3none _ hfd2 (fun h => webVmNameOf_ne_workerVmNameOf (networkNameOf repoName uniqueId) m h.symm)
          have h4 := l4none _ h3 (fun j hj hj2 h => by
            have := workerVmNameOf_inj h
            omega)
          exact h4
        have hSsome : (find_vm (workerVmNameOf (networkNameOf repoName uniqueId) (k + 1)) s).isSome = true := by
          by_contra hns
          have hnone : find_vm (workerVmNameOf (networkNameOf repoName uniqueId) (k + 1)) s = none := by
            cases hfd : find_vm (workerVmNameOf (networkNameOf repoName uniqueId) (k + 1)) s with
            | none => rfl
            | some v =>
              rw [hfd] at hns
              exact absurd rfl hns
          rw [hdown (k + 1) (by omega) hnone] at hsome
          cases hsome
        have hks := hcontig k (by omega) hSsome
        obtain ⟨v, hv⟩ := Option.isSome_iff_exists.mp hks
        obtain ⟨v1, hv1⟩ := hup k v (by omega) hv
        rw [hv1]
        rfl
      have hdes5 : cfg.workersReplicas = if cfg.workersEnabled then cfg.workersReplicas else 0 := by
        simp [hwe]
      have hwoE5 : cfg.workersEnabled = true →
          resolve_service_offering env cfg.workersPlan = .ok workerOffId := fun _ => hwres
      have hwoD5 : cfg.workersEnabled = false → workerOffId = "" := by
        intro h
        rw [hwe] at h
        exact Bool.noConfusion h
      have hwlen5 : cfg.workersEnabled = true → wids.length = cfg.workersReplicas :=
        fun _ => hwlen4
      have hwnil5 : cfg.workersEnabled = false → wids = [] := by
        intro h
        rw [hwe] at h
        exact Bool.noConfusion h
      have hdoE5 : cfg.dbEnabled = true →
          resolve_service_offering env cfg.dbPlan = .ok "" := by
        intro h
        rw [hde] at h
        exact Bool.noConfusion h
      have hdoD5 : cfg.dbEnabled = false → ("" : String) = "" := fun _ => rfl
      have hdbE5 : cfg.dbEnabled = true → ∃ d0, (none : Option Nat) = some d0 := by
        intro h
        rw [hde] at h
        exact Bool.noConfusion h
      have hdbD5 : cfg.dbEnabled = false → (none : Option Nat) = none := fun _ => rfl
      exact post_deploy_assemble env cfg repoName uniqueId zoneId netOffId diskOffId
        webOffId workerOffId "" tmplId (String.intercalate "," (resolve_all_zone_ids env))
        netId webVmId cfg.workersReplicas wids (none : Option Nat) s s4 hwf5 hdes5 hz hno hdo hwo htm
        hwoE5 hwoD5 hdoE5 hdoD5 hnet5 hkp5 hweb5 hwfact5 hwlen5 hwnil5 hdb5 hdbE5
        hdbD5 hkeys5 hvms5 hfw5 hips5 hlog5 hchain5 hrun
  | false =>
    simp only [hwe, Bool.false_eq_true, if_false, exbind_ok] at hrun
    cases hde : cfg.dbEnabled with
    | true =>
      simp only [hde, if_true] at hrun
      cases hdres : resolve_service_offering env cfg.dbPlan with
      | error e =>
        simp only [hdres, exceptWith, exbind_err] at hrun
        exact Except.noConfusion hrun
      | ok dbOffId =>
      simp only [hdres, exceptWith, exbind_ok] at hrun
      cases hnp : networkPhase (networkNameOf repoName uniqueId) netOffId zoneId s with
      | mk netId s1 =>
      simp only [hnp] at hrun
      obtain ⟨hnet1, n1K, n1V, n1Vol, n1I, n1F, n1P, n1Fr, n1Log⟩ := networkPhase_fwd hnp
      have hwf1 : WF s1 := WF_mono n1V n1I n1Vol n1Fr hwf
      obtain ⟨hkp2, k2N, k2V, k2Vol, k2I, k2F, k2P, k2Fr, k2Log⟩ :=
        keypairPhase_fwd (keypairNameOf (networkNameOf repoName uniqueId)) publicKey s1
      set s2 := keypairPhase (keypairNameOf (networkNameOf repoName uniqueId)) publicKey s1 with hS2
      have hwf2 : WF s2 := WF_mono k2V k2I k2Vol (le_of_eq k2Fr.symm) hwf1
      cases hwd : deploy_vm env (webVmNameOf (networkNameOf repoName uniqueId)) webOffId tmplId zoneId netId
          (keypairNameOf (networkNameOf repoName uniqueId)) s2 with
      | mk webVmId s3 =>
      simp only [hwd] at hrun
      obtain ⟨w3N, w3K, w3Vol, w3I, w3F, w3P, w3Fr, w3Log,
        ⟨vmW3, hvmW3, hvmW3id, hvmW3off⟩, w3evo⟩ := deploy_vm_fwd hwd
      obtain ⟨w3pres, w3none, w3mem, w3wf⟩ := deploy_vm_pres hwd hwf2.1
      have hwf3 : WF s3 := w3wf hwf2
      have hwl : deployWorkersLoop env (networkNameOf repoName uniqueId) "" tmplId zoneId netId
          (keypairNameOf (networkNameOf repoName uniqueId)) 1 0 s3 = ([], s3) := rfl
      obtain ⟨hwf4, hwlen4, l4N, l4K, l4Vol, l4I, l4F, l4P, l4Fr, l4Log, hwfact4,
        l4pres, l4none, l4mem⟩ := deployWorkersLoop_fwd env (networkNameOf repoName uniqueId) "" tmplId
        zoneId netId (keypairNameOf (networkNameOf repoName uniqueId)) 0 1 s3 [] s3 hwl hwf3
      have l4out := deployWorkersLoop_pres_out env (networkNameOf repoName uniqueId) "" tmplId zoneId
        netId (keypairNameOf (networkNameOf repoName uniqueId)) 0 1 s3 [] s3 hwl hwf3
      cases hdd : deploy_vm env (dbVmNameOf (networkNameOf repoName uniqueId)) dbOffId tmplId zoneId netId
          (keypairNameOf (networkNameOf repoName uniqueId)) s3 with
      | mk d s5 =>
      simp only [hdd] at hrun
      obtain ⟨d5N, d5K, d5Vol, d5I, d5F, d5P, d5Fr, d5Log,
        ⟨vmD5, hvmD5, hvmD5id, hvmD5off⟩, d5evo⟩ := deploy_vm_fwd hdd
      obtain ⟨d5pres, d5none, d5mem, d5wf⟩ := deploy_vm_pres hdd hwf4.1
      have hwf5 : WF s5 := d5wf hwf4
      have hnets : s5.networks = s1.networks := by
        rw [d5N, l4N, w3N, k2N]
      have hkps : s5.keypairs = s2.keypairs := by
        rw [d5K, l4K, w3K]
      have hnet5 : find_network (networkNameOf repoName uniqueId) s5 = some netId := by
        rw [find_network_congr hnets]
        exact hnet1
      have hkp5 : find_keypair (keypairNameOf (networkNameOf repoName uniqueId)) s5 = true := by
        rw [find_keypair_congr hkps]
        exact hkp2
      have hfw5 : s5.fwRules = s.fwRules := by
        rw [d5F, l4F, w3F, k2F, n1F]
      have hips5 : s5.ips = s.ips := by
        rw [d5I, l4I, w3I, k2I, n1I]
      have hlog5 : ∃ pre, s5.log = s.log ++ pre := append_ext_trans (append_ext_trans (append_ext_trans (append_ext_trans n1Log k2Log) w3Log) l4Log) d5Log
      have hweb5 : ∃ vmW, find_vm (webVmNameOf (networkNameOf repoName uniqueId)) s5 = some vmW ∧
          vmW.id = webVmId ∧ (vmW.offering = webOffId ∨ vmW.offering = "") := by
        obtain ⟨v4, hv4, hid4, hname4, hoff4⟩ := l4pres (webVmNameOf (networkNameOf repoName uniqueId)) vmW3 hvmW3
          (fun j hj h => webVmNameOf_ne_workerVmNameOf (networkNameOf repoName uniqueId) j h)
        obtain ⟨v5, hv5, hid5, hname5, hoff5⟩ := d5pres (webVmNameOf (networkNameOf repoName uniqueId)) v4 hv4
          (webVmNameOf_ne_dbVmNameOf (networkNameOf repoName uniqueId))
        refine ⟨v5, hv5, by rw [hid5, hid4, hvmW3id], ?_⟩
        rw [hoff5, hoff4]
        exact hvmW3off
      have hwfact5 : WorkersFact (networkNameOf repoName uniqueId) 1 ([] : List Nat) "" s5 := by
        refine workersFact_pres hwfact4 ?_
        intro k v hk hk2 hfd
        obtain ⟨v1, hv1, hid1, hname1, hoff1⟩ := d5pres _ v hfd
          (fun h => dbVmNameOf_ne_workerVmNameOf (networkNameOf repoName uniqueId) k h.symm)
        exact ⟨v1, hv1, hid1, hoff1⟩
      have hdb5 : ∀ d0, (some d) = some d0 →
          ∃ vmD, find_vm (dbVmNameOf (networkNameOf repoName uniqueId)) s5 = some vmD ∧ vmD.id = d0 ∧
            (vmD.offering = dbOffId ∨ vmD.offering = "") := by
        intro d0 hd0
        injection hd0 with hd0
        subst hd0
        exact ⟨vmD5, hvmD5, hvmD5id, hvmD5off⟩
      have hkeys5 : ((assignmentsOf webVmId ([] : List Nat) (some d)).map (·.2)).Nodup := by
        refine assignments_keys_nodup hwf5.1 ?_ hwfact5 ?_
        · obtain ⟨vmW, h1, h2, _⟩ := hweb5
          exact ⟨vmW, h1, h2⟩
        · intro d0 hd0
          obtain ⟨vmD, h1, h2, _⟩ := hdb5 d0 hd0
          exact ⟨vmD, h1, h2⟩
      have hvms5 : ∀ vm ∈ s.vms, ∃ v1 ∈ s5.vms, v1.id = vm.id ∧ v1.name = vm.name := by
        intro vm hvm
        have hvm2 : vm ∈ s2.vms := by
          rw [k2V, n1V]
          exact hvm
        obtain ⟨v3, hv3, hid3, hname3⟩ := w3mem vm hvm2
        obtain ⟨v4, hv4, hid4, hname4⟩ := l4mem v3 hv3
        obtain ⟨v5, hv5, hid5, hname5⟩ := d5mem v4 hv4
        exact ⟨v5, hv5, by rw [hid5, hid4, hid3], by rw [hname5, hname4, hname3]⟩
      have hchain5 : (∀ k, 1 ≤ k →
          (find_vm (workerVmNameOf (networkNameOf repoName uniqueId) (k + 1)) s).isSome = true →
          (find_vm (workerVmNameOf (networkNameOf repoName uniqueId) k) s).isSome = true) →
          ∀ k, 0 + 1 ≤ k →
            (find_vm (workerVmNameOf (networkNameOf repoName uniqueId) (k + 1)) s5).isSome = true →
            (find_vm (workerVmNameOf (networkNameOf repoName uniqueId) k) s5).isSome = true := by
        intro hcontig k hk hsome
        have hs2vms : s2.vms = s.vms := by rw [k2V, n1V]
        have hup : ∀ m (v : VMR), 0 + 1 ≤ m →
            find_vm (workerVmNameOf (networkNameOf repoName uniqueId) m) s = some v →
            ∃ v1, find_vm (workerVmNameOf (networkNameOf repoName uniqueId) m) s5 = some v1 := by
          intro m v hm hfd
          have hfd2 : find_vm (workerVmNameOf (networkNameOf repoName uniqueId) m) s2 = some v := by
            rw [find_vm_congr hs2vms]
            exact hfd
          obtain ⟨v3, hv3, _, _, _⟩ := w3pres _ v hfd2
            (fun h => webVmNameOf_ne_workerVmNameOf (networkNameOf repoName uniqueId) m h.symm)
          obtain ⟨v4, hv4, _, _, _⟩ := l4out _ v3 hv3
            (fun j hj hj2 h => by
              have := workerVmNameOf_inj h
              omega)
          obtain ⟨v5, hv5, _, _, _⟩ := d5pres _ v4 hv4
            (fun h => dbVmNameOf_ne_workerVmNameOf (networkNameOf repoName uniqueId) m h.symm)
          exact ⟨v5, hv5⟩
        have hdown : ∀ m, 0 + 1 ≤ m →
            find_vm (workerVmNameOf (networkNameOf repoName uniqueId) m) s = none →
            find_vm (workerVmNameOf (networkNameOf repoName uniqueId) m) s5 = none := by
          intro m hm hfd
          have hfd2 : find_vm (workerVmNameOf (networkNameOf repoName uniqueId) m) s2 = none := by
            rw [find_vm_congr hs2vms]
            exact hfd
          have h3 := w3none _ hfd2 (fun h => webVmNameOf_ne_workerVmNameOf (networkNameOf repoName uniqueId) m h.symm)
          have h4 := l4none _ h3 (fun j hj hj2 h => by
            have := workerVmNameOf_inj h
            omega)
          exact d5none _ h4 (fun h => dbVmNameOf_ne_workerVmNameOf (networkNameOf repoName uniqueId) m h.symm)
        have hSsome : (find_vm (workerVmNameOf (networkNameOf repoName uniqueId) (k + 1)) s).isSome = true := by
          by_contra hns
          have hnone : find_vm (workerVmNameOf (networkNameOf repoName uniqueId) (k + 1)) s = none := by
            cases hfd : find_vm (workerVmNameOf (networkNameOf repoName uniqueId) (k + 1)) s with
            | none => rfl
            | some v =>
              rw [hfd] at hns
              exact absurd rfl hns
          rw [hdown (k + 1) (by omega) hnone] at hsome
          cases hsome
        have hks := hcontig k (by omega) hSsome
        obtain ⟨v, hv⟩ := Option.isSome_iff_exists.mp hks
        obtain ⟨v1, hv1⟩ := hup k v (by omega) hv
        rw [hv1]
        rfl
      have hdes5 : 0 = if cfg.workersEnabled then cfg.workersReplicas else 0 := by
        simp [hwe]
      have hwoE5 : cfg.workersEnabled = true →
          resolve_service_offering env cfg.workersPlan = .ok "" := by
        intro h
        rw [hwe] at h
        exact Bool.noConfusion h
      have hwoD5 : cfg.workersEnabled = false → ("" : String) = "" := fun _ => rfl
      have hwlen5 : cfg.workersEnabled = true → ([] : List Nat).length = cfg.workersReplicas := by
        intro h
        rw [hwe] at h
        exact Bool.noConfusion h
      have hwnil5 : cfg.workersEnabled = false → ([] : List Nat) = [] := fun _ => rfl
      have hdoE5 : cfg.dbEnabled = true →
          resolve_service_offering env cfg.dbPlan = .ok dbOffId := fun _ => hdres
      have hdoD5 : cfg.dbEnabled = false → dbOffId = "" := by
        intro h
        rw [hde] at h
        exact Bool.noConfusion h
      have hdbE5 : cfg.dbEnabled = true → ∃ d0, (some d) = some d0 := fun _ => ⟨d, rfl⟩
      have hdbD5 : cfg.dbEnabled = false → (some d) = none := by
        intro h
        rw [hde] at h
        exact Bool.noConfusion h
      exact post_deploy_assemble env cfg repoName uniqueId zoneId netOffId diskOffId
        webOffId "" dbOffId tmplId (String.intercalate "," (resolve_all_zone_ids env))
        netId webVmId 0 ([] : List Nat) (some d) s s5 hwf5 hdes5 hz hno hdo hwo htm
        hwoE5 hwoD5 hdoE5 hdoD5 hnet5 hkp5 hweb5 hwfact5 hwlen5 hwnil5 hdb5 hdbE5
        hdbD5 hkeys5 hvms5 hfw5 hips5 hlog5 hchain5 hrun
    | false =>
      simp only [hde, Bool.false_eq_true, if_false, exbind_ok] at hrun
      cases hnp : networkPhase (networkNameOf repoName uniqueId) netOffId zoneId s with
      | mk netId s1 =>
      simp only [hnp] at hrun
      obtain ⟨hnet1, n1K, n1V, n1Vol, n1I, n1F, n1P, n1Fr, n1Log⟩ := networkPhase_fwd hnp
      have hwf1 : WF s1 := WF_mono n1V n1I n1Vol n1Fr hwf
      obtain ⟨hkp2, k2N, k2V, k2Vol, k2I, k2F, k2P, k2Fr, k2Log⟩ :=
        keypairPhase_fwd (keypairNameOf (networkNameOf repoName uniqueId)) publicKey s1
      set s2 := keypairPhase (keypairNameOf (networkNameOf repoName uniqueId)) publicKey s1 with hS2
      have hwf2 : WF s2 := WF_mono k2V k2I k2Vol (le_of_eq k2Fr.symm) hwf1
      cases hwd : deploy_vm env (webVmNameOf (networkNameOf repoName uniqueId)) webOffId tmplId zoneId netId
          (keypairNameOf (networkNameOf repoName uniqueId)) s2 with
      | mk webVmId s3 =>
      simp only [hwd] at hrun
      obtain ⟨w3N, w3K, w3Vol, w3I, w3F, w3P, w3Fr, w3Log,
        ⟨vmW3, hvmW3, hvmW3id, hvmW3off⟩, w3evo⟩ := deploy_vm_fwd hwd
      obtain ⟨w3pres, w3none, w3mem, w3wf⟩ := deploy_vm_pres hwd hwf2.1
      have hwf3 : WF s3 := w3wf hwf2
      have hwl : deployWorkersLoop env (networkNameOf repoName uniqueId) "" tmplId zoneId netId
          (keypairNameOf (networkNameOf repoName uniqueId)) 1 0 s3 = ([], s3) := rfl
      obtain ⟨hwf4, hwlen4, l4N, l4K, l4Vol, l4I, l4F, l4P, l4Fr, l4Log, hwfact4,
        l4pres, l4none, l4mem⟩ := deployWorkersLoop_fwd env (networkNameOf repoName uniqueId) "" tmplId
        zoneId netId (keypairNameOf (networkNameOf repoName uniqueId)) 0 1 s3 [] s3 hwl hwf3
      have l4out := deployWorkersLoop_pres_out env (networkNameOf repoName uniqueId) "" tmplId zoneId
        netId (keypairNameOf (networkNameOf repoName uniqueId)) 0 1 s3 [] s3 hwl hwf3
      have hwf5 : WF s3 := hwf4
      have hnets : s3.networks = s1.networks := by
        rw [l4N, w3N, k2N]
      have hkps : s3.keypairs = s2.keypairs := by
        rw [l4K, w3K]
      have hnet5 : find_network (networkNameOf repoName uniqueId) s3 = some netId := by
        rw [find_network_congr hnets]
        exact hnet1
      have hkp5 : find_keypair (keypairNameOf (networkNameOf repoName uniqueId)) s3 = true := by
        rw [find_keypair_congr hkps]
        exact hkp2
      have hfw5 : s3.fwRules = s.fwRules := by
        rw [l4F, w3F, k2F, n1F]
      have hips5 : s3.ips = s.ips := by
        rw [l4I, w3I, k2I, n1I]
      have hlog5 : ∃ pre, s3.log = s.log ++ pre := append_ext_trans (append_ext_trans (append_ext_trans n1Log k2Log) w3Log) l4Log
      have hweb5 : ∃ vmW, find_vm (webVmNameOf (networkNameOf repoName uniqueId)) s3 = some vmW ∧
          vmW.id = webVmId ∧ (vmW.offering = webOffId ∨ vmW.offering = "") := by
        obtain ⟨v4, hv4, hid4, hname4, hoff4⟩ := l4pres (webVmNameOf (networkNameOf repoName uniqueId)) vmW3 hvmW3
          (fun j hj h => webVmNameOf_ne_workerVmNameOf (networkNameOf repoName uniqueId) j h)
        refine ⟨v4, hv4, by rw [hid4, hvmW3id], ?_⟩
        rw [hoff4]
        exact hvmW3off
      have hwfact5 : WorkersFact (networkNameOf repoName uniqueId) 1 ([] : List Nat) "" s3 := by
        refine workersFact_pres hwfact4 ?_
        intro k v hk hk2 hfd
        exact ⟨v, hfd, rfl, rfl⟩
      have hdb5 : ∀ d0, (none : Option Nat) = some d0 →
          ∃ vmD, find_vm (dbVmNameOf (networkNameOf repoName uniqueId)) s3 = some vmD ∧ vmD.id = d0 ∧
            (vmD.offering = ("" : String) ∨ vmD.offering = "") :=
        fun d0 hd0 => Option.noConfusion hd0
      have hkeys5 : ((assignmentsOf webVmId ([] : List Nat) (none : Option Nat)).map (·.2)).Nodup := by
        refine assignments_keys_nodup hwf5.1 ?_ hwfact5 ?_
        · obtain ⟨vmW, h1, h2, _⟩ := hweb5
          exact ⟨vmW, h1, h2⟩
        · intro d0 hd0
          obtain ⟨vmD, h1, h2, _⟩ := hdb5 d0 hd0
          exact ⟨vmD, h1, h2⟩
      have hvms5 : ∀ vm ∈ s.vms, ∃ v1 ∈ s3.vms, v1.id = vm.id ∧ v1.name = vm.name := by
        intro vm hvm
        have hvm2 : vm ∈ s2.vms := by
          rw [k2V, n1V]
          exact hvm
        obtain ⟨v3, hv3, hid3, hname3⟩ := w3mem vm hvm2
        obtain ⟨v4, hv4, hid4, hname4⟩ := l4mem v3 hv3
        exact ⟨v4, hv4, by rw [hid4, hid3], by rw [hname4, hname3]⟩
      have hchain5 : (∀ k, 1 ≤ k →
          (find_vm (workerVmNameOf (networkNameOf repoName uniqueId) (k + 1)) s).isSome = true →
          (find_vm (workerVmNameOf (networkNameOf repoName uniqueId) k) s).isSome = true) →
          ∀ k, 0 + 1 ≤ k →
            (find_vm (workerVmNameOf (networkNameOf repoName uniqueId) (k + 1)) s3).isSome = true →
            (find_vm (workerVmNameOf (networkNameOf repoName uniqueId) k) s3).isSome = true := by
        intro hcontig k hk hsome
        have hs2vms : s2.vms = s.vms := by rw [k2V, n1V]
        have hup : ∀ m (v : VMR), 0 + 1 ≤ m →
            find_vm (workerVmNameOf (networkNameOf repoName uniqueId) m) s = some v →
            ∃ v1, find_vm (workerVmNameOf (networkNameOf repoName uniqueId) m) s3 = some v1 := by
          intro m v hm hfd
          have hfd2 : find_vm (workerVmNameOf (networkNameOf repoName uniqueId) m) s2 = some v := by
            rw [find_vm_congr hs2vms]
            exact hfd
          obtain ⟨v3, hv3, _, _, _⟩ := w3pres _ v hfd2
            (fun h => webVmNameOf_ne_workerVmNameOf (networkNameOf repoName uniqueId) m h.symm)
          obtain ⟨v4, hv4, _, _, _⟩ := l4out _ v3 hv3
            (fun j hj hj2 h => by
              have := workerVmNameOf_inj h
              omega)
          exact ⟨v4, hv4⟩
        have hdown : ∀ m, 0 + 1 ≤ m →
            find_vm (workerVmNameOf (networkNameOf repoName uniqueId) m) s = none →
            find_vm (workerVmNameOf (networkNameOf repoName uniqueId) m) s3 = none := by
          intro m hm hfd
          have hfd2 : find_vm (workerVmNameOf (networkNameOf repoName uniqueId) m) s2 = none := by
            rw [find_vm_congr hs2vms]
            exact hfd
          have h3 := w3none _ hfd2 (fun h => webVmNameOf_ne_workerVmNameOf (networkNameOf repoName uniqueId) m h.symm)
          have h4 := l4none _ h3 (fun j hj hj2 h => by
            have := workerVmNameOf_inj h
            omega)
          exact h4
        have hSsome : (find_vm (workerVmNameOf (networkNameOf repoName uniqueId) (k + 1)) s).isSome = true := by
          by_contra hns
          have hnone : find_vm (workerVmNameOf (networkNameOf repoName uniqueId) (k + 1)) s = none := by
            cases hfd : find_vm (workerVmNameOf (networkNameOf repoName uniqueId) (k + 1)) s with
            | none => rfl
            | some v =>
              rw [hfd] at hns
              exact absurd rfl hns
          rw [hdown (k + 1) (by omega) hnone] at hsome
          cases hsome
        have hks := hcontig k (by omega) hSsome
        obtain ⟨v, hv⟩ := Option.isSome_iff_exists.mp hks
        obtain ⟨v1, hv1⟩ := hup k v (by omega) hv
        rw [hv1]
        rfl
      have hdes5 : 0 = if cfg.workersEnabled then cfg.workersReplicas else 0 := by
        simp [hwe]
      have hwoE5 : cfg.workersEnabled = true →
          resolve_service_offering env cfg.workersPlan = .ok "" := by
        intro h
        rw [hwe] at h
        exact Bool.noConfusion h
      have hwoD5 : cfg.workersEnabled = false → ("" : String) = "" := fun _ => rfl
      have hwlen5 : cfg.workersEnabled = true → ([] : List Nat).length = cfg.workersReplicas := by
        intro h
        rw [hwe] at h
        exact Bool.noConfusion h
      have hwnil5 : cfg.workersEnabled = false → ([] : List Nat) = [] := fun _ => rfl
      have hdoE5 : cfg.dbEnabled = true →
          resolve_service_offering env cfg.dbPlan = .ok "" := by
        intro h
        rw [hde] at h
        exact Bool.noConfusion h
      have hdoD5 : cfg.dbEnabled = false → ("" : String) = "" := fun _ => rfl
      have hdbE5 : cfg.dbEnabled = true → ∃ d0, (none : Option Nat) = some d0 := by
        intro h
        rw [hde] at h
        exact Bool.noConfusion h
      have hdbD5 : cfg.dbEnabled = false → (none : Option Nat) = none := fun _ => rfl
      exact post_deploy_assemble env cfg repoName uniqueId zoneId netOffId diskOffId
        webOffId "" "" tmplId (String.intercalate "," (resolve_all_zone_ids env))
        netId webVmId 0 ([] : List Nat) (none : Option Nat) s s3 hwf5 hdes5 hz hno hdo hwo htm
        hwoE5 hwoD5 hdoE5 hdoD5 hnet5 hkp5 hweb5 hwfact5 hwlen5 hwnil5 hdb5 hdbE5
        hdbD5 hkeys5 hvms5 hfw5 hips5 hlog5 hchain5 hrun

/-! ## Concrete accounts for the run-level checks -/

def c1Env : Env :=
  ⟨[("z", "z1")], [("Default Guest Network", "no1")], [("small", "so1")],
   [("data.disk.general", "do1")],
   [⟨"tmpl1", "Ubuntu 24.04", 5, "z1", true⟩], false⟩

def c1Cfg : Config := ⟨"z", "small", 1, false, 0, "small", false, "small", 1⟩

def c1St : St := ⟨[], [], [], [], [], [], [], 1, []⟩

/-- The account after `provision`'s head phases on `c1St` (network, key
pair, web VM), entering the scale-down loop. -/
def c1Mid : St :=
  ⟨[⟨1, "app-1", "z1"⟩], ["app-1-key"],
   [⟨2, "app-1-web", "Running", "so1", 1, "nic-2"⟩], [], [], [], [], 3,
   [.createNetwork "app-1" "no1" "z1", .registerKeypair "app-1-key" "pk",
    .deployVM "app-1-web" "so1" "tmpl1" "z1" 1 "app-1-key"]⟩

def c1Out : Output :=
  ⟨"app-1", 1, "app-1-key", 2, none, none, "ip-3", 3, none, none, none, 7, none,
   "nic-2", none, none⟩

def c1After : St :=
  ⟨[⟨1, "app-1", "z1"⟩], ["app-1-key"],
   [⟨2, "app-1-web", "Running", "so1", 1, "nic-2"⟩],
   [⟨7, "app-1-blob", true, some 2, 1073741824, "z1", [("locaweb-ai-deploy-id", "app-1")]⟩],
   [⟨3, "ip-3", 1, false, true, some 2⟩],
   [⟨4, 3, 22, 22, "TCP", "0.0.0.0/0"⟩, ⟨5, 3, 80, 80, "TCP", "0.0.0.0/0"⟩,
    ⟨6, 3, 443, 443, "TCP", "0.0.0.0/0"⟩],
   [⟨8, 7⟩], 9,
   [.createNetwork "app-1" "no1" "z1", .registerKeypair "app-1-key" "pk",
    .deployVM "app-1-web" "so1" "tmpl1" "z1" 1 "app-1-key",
    .associateIP 1, .enableStaticNat 3 2,
    .createFirewallRule 3 22 22 "TCP" "0.0.0.0/0",
    .createFirewallRule 3 80 80 "TCP" "0.0.0.0/0",
    .createFirewallRule 3 443 443 "TCP" "0.0.0.0/0",
    .createVolume "app-1-blob" "do1" "z1" 1,
    .createTags 7 "locaweb-ai-deploy-id" "app-1",
    .attachVolume 7 2,
    .createSnapshotPolicy 7 "00:03" 3 "America/Sao_Paulo" "z1"
      "locaweb-ai-deploy-id" "app-1"]⟩

theorem c1_run : provision c1Env c1Cfg "app" "1" "pk" c1St = .ok (c1Out, c1After) := by
  rw [show provision c1Env c1Cfg "app" "1" "pk" c1St
    = provisionTail c1Cfg "app-1" "z1" "do1" "z1" 1 2 [] none
        (removeExcessLoop "app-1" 1 1 c1Mid) from rfl]
  rw [removeExcessLoop_none
    (show find_vm (workerVmNameOf "app-1" 1) c1Mid = none from rfl)]
  rfl

/-- C1: from a well-formed account (pairwise-distinct VM ids, VM names,
public-IP ids and volume ids), a successful `provision(config)` is
idempotent: an immediately repeated `provision(config)` with no interleaved
external mutation issues zero mutating (non-list) cmk commands — the state,
including its command log, is returned unchanged — and its
`ProvisionOutput` equals the first run's. -/
theorem provision_idempotent (env : Env) (cfg : Config)
    (repoName uniqueId publicKey : String) (s : St) (o : Output) (s' : St)
    (hwf : WF s)
    (hrun : provision env cfg repoName uniqueId publicKey s = .ok (o, s')) :
    provision env cfg repoName uniqueId publicKey s' = .ok (o, s') :=
  provision_noop_of_converged env cfg repoName uniqueId publicKey o s'
    (provision_fwd env cfg repoName uniqueId publicKey s hwf hrun).1

theorem provision_idempotent_witness :
    provision c1Env c1Cfg "app" "1" "pk" c1After = .ok (c1Out, c1After) :=
  provision_idempotent c1Env c1Cfg "app" "1" "pk" c1St c1Out c1After
    (by unfold WF; decide) c1_run

/-! ## A run that scales down one excess worker -/

def c5St : St :=
  ⟨[⟨5, networkNameOf "app" "1", "z1"⟩], [],
   [⟨7, workerVmNameOf (networkNameOf "app" "1") 1, "Running", "so1", 5, "10.0.0.7"⟩],
   [], [⟨8, "ip-8", 5, false, true, some 7⟩],
   [⟨9, 8, 22, 22, "TCP", "0.0.0.0/0"⟩], [], 10, []⟩

def c5Mid : St :=
  ⟨[⟨5, "app-1", "z1"⟩], ["app-1-key"],
   [⟨7, "app-1-worker-1", "Running", "so1", 5, "10.0.0.7"⟩,
    ⟨10, "app-1-web", "Running", "so1", 5, "nic-10"⟩],
   [], [⟨8, "ip-8", 5, false, true, some 7⟩],
   [⟨9, 8, 22, 22, "TCP", "0.0.0.0/0"⟩], [], 11,
   [.registerKeypair "app-1-key" "pk",
    .deployVM "app-1-web" "so1" "tmpl1" "z1" 5 "app-1-key"]⟩

def c5Out : Output :=
  ⟨"app-1", 5, "app-1-key", 10, none, none, "ip-11", 11, none, none, none, 15, none,
   "nic-10", none, none⟩

def c5After : St :=
  ⟨[⟨5, "app-1", "z1"⟩], ["app-1-key"],
   [⟨10, "app-1-web", "Running", "so1", 5, "nic-10"⟩],
   [⟨15, "app-1-blob", true, some 10, 1073741824, "z1",
     [("locaweb-ai-deploy-id", "app-1")]⟩],
   [⟨11, "ip-11", 5, false, true, some 10⟩],
   [⟨12, 11, 22, 22, "TCP", "0.0.0.0/0"⟩, ⟨13, 11, 80, 80, "TCP", "0.0.0.0/0"⟩,
    ⟨14, 11, 443, 443, "TCP", "0.0.0.0/0"⟩],
   [⟨16, 15⟩], 17,
   [.registerKeypair "app-1-key" "pk",
    .deployVM "app-1-web" "so1" "tmpl1" "z1" 5 "app-1-key",
    .disableStaticNat 8, .deleteFirewallRule 9, .disassociateIP 8,
    .destroyVM 7 true,
    .associateIP 5, .enableStaticNat 11 10,
    .createFirewallRule 11 22 22 "TCP" "0.0.0.0/0",
    .createFirewallRule 11 80 80 "TCP" "0.0.0.0/0",
    .createFirewallRule 11 443 443 "TCP" "0.0.0.0/0",
    .createVolume "app-1-blob" "do1" "z1" 1,
    .createTags 15 "locaweb-ai-deploy-id" "app-1",
    .attachVolume 15 10,
    .createSnapshotPolicy 15 "00:03" 3 "America/Sao_Paulo" "z1"
      "locaweb-ai-deploy-id" "app-1"]⟩

theorem c5_run : provision c1Env c1Cfg "app" "1" "pk" c5St = .ok (c5Out, c5After) := by
  rw [show provision c1Env c1Cfg "app" "1" "pk" c5St
    = provisionTail c1Cfg "app-1" "z1" "do1" "z1" 5 10 [] none
        (removeExcessLoop "app-1" 5 1 c5Mid) from rfl]
  rw [removeExcessLoop_some (show find_vm (workerVmNameOf "app-1" 1) c5Mid
    = some ⟨7, "app-1-worker-1", "Running", "so1", 5, "10.0.0.7"⟩ from rfl)]
  rw [removeExcessLoop_none (show find_vm (workerVmNameOf "app-1" 2)
    (remove_vm_and_ip (⟨7, "app-1-worker-1", "Running", "so1", 5,
      "10.0.0.7"⟩ : VMR).id 5 c5Mid) = none from rfl)]
  rfl

/-- C5: after a successful `provision` from a well-formed account with
pairwise-distinct firewall-rule ids whose worker VMs are contiguously named
from `worker-1`, no VM named `{networkName}-worker-k` with `k` above the
desired count remains; the log decomposes around one removal sequence per
destroyed VM, and each pre-state excess worker gets exactly the sequence
`remove_vm_and_ip` prescribes for its own pre-state public-IP binding:
disable static NAT (exactly when enabled on that IP), delete that IP's
firewall rules in listing order, disassociate that IP, destroy the VM with
`expunge=true` — a bare destroy when it holds no (non-source-NAT) public
IP. -/
theorem provision_removes_excess_workers (env : Env) (cfg : Config)
    (repoName uniqueId publicKey : String) (s : St) (o : Output) (s' : St)
    (hwf : WF s)
    (hfwids : (s.fwRules.map (·.id)).Nodup)
    (hcontig : ∀ k, 1 ≤ k →
      (find_vm (workerVmNameOf (networkNameOf repoName uniqueId) (k + 1)) s).isSome
        = true →
      (find_vm (workerVmNameOf (networkNameOf repoName uniqueId) k) s).isSome = true)
    (hrun : provision env cfg repoName uniqueId publicKey s = .ok (o, s')) :
    (∀ k, (if cfg.workersEnabled then cfg.workersReplicas else 0) < k →
      find_vm (workerVmNameOf (networkNameOf repoName uniqueId) k) s' = none) ∧
    (∃ (pre : List Cmd) (segs : List (List Cmd)) (post : List Cmd),
      s'.log = s.log ++ pre ++ segs.flatten ++ post ∧
      (∀ seg ∈ segs, ∃ vmId, removalSeg vmId seg) ∧
      (∀ vm ∈ s.vms, ∀ k, (if cfg.workersEnabled then cfg.workersReplicas else 0) < k →
        vm.name = workerVmNameOf (networkNameOf repoName uniqueId) k →
        ∃ seg ∈ segs, removalSegFor o.network_id s vm.id seg)) := by
  obtain ⟨hnone, pre, segs, post, hlog, hshape, hall, hfor⟩ :=
    (provision_fwd env cfg repoName uniqueId publicKey s hwf hrun).2.1 hcontig
  exact ⟨hnone, pre, segs, post, hlog, hshape, hfor hfwids⟩

theorem c5_contig : ∀ k, 1 ≤ k →
    (find_vm (workerVmNameOf (networkNameOf "app" "1") (k + 1)) c5St).isSome = true →
    (find_vm (workerVmNameOf (networkNameOf "app" "1") k) c5St).isSome = true := by
  intro k hk hsome
  exfalso
  have hnone : find_vm (workerVmNameOf (networkNameOf "app" "1") (k + 1)) c5St
      = none := by
    unfold find_vm
    rw [List.find?_eq_none]
    intro v hv
    have hv1 : v = ⟨7, workerVmNameOf (networkNameOf "app" "1") 1, "Running", "so1", 5,
        "10.0.0.7"⟩ := List.mem_singleton.mp hv
    subst hv1
    simp only [beq_iff_eq]
    intro heq
    have h2 := workerVmNameOf_inj
      (show workerVmNameOf (networkNameOf "app" "1") 1
        = workerVmNameOf (networkNameOf "app" "1") (k + 1) from heq)
    omega
  rw [hnone] at hsome
  cases hsome

theorem provision_removes_excess_workers_witness :
    (∀ k, (if c1Cfg.workersEnabled then c1Cfg.workersReplicas else 0) < k →
      find_vm (workerVmNameOf (networkNameOf "app" "1") k) c5After = none) ∧
    (∃ (pre : List Cmd) (segs : List (List Cmd)) (post : List Cmd),
      c5After.log = c5St.log ++ pre ++ segs.flatten ++ post ∧
      (∀ seg ∈ segs, ∃ vmId, removalSeg vmId seg) ∧
      (∀ vm ∈ c5St.vms, ∀ k,
        (if c1Cfg.workersEnabled then c1Cfg.workersReplicas else 0) < k →
        vm.name = workerVmNameOf (networkNameOf "app" "1") k →
        ∃ seg ∈ segs, removalSegFor c5Out.network_id c5St vm.id seg)) :=
  provision_removes_excess_workers c1Env c1Cfg "app" "1" "pk" c5St c5Out c5After
    (by unfold WF; decide) (by decide) c5_contig c5_run

/-- C6: after any successful `provision` from a well-formed account in which
no pre-existing firewall rule sits on an IP the run ends up owning (the
reconciler as sole writer, owned IPs starting pristine), the web IP carries
exactly the start ports 22, 80, 443 and every other owned IP exactly 22;
the firewall step deletes nothing (the final rules are the surviving
pre-state rules followed by the created ones), and every created rule is
TCP, CIDR 0.0.0.0/0, with startport = endport ∈ {22, 80, 443}. -/
theorem provision_firewall_minimal (env : Env) (cfg : Config)
    (repoName uniqueId publicKey : String) (s : St) (o : Output) (s' : St)
    (hwf : WF s)
    (hrun : provision env cfg repoName uniqueId publicKey s = .ok (o, s'))
    (hpristine : ∀ r ∈ s.fwRules, ¬ r.ipId ∈ ownedIpIds o s') :
    portsOf o.web_ip_id s' = [22, 80, 443] ∧
    (∀ i ∈ ownedIpIds o s', ¬ i = o.web_ip_id → portsOf i s' = [22]) ∧
    (∃ kept created, s'.fwRules = kept ++ created ∧ kept.Sublist s.fwRules ∧
      ∀ r ∈ created, r.protocol = "TCP" ∧ r.cidr = "0.0.0.0/0" ∧
        r.startport = r.endport ∧
        (r.startport = 22 ∨ r.startport = 80 ∨ r.startport = 443)) := by
  obtain ⟨-, -, wIpIds, kept, created, howned, hsplit, hsub, hshape, hcond⟩ :=
    provision_fwd env cfg repoName uniqueId publicKey s hwf hrun
  have hkeptpr : ∀ r ∈ kept, ¬ r.ipId ∈ o.web_ip_id :: (wIpIds ++ o.db_ip_id.toList) := by
    intro r hr
    rw [← howned]
    exact hpristine r (hsub.subset hr)
  obtain ⟨hweb, hothers⟩ := hcond hkeptpr
  refine ⟨hweb, ?_, kept, created, hsplit, hsub, hshape⟩
  intro i hi hine
  rw [howned] at hi
  exact hothers i hi hine

theorem provision_firewall_minimal_witness :
    portsOf c1Out.web_ip_id c1After = [22, 80, 443] ∧
    (∀ i ∈ ownedIpIds c1Out c1After, ¬ i = c1Out.web_ip_id →
      portsOf i c1After = [22]) ∧
    (∃ kept created, c1After.fwRules = kept ++ created ∧ kept.Sublist c1St.fwRules ∧
      ∀ r ∈ created, r.protocol = "TCP" ∧ r.cidr = "0.0.0.0/0" ∧
        r.startport = r.endport ∧
        (r.startport = 22 ∨ r.startport = 80 ∨ r.startport = 443)) :=
  provision_firewall_minimal c1Env c1Cfg "app" "1" "pk" c1St c1Out c1After
    (by unfold WF; decide) c1_run
    (fun r hr => absurd hr (List.not_mem_nil r))

/-! ## Two same-named workers break the unqualified idempotence claim -/

def dupSt : St :=
  ⟨[⟨5, "app-7", "z1"⟩], [],
   [⟨100, "app-7-worker-1", "Running", "so1", 5, "10.0.0.100"⟩,
    ⟨101, "app-7-worker-1", "Running", "so1", 5, "10.0.0.101"⟩],
   [], [], [], [], 200, []⟩

def dupMid : St :=
  ⟨[⟨5, "app-7", "z1"⟩], ["app-7-key"],
   [⟨100, "app-7-worker-1", "Running", "so1", 5, "10.0.0.100"⟩,
    ⟨101, "app-7-worker-1", "Running", "so1", 5, "10.0.0.101"⟩,
    ⟨200, "app-7-web", "Running", "so1", 5, "nic-200"⟩],
   [], [], [], [], 201,
   [.registerKeypair "app-7-key" "pk",
    .deployVM "app-7-web" "so1" "tmpl1" "z1" 5 "app-7-key"]⟩

def dupOut : Output :=
  ⟨"app-7", 5, "app-7-key", 200, none, none, "ip-201", 201, none, none, none, 205,
   none, "nic-200", none, none⟩

def dupLog1 : List Cmd :=
  [.registerKeypair "app-7-key" "pk",
   .deployVM "app-7-web" "so1" "tmpl1" "z1" 5 "app-7-key",
   .destroyVM 100 true,
   .associateIP 5, .enableStaticNat 201 200,
   .createFirewallRule 201 22 22 "TCP" "0.0.0.0/0",
   .createFirewallRule 201 80 80 "TCP" "0.0.0.0/0",
   .createFirewallRule 201 443 443 "TCP" "0.0.0.0/0",
   .createVolume "app-7-blob" "do1" "z1" 1,
   .createTags 205 "locaweb-ai-deploy-id" "app-7",
   .attachVolume 205 200,
   .createSnapshotPolicy 205 "00:03" 3 "America/Sao_Paulo" "z1"
     "locaweb-ai-deploy-id" "app-7"]

def dupAfter1 : St :=
  ⟨[⟨5, "app-7", "z1"⟩], ["app-7-key"],
   [⟨101, "app-7-worker-1", "Running", "so1", 5, "10.0.0.101"⟩,
    ⟨200, "app-7-web", "Running", "so1", 5, "nic-200"⟩],
   [⟨205, "app-7-blob", true, some 200, 1073741824, "z1",
     [("locaweb-ai-deploy-id", "app-7")]⟩],
   [⟨201, "ip-201", 5, false, true, some 200⟩],
   [⟨202, 201, 22, 22, "TCP", "0.0.0.0/0"⟩, ⟨203, 201, 80, 80, "TCP", "0.0.0.0/0"⟩,
    ⟨204, 201, 443, 443, "TCP", "0.0.0.0/0"⟩],
   [⟨206, 205⟩], 207, dupLog1⟩

def dupAfter2 : St :=
  ⟨[⟨5, "app-7", "z1"⟩], ["app-7-key"],
   [⟨200, "app-7-web", "Running", "so1", 5, "nic-200"⟩],
   [⟨205, "app-7-blob", true, some 200, 1073741824, "z1",
     [("locaweb-ai-deploy-id", "app-7")]⟩],
   [⟨201, "ip-201", 5, false, true, some 200⟩],
   [⟨202, 201, 22, 22, "TCP", "0.0.0.0/0"⟩, ⟨203, 201, 80, 80, "TCP", "0.0.0.0/0"⟩,
    ⟨204, 201, 443, 443, "TCP", "0.0.0.0/0"⟩],
   [⟨206, 205⟩], 207, dupLog1 ++ [.destroyVM 101 true]⟩

theorem dup_run1 : provision c1Env c1Cfg "app" "7" "pk" dupSt = .ok (dupOut, dupAfter1) := by
  rw [show provision c1Env c1Cfg "app" "7" "pk" dupSt
    = provisionTail c1Cfg "app-7" "z1" "do1" "z1" 5 200 [] none
        (removeExcessLoop "app-7" 5 1 dupMid) from rfl]
  rw [removeExcessLoop_some (show find_vm (workerVmNameOf "app-7" 1) dupMid
    = some ⟨100, "app-7-worker-1", "Running", "so1", 5, "10.0.0.100"⟩ from rfl)]
  rw [removeExcessLoop_none (show find_vm (workerVmNameOf "app-7" 2)
    (remove_vm_and_ip (⟨100, "app-7-worker-1", "Running", "so1", 5,
      "10.0.0.100"⟩ : VMR).id 5 dupMid) = none from rfl)]
  rfl

theorem dup_run2 :
    provision c1Env c1Cfg "app" "7" "pk" dupAfter1 = .ok (dupOut, dupAfter2) := by
  rw [show provision c1Env c1Cfg "app" "7" "pk" dupAfter1
    = provisionTail c1Cfg "app-7" "z1" "do1" "z1" 5 200 [] none
        (removeExcessLoop "app-7" 5 1 dupAfter1) from rfl]
  rw [removeExcessLoop_some (show find_vm (workerVmNameOf "app-7" 1) dupAfter1
    = some ⟨101, "app-7-worker-1", "Running", "so1", 5, "10.0.0.101"⟩ from rfl)]
  rw [removeExcessLoop_none (show find_vm (workerVmNameOf "app-7" 2)
    (remove_vm_and_ip (⟨101, "app-7-worker-1", "Running", "so1", 5,
      "10.0.0.101"⟩ : VMR).id 5 dupAfter1) = none from rfl)]
  rfl

/-- C1, unqualified reading refuted: from an account holding two VMs that
both bear the excess worker name `app-7-worker-1` (well-formedness
violated), the first `provision` succeeds but removes only one of them, so
the immediately repeated `provision` — same config, no interleaved external
mutation — issues one further mutating cmk command (`destroy virtualmachine
id=101 expunge=true`) even though it returns the same `ProvisionOutput`. -/
theorem provision_repeat_not_idempotent :
    provision c1Env c1Cfg "app" "7" "pk" dupSt = .ok (dupOut, dupAfter1) ∧
    provision c1Env c1Cfg "app" "7" "pk" dupAfter1 = .ok (dupOut, dupAfter2) ∧
    dupAfter2.log.length = dupAfter1.log.length + 1 :=
  ⟨dup_run1, dup_run2, rfl⟩
